import Mathlib

/-!
Verification development for the analog-circuit simulator in `circuit.hpp`
(namespace `Analog`): nodes, resistors, capacitors, op-amps, the current
evaluator `updateCurrents`, the gradient-descent solver
`adjustNodeVoltages`, the per-sample driver `simulationStep`/`update`,
and the builder/locking discipline.

Modelling conventions (shallow embedding over exact rationals):
* C++ `double` arithmetic is modelled as exact arithmetic in `ℚ`.  The two
  non-algebraic operations of the source are abstracted as parameters:
  - `std::sqrt(magnitude)` (used to normalise the gradient) is a function
    parameter `rsqrt : ℚ → ℚ`; theorems that depend on it carry the
    hypothesis that `rsqrt` is the exact nonnegative square root of the
    value it is applied to.
  - `std::pow(0.5, 1/(rate*halfLife))` (the op-amp slew filter
    coefficient) is a parameter `coeffP`; the real-valued formula itself
    is `opAmpFilterCoeffFormula` below and its range is proved in `ℝ`.
* `updateCurrents` returns the sum of squared currents (as the C++ does);
  the outcomes of `adjustNodeVoltages` that the C++ reports as
  `sqrt(score1)` are modelled by tagged constructors carrying `score1`,
  since the square root of a rational is generally irrational.  The C++
  sentinel `-1.0` is the `progress` constructor, and C++ exceptions are
  explicit error constructors/`Except` values.
* The C++ mutating counters (`totalCurrentUpdates` etc., incremented
  inside the callees) are threaded as explicit call counts returned by
  each function and added to the `Circuit` counters by the callers; the
  totals agree with the source.
* `std::vector<T>::at` bounds errors are surfaced as `Except` errors in
  the builder; inside the locked-phase numeric code, reads use `getD`
  with a default element and theorems carry index-validity hypotheses
  where they matter.
* The C++ upper-bracket line-search loop has no syntactic bound, so it is
  given explicit fuel; exhausting the fuel is a modelling artifact
  reported by a dedicated outcome.
-/

namespace Sloth

/-- Positive supply rail fed to all op-amps (C++ `Circuit::VPOS`). -/
def VPOS : ℚ := 12

/-- Negative supply rail fed to all op-amps (C++ `Circuit::VNEG`). -/
def VNEG : ℚ := -12

/-- One electrical node (C++ `struct Node`).  The three-slot voltage
history `voltage[0..2]` is modelled by the fields `voltage0`, `voltage1`,
`voltage2`. -/
structure Node where
  voltage0 : ℚ
  voltage1 : ℚ
  voltage2 : ℚ
  savedVoltage : ℚ
  current : ℚ
  slope : ℚ
  forced : Bool
deriving DecidableEq, Repr

/-- A value-initialised `Node` (all fields zero, `forced = false`),
as produced by `Node()` in C++. -/
def nodeDefault : Node := ⟨0, 0, 0, 0, 0, 0, false⟩

/-- C++ `struct Resistor`. -/
structure Resistor where
  resistance : ℚ
  aNodeIndex : Nat
  bNodeIndex : Nat
  current : ℚ
deriving DecidableEq, Repr

def resistorDefault : Resistor := ⟨0, 0, 0, 0⟩

/-- C++ `struct Capacitor`; `current[0]`/`current[1]` are `current0` and
`current1`. -/
structure Capacitor where
  capacitance : ℚ
  aNodeIndex : Nat
  bNodeIndex : Nat
  current0 : ℚ
  current1 : ℚ
deriving DecidableEq, Repr

def capacitorDefault : Capacitor := ⟨0, 0, 0, 0, 0⟩

/-- C++ `struct OpAmp`; `voltage[0]`/`voltage[1]` are `voltage0` and
`voltage1`. -/
structure OpAmp where
  posNodeIndex : Nat
  negNodeIndex : Nat
  outNodeIndex : Nat
  current : ℚ
  voltage0 : ℚ
  voltage1 : ℚ
deriving DecidableEq, Repr

def opAmpDefault : OpAmp := ⟨0, 0, 0, 0, 0, 0⟩

/-- Replace the element at index `i` by `f` applied to it; out-of-range
indices leave the list unchanged. -/
def modifyIdx (f : α → α) : Nat → List α → List α
  | _, [] => []
  | 0, a :: l => f a :: l
  | n + 1, a :: l => a :: modifyIdx f n l

/-- The four component collections of `Analog::Circuit` that the numeric
phase operates on. -/
structure SimState where
  nodeList : List Node
  resistorList : List Resistor
  capacitorList : List Capacitor
  opAmpList : List OpAmp
deriving DecidableEq, Repr

/-- Read node `i` (C++ `nodeList.at(i)`; out-of-range reads yield the
default node here, with validity hypotheses carried by the theorems). -/
def SimState.node (s : SimState) (i : Nat) : Node :=
  s.nodeList.getD i nodeDefault

/-- Clamp the instantaneous op-amp output to the supply rails, with the
same branch structure as the C++ (`if (vfast < VNEG) ... else if (vfast >
VPOS) ...`). -/
def clampRail (x : ℚ) : ℚ :=
  if x < VNEG then VNEG else if VPOS < x then VPOS else x

/-- One iteration of the op-amp output-voltage loop of
`Circuit::updateCurrents`: compute the clamped instantaneous output,
low-pass filter it with `coeff`, store it in the op-amp and copy it into
the forced output node. -/
def opAmpVoltageStep (coeff gain : ℚ) (s : SimState) (k : Nat) : SimState :=
  let o := s.opAmpList.getD k opAmpDefault
  let vp := (s.node o.posNodeIndex).voltage0
  let vn := (s.node o.negNodeIndex).voltage0
  let vfast := clampRail (gain * (vp - vn))
  let vout := coeff * o.voltage1 + (1 - coeff) * vfast
  { s with
    opAmpList := modifyIdx (fun a => { a with voltage0 := vout }) k s.opAmpList
    nodeList := modifyIdx (fun n => { n with voltage0 := vout }) o.outNodeIndex s.nodeList }

/-- The op-amp output-voltage loop, in insertion order. -/
def opAmpVoltagePhase (coeff gain : ℚ) (s : SimState) : SimState :=
  (List.range s.opAmpList.length).foldl (opAmpVoltageStep coeff gain) s

/-- `for (Node& n : nodeList) n.current = 0;` -/
def zeroCurrentsPhase (s : SimState) : SimState :=
  { s with nodeList := s.nodeList.map fun n => { n with current := 0 } }

/-- One iteration of the resistor loop of `Circuit::updateCurrents`. -/
def resistorStep (s : SimState) (k : Nat) : SimState :=
  let r := s.resistorList.getD k resistorDefault
  let i := ((s.node r.aNodeIndex).voltage0 - (s.node r.bNodeIndex).voltage0) / r.resistance
  let s1 := { s with resistorList := modifyIdx (fun a => { a with current := i }) k s.resistorList }
  let s2 := { s1 with nodeList := modifyIdx (fun n => { n with current := n.current - i }) r.aNodeIndex s1.nodeList }
  { s2 with nodeList := modifyIdx (fun n => { n with current := n.current + i }) r.bNodeIndex s2.nodeList }

/-- The resistor loop, in insertion order. -/
def resistorPhase (s : SimState) : SimState :=
  (List.range s.resistorList.length).foldl resistorStep s

/-- One iteration of the capacitor loop of `Circuit::updateCurrents`
(trapezoidal update `i_new = 2*meanCurrent - i_prev`). -/
def capacitorStep (dt : ℚ) (s : SimState) (k : Nat) : SimState :=
  let c := s.capacitorList.getD k capacitorDefault
  let na := s.node c.aNodeIndex
  let nb := s.node c.bNodeIndex
  let dV := (na.voltage0 - nb.voltage0) - (na.voltage1 - nb.voltage1)
  let meanCurrent := c.capacitance * (dV / dt)
  let inew := 2 * meanCurrent - c.current1
  let s1 := { s with capacitorList := modifyIdx (fun a => { a with current0 := inew }) k s.capacitorList }
  let s2 := { s1 with nodeList := modifyIdx (fun n => { n with current := n.current - inew }) c.aNodeIndex s1.nodeList }
  { s2 with nodeList := modifyIdx (fun n => { n with current := n.current + inew }) c.bNodeIndex s2.nodeList }

/-- The capacitor loop, in insertion order. -/
def capacitorPhase (dt : ℚ) (s : SimState) : SimState :=
  (List.range s.capacitorList.length).foldl (capacitorStep dt) s

/-- The accumulation part of `Circuit::updateCurrents`: op-amp output
voltages, zeroing of node currents, then the resistor and capacitor
accumulation loops — the state reached immediately before forced-node
currents are harvested/zeroed. -/
def accumPhase (coeff gain dt : ℚ) (s : SimState) : SimState :=
  capacitorPhase dt (resistorPhase (zeroCurrentsPhase (opAmpVoltagePhase coeff gain s)))

/-- One iteration of the op-amp output-current loop:
`o.current = -outNode.current`. -/
def opAmpCurrentStep (s : SimState) (k : Nat) : SimState :=
  let o := s.opAmpList.getD k opAmpDefault
  { s with
    opAmpList := modifyIdx (fun a => { a with current := -(s.node o.outNodeIndex).current }) k s.opAmpList }

def opAmpCurrentPhase (s : SimState) : SimState :=
  (List.range s.opAmpList.length).foldl opAmpCurrentStep s

/-- The score accumulated by the final loop of `Circuit::updateCurrents`:
the sum of squared currents over the nodes whose voltages are not
forced. -/
def scoreOf (s : SimState) : ℚ :=
  ((s.nodeList.filter fun n => !n.forced).map fun n => n.current * n.current).sum

/-- The final loop of `Circuit::updateCurrents` also zeroes the current
of every forced node ("forced voltage nodes must source/sink arbitrary
current"). -/
def zeroForcedPhase (s : SimState) : SimState :=
  { s with nodeList := s.nodeList.map fun n => if n.forced then { n with current := 0 } else n }

/-- C++ `Circuit::updateCurrents` (returns the updated state and the
sum-of-squares score; the `++totalCurrentUpdates` side effect is counted
by the callers). -/
def updateCurrents (coeff gain dt : ℚ) (s : SimState) : SimState × ℚ :=
  let s5 := opAmpCurrentPhase (accumPhase coeff gain dt s)
  (zeroForcedPhase s5, scoreOf s5)

/-- The residual formula claimed by the spec for the current evaluator
(spec section 4.2 step 5), written from the spec's words for comparison
with the source's `updateCurrents`: sum of squared currents over
non-sink nodes plus the square of the summed signed sink currents.  In
the source revision under verification the sink nodes are exactly the
forced-voltage nodes. -/
def specResidualSq (s : SimState) : ℚ :=
  ((s.nodeList.filter fun n => !n.forced).map fun n => n.current * n.current).sum
    + (((s.nodeList.filter fun n => n.forced).map fun n => n.current).sum) ^ 2

/-- Outcome of one call of `Circuit::adjustNodeVoltages`.  The C++
return value is `sqrt(score1)` for `converged`/`halted` (both
nonnegative) and `-1.0` for `progress`; `zeroGradient` models the
`std::logic_error` thrown when the gradient vector is zero, and
`fuelOut` is the modelling artifact for an unbounded line-search
bracket loop. -/
inductive AdjustOut
  | converged (score1 : ℚ)
  | halted (score1 : ℚ)
  | progress
  | zeroGradient
  | fuelOut
deriving DecidableEq, Repr

/-- Accumulator of the partial-derivative probe loop of
`Circuit::adjustNodeVoltages`: the evolving state, the fallback
single-axis candidate (`Node*`/adjustment in C++, here the node index
and the adjustment), the best fallback score, the accumulated squared
gradient magnitude, and the number of `updateCurrents` calls made so
far. -/
structure ProbeAcc where
  sim : SimState
  fallback : Option (Nat × ℚ)
  fallbackScore : ℚ
  magnitude : ℚ
  calls : Nat
deriving DecidableEq, Repr

/-- The first write of a probe iteration on node `k`:
`savedVoltage = voltage[0]; voltage[0] += deltaVoltage`. -/
def probeWriteA (delta : ℚ) (k : Nat) (s : SimState) : SimState :=
  let l := modifyIdx (fun m => { m with savedVoltage := m.voltage0, voltage0 := m.voltage0 + delta }) k s.nodeList
  { s with nodeList := l }

/-- The second write of a probe iteration:
`voltage[0] = savedVoltage - deltaVoltage`. -/
def probeWriteC (delta : ℚ) (k : Nat) (s : SimState) : SimState :=
  let l := modifyIdx (fun m => { m with voltage0 := m.savedVoltage - delta }) k s.nodeList
  { s with nodeList := l }

/-- The last write of a probe iteration: store the slope and restore
`voltage[0] = savedVoltage`. -/
def probeWriteE (slope : ℚ) (k : Nat) (s : SimState) : SimState :=
  let l := modifyIdx (fun m => { m with slope := slope, voltage0 := m.savedVoltage }) k s.nodeList
  { s with nodeList := l }

/-- One iteration of the probe loop: skip forced nodes; otherwise save
the voltage, evaluate at `+delta` and `-delta`, track the fallback
candidate, store the slope and accumulate its square, and restore the
voltage. -/
def probeStep (coeff gain dt delta : ℚ) (acc : ProbeAcc) (k : Nat) : ProbeAcc :=
  if (acc.sim.node k).forced then acc else
  let eB := updateCurrents coeff gain dt (probeWriteA delta k acc.sim)
  let fb1 : Option (Nat × ℚ) × ℚ :=
    if eB.2 < acc.fallbackScore then (some (k, delta), eB.2) else (acc.fallback, acc.fallbackScore)
  let eD := updateCurrents coeff gain dt (probeWriteC delta k eB.1)
  let fb2 : Option (Nat × ℚ) × ℚ :=
    if eD.2 < fb1.2 then (some (k, -delta), eD.2) else fb1
  let slope := eB.2 - eD.2
  ⟨probeWriteE slope k eD.1, fb2.1, fb2.2, acc.magnitude + slope * slope, acc.calls + 2⟩

/-- The probe loop over all nodes in insertion order, started from the
post-baseline state with fallback score `score1` and one
`updateCurrents` call already made. -/
def probePhase (coeff gain dt delta score1 : ℚ) (s : SimState) : ProbeAcc :=
  (List.range s.nodeList.length).foldl (probeStep coeff gain dt delta) ⟨s, none, score1, 0, 1⟩

/-- The gradient micro-step of `Circuit::adjustNodeVoltages`: for each
unforced node save the voltage, scale the slope by
`-delta/sqrt(magnitude)` (the square root being passed in as
`sqrtMag`), and step the voltage by the scaled slope. -/
def gradientPhase (delta sqrtMag : ℚ) (s : SimState) : SimState :=
  { s with nodeList := s.nodeList.map fun n =>
      if n.forced then n else
        let sl := n.slope * (-delta / sqrtMag)
        { n with savedVoltage := n.voltage0, slope := sl, voltage0 := n.voltage0 + sl } }

/-- C++ `Circuit::voltageStep`: `voltage[0] = savedVoltage + step*slope`
on every unforced node. -/
def voltageStep (step : ℚ) (s : SimState) : SimState :=
  { s with nodeList := s.nodeList.map fun n =>
      if n.forced then n else { n with voltage0 := n.savedVoltage + step * n.slope } }

/-- The early-halt revert: restore every unforced node's voltage from
its saved value. -/
def revertPhase (s : SimState) : SimState :=
  { s with nodeList := s.nodeList.map fun n =>
      if n.forced then n else { n with voltage0 := n.savedVoltage } }

/-- The fallback reset: restore every unforced node's voltage and zero
its slope. -/
def fallbackResetPhase (s : SimState) : SimState :=
  { s with nodeList := s.nodeList.map fun n =>
      if n.forced then n else { n with voltage0 := n.savedVoltage, slope := 0 } }

/-- `fallbackNode->slope = fallbackAdjust`. -/
def setSlopeAt (idx : Nat) (adj : ℚ) (s : SimState) : SimState :=
  { s with nodeList := modifyIdx (fun n => { n with slope := adj }) idx s.nodeList }

/-- The upper-bracket loop of the line search
(`for (alpha = dilation; lineScore < score1; alpha *= dilation)`),
with explicit fuel.  Returns the state after the last evaluation, the
best alpha, the best score, and the call count. -/
def bracketLoop (coeff gain dt score1 : ℚ) :
    Nat → ℚ → ℚ → ℚ → SimState → Nat → Option (SimState × ℚ × ℚ × Nat)
  | 0, _, _, _, _, _ => none
  | fuel + 1, alpha, bestAlpha, bestScore, s, calls =>
    let e := updateCurrents coeff gain dt (voltageStep alpha s)
    let best : ℚ × ℚ := if e.2 < bestScore then (alpha, e.2) else (bestAlpha, bestScore)
    if e.2 < score1 then
      bracketLoop coeff gain dt score1 fuel (alpha * 2) best.1 best.2 e.1 (calls + 1)
    else
      some (e.1, best.1, best.2, calls + 1)

/-- One interior-point iteration of the line search (steps 1..8 of 9):
evaluate at `alpha = lo + step*(hi-lo)/9` and keep the best alpha and
score seen. -/
def interiorStep (coeff gain dt loAlpha hiAlpha : ℚ)
    (acc : SimState × ℚ × ℚ × Nat) (step : Nat) : SimState × ℚ × ℚ × Nat :=
  let alpha := loAlpha + ((step : ℚ) * (hiAlpha - loAlpha)) / 9
  let e := updateCurrents coeff gain dt (voltageStep alpha acc.1)
  if e.2 < acc.2.2.1 then (e.1, alpha, e.2, acc.2.2.2 + 1)
  else (e.1, acc.2.1, acc.2.2.1, acc.2.2.2 + 1)

/-- The line search of `Circuit::adjustNodeVoltages`: bracket upward
from `alpha = 2` (dilation 2, initial best `alpha = 1` with score
`score3`), then probe the 8 interior points of
`(bestAlpha/2, bestAlpha*2)`, and finally step to the best alpha
found, reporting the incomplete-progress outcome. -/
def lineSearch (coeff gain dt score1 score3 : ℚ) (fuel : Nat) (s : SimState) (calls : Nat) :
    AdjustOut × SimState × Nat :=
  match bracketLoop coeff gain dt score1 fuel 2 1 score3 s calls with
  | none => (.fuelOut, s, calls)
  | some (s2, bA, bS, calls2) =>
    let r := (List.range' 1 8).foldl (interiorStep coeff gain dt (bA / 2) (bA * 2)) (s2, bA, bS, calls2)
    (.progress, voltageStep r.2.1 r.1, r.2.2.2)

/-- The part of `Circuit::adjustNodeVoltages` that follows the probe
loop: the zero-gradient check (the C++ throws `std::logic_error`
there), the normalised gradient micro-step, the early-halt check with
its fallback handling, and the line search. -/
def adjustAfterProbe (rsqrt : ℚ → ℚ) (fuel : Nat) (coeff gain dt delta score1 : ℚ)
    (acc : ProbeAcc) : AdjustOut × SimState × Nat :=
  if acc.magnitude = 0 then (.zeroGradient, acc.sim, acc.calls)
  else
    let e3 := updateCurrents coeff gain dt (gradientPhase delta (rsqrt acc.magnitude) acc.sim)
    let calls3 := acc.calls + 1
    if score1 ≤ e3.2 then
      match acc.fallback with
      | none => (.halted score1, revertPhase e3.1, calls3)
      | some (idx, adj) =>
        lineSearch coeff gain dt score1 e3.2 fuel (setSlopeAt idx adj (fallbackResetPhase e3.1)) calls3
    else
      lineSearch coeff gain dt score1 e3.2 fuel e3.1 calls3

/-- C++ `Circuit::adjustNodeVoltages`.  `rsqrt` stands for
`std::sqrt` on the gradient magnitude; `tol` is `scoreTolerance` and
`delta` is `deltaVoltage`.  Returns the outcome, the final state and
the number of `updateCurrents` calls made. -/
def adjustNodeVoltages (rsqrt : ℚ → ℚ) (fuel : Nat) (coeff gain dt tol delta : ℚ)
    (s : SimState) : AdjustOut × SimState × Nat :=
  let e1 := updateCurrents coeff gain dt s
  if e1.2 < tol * tol then (.converged e1.2, e1.1, 1)
  else
    adjustAfterProbe rsqrt fuel coeff gain dt delta e1.2 (probePhase coeff gain dt delta e1.2 e1.1)

/-- C++ `struct SolutionResult`.  The C++ `score` field holds the RMS
value `sqrt` of the sum-of-squares; we carry the sum-of-squares itself
(`scoreSq`), since the square root of a rational is generally
irrational.  The sentinel initialisation `-1.0` of the C++ is kept. -/
structure SolutionResult where
  adjustNodeVoltagesCount : Nat
  currentUpdates : Nat
  scoreSq : ℚ
deriving DecidableEq, Repr

/-- Outcome of `Circuit::simulationStep`: success with a
`SolutionResult`, the propagated zero-gradient `logic_error`, or the
line-search fuel artifact.  Errors carry the mutated state and the
counter increments that the C++ had already applied when the exception
was thrown. -/
inductive StepOut
  | ok (res : SolutionResult) (s : SimState)
  | gradErr (s : SimState) (adjusts : Nat) (calls : Nat)
  | noFuel (s : SimState) (adjusts : Nat) (calls : Nat)
deriving DecidableEq, Repr

/-- Voltage history shift of `Circuit::simulationStep`:
`voltage[2] := voltage[1]; voltage[1] := voltage[0]`. -/
def shiftPhase (s : SimState) : SimState :=
  { s with nodeList := s.nodeList.map fun n =>
      { n with voltage1 := n.voltage0, voltage2 := n.voltage1 } }

/-- `c.current[1] = c.current[0]` for every capacitor. -/
def capShiftPhase (s : SimState) : SimState :=
  { s with capacitorList := s.capacitorList.map fun c => { c with current1 := c.current0 } }

/-- `o.voltage[1] = o.voltage[0]` for every op-amp. -/
def opAmpShiftPhase (s : SimState) : SimState :=
  { s with opAmpList := s.opAmpList.map fun o => { o with voltage1 := o.voltage0 } }

/-- C++ `Circuit::extrapolateUnforcedNodeVoltages`: for each unforced
node, `voltage[0] := voltage[1] + (voltage[1] - voltage[2])`. -/
def extrapolatePhase (s : SimState) : SimState :=
  { s with nodeList := s.nodeList.map fun n =>
      if n.forced then n else { n with voltage0 := n.voltage1 + (n.voltage1 - n.voltage2) } }

/-- The retry loop of `Circuit::simulationStep`: call
`adjustNodeVoltages` up to the remaining retry budget; a nonnegative
return (here: `converged`/`halted`) ends the loop successfully, and on
budget exhaustion one more `updateCurrents` is performed and its score
reported.  `count`/`calls` accumulate the solver iterations and
`updateCurrents` calls of this step. -/
def retryLoop (rsqrt : ℚ → ℚ) (fuel : Nat) (coeff gain dt tol delta : ℚ) :
    Nat → Nat → Nat → SimState → StepOut
  | 0, count, calls, s =>
    let e := updateCurrents coeff gain dt s
    .ok ⟨count, calls + 1, e.2⟩ e.1
  | r + 1, count, calls, s =>
    let a := adjustNodeVoltages rsqrt fuel coeff gain dt tol delta s
    match a.1 with
    | .converged s1 => .ok ⟨count + 1, calls + a.2.2, s1⟩ a.2.1
    | .halted s1 => .ok ⟨count + 1, calls + a.2.2, s1⟩ a.2.1
    | .progress => retryLoop rsqrt fuel coeff gain dt tol delta r (count + 1) (calls + a.2.2) a.2.1
    | .zeroGradient => .gradErr a.2.1 (count + 1) (calls + a.2.2)
    | .fuelOut => .noFuel a.2.1 (count + 1) (calls + a.2.2)

/-- C++ `Circuit::simulationStep`: shift voltage histories, remember
capacitor currents and op-amp output voltages, extrapolate unforced
node voltages, then run the solver retry loop with `dt = 1/simRate`. -/
def simulationStep (rsqrt : ℚ → ℚ) (fuel : Nat) (coeff gain tol delta : ℚ)
    (retryLimit : Nat) (simRate : ℚ) (s : SimState) : StepOut :=
  let dt := 1 / simRate
  let s4 := extrapolatePhase (opAmpShiftPhase (capShiftPhase (shiftPhase s)))
  retryLoop rsqrt fuel coeff gain dt tol delta retryLimit 0 0 s4

/-- Error kinds thrown by `Analog::Circuit`.  `lockViolation` covers
both `confirmLocked` and `confirmUnlocked` failures (spec:
`LockStateViolation`); `rangeError` is the `std::range_error` of
`update`; `gradientZero` is the solver's `std::logic_error`;
`nodeIndexOutOfRange` models `std::vector::at` failures;
`nodeAlreadyForced` and `opAmpOrderViolation` are the builder's
`logic_error`s; `fuelExhausted` is the line-search fuel artifact. -/
inductive ErrKind
  | lockViolation
  | nodeIndexOutOfRange
  | nodeAlreadyForced
  | opAmpOrderViolation
  | rangeError
  | gradientZero
  | fuelExhausted
deriving DecidableEq, Repr

/-- C++ `class Circuit`: the lock latch, the component collections, the
cumulative counters and the public tunables.  `opAmpFilterCoeff` stores
the most recently computed slew filter coefficient. -/
structure Circuit where
  isLocked : Bool
  sim : SimState
  totalAdjustNodeVoltagesCount : Nat
  totalCurrentUpdates : Nat
  totalSamples : Nat
  simulationTime : ℚ
  opAmpFilterCoeff : ℚ
  scoreTolerance : ℚ
  deltaVoltage : ℚ
  minInternalSamplingRate : ℤ
  opAmpSlewRateHalfLifeSeconds : ℚ
  opAmpOpenLoopGain : ℚ
  retryLimit : Nat
deriving DecidableEq, Repr

/-- A default-constructed circuit with the C++ default member values. -/
def Circuit.fresh : Circuit :=
  ⟨false, ⟨[], [], [], []⟩, 0, 0, 0, 0, 0, 1 / 100000000, 1 / 1000000000, 40000, 0, 1000000, 100⟩

/-- C++ `Circuit::lock`. -/
def Circuit.lock (c : Circuit) : Circuit := { c with isLocked := true }

/-- C++ `Node::initialize`: zero the voltage history, but only on
unforced nodes; the scratch fields are not touched. -/
def Node.resetState (n : Node) : Node :=
  if n.forced then n else { n with voltage0 := 0, voltage1 := 0, voltage2 := 0 }

/-- C++ `Circuit::initialize`: zero `totalAdjustNodeVoltagesCount`,
`totalSamples` and `simulationTime` (the source does not reset
`totalCurrentUpdates`), and reinitialise every resistor, capacitor,
op-amp and node. -/
def Circuit.resetState (c : Circuit) : Circuit :=
  { c with
    totalAdjustNodeVoltagesCount := 0
    totalSamples := 0
    simulationTime := 0
    sim := ⟨c.sim.nodeList.map Node.resetState,
            c.sim.resistorList.map fun r => { r with current := 0 },
            c.sim.capacitorList.map fun k => { k with current0 := 0, current1 := 0 },
            c.sim.opAmpList.map fun o => { o with current := 0, voltage0 := 0, voltage1 := 0 }⟩ }

/-- C++ `Circuit::createNode` (fails with the lock violation if the
circuit is locked; returns the new node's index). -/
def Circuit.createNode (c : Circuit) : Except ErrKind (Nat × Circuit) :=
  if c.isLocked then .error .lockViolation
  else .ok (c.sim.nodeList.length, { c with sim := { c.sim with nodeList := c.sim.nodeList ++ [nodeDefault] } })

/-- C++ `Circuit::allocateForcedVoltageNode`: note that the source
performs no lock-state check here; it validates the index
(`nodeList.at`) and rejects doubly-forced nodes. -/
def Circuit.allocateForcedVoltageNode (c : Circuit) (nodeIndex : Nat) : Except ErrKind Circuit :=
  if nodeIndex < c.sim.nodeList.length then
    if (c.sim.node nodeIndex).forced then .error .nodeAlreadyForced
    else .ok { c with sim := { c.sim with nodeList := modifyIdx (fun n => { n with forced := true }) nodeIndex c.sim.nodeList } }
  else .error .nodeIndexOutOfRange

/-- C++ `Circuit::createForcedVoltageNode`: create, allocate as forced,
then set all three voltage-history slots to `v`. -/
def Circuit.createForcedVoltageNode (c : Circuit) (v : ℚ) : Except ErrKind (Nat × Circuit) := do
  let (idx, c1) ← c.createNode
  let c2 ← c1.allocateForcedVoltageNode idx
  let l := modifyIdx (fun n => { n with voltage0 := v, voltage1 := v, voltage2 := v }) idx c2.sim.nodeList
  return (idx, { c2 with sim := { c2.sim with nodeList := l } })

/-- C++ `Circuit::createGroundNode`. -/
def Circuit.createGroundNode (c : Circuit) : Except ErrKind (Nat × Circuit) :=
  c.createForcedVoltageNode 0

/-- C++ `Circuit::v`: validate a node index. -/
def Circuit.checkNodeIndex (c : Circuit) (i : Nat) : Except ErrKind Nat :=
  if i < c.sim.nodeList.length then .ok i else .error .nodeIndexOutOfRange

/-- C++ `Circuit::addResistor`. -/
def Circuit.addResistor (c : Circuit) (resistance : ℚ) (aNodeIndex bNodeIndex : Nat) :
    Except ErrKind (Nat × Circuit) := do
  if c.isLocked then throw .lockViolation
  let _ ← c.checkNodeIndex aNodeIndex
  let _ ← c.checkNodeIndex bNodeIndex
  let l := c.sim.resistorList ++ [⟨resistance, aNodeIndex, bNodeIndex, 0⟩]
  return (c.sim.resistorList.length, { c with sim := { c.sim with resistorList := l } })

/-- C++ `Circuit::addCapacitor`. -/
def Circuit.addCapacitor (c : Circuit) (capacitance : ℚ) (aNodeIndex bNodeIndex : Nat) :
    Except ErrKind (Nat × Circuit) := do
  if c.isLocked then throw .lockViolation
  let _ ← c.checkNodeIndex aNodeIndex
  let _ ← c.checkNodeIndex bNodeIndex
  let l := c.sim.capacitorList ++ [⟨capacitance, aNodeIndex, bNodeIndex, 0, 0⟩]
  return (c.sim.capacitorList.length, { c with sim := { c.sim with capacitorList := l } })

/-- C++ `Circuit::addOpAmp`: validate the input node indices, reject an
op-amp whose output feeds an earlier op-amp's input (calculation-order
guard), force the output node, and append. -/
def Circuit.addOpAmp (c : Circuit) (posNodeIndex negNodeIndex outNodeIndex : Nat) :
    Except ErrKind (Nat × Circuit) := do
  if c.isLocked then throw .lockViolation
  let _ ← c.checkNodeIndex posNodeIndex
  let _ ← c.checkNodeIndex negNodeIndex
  if c.sim.opAmpList.any fun o => o.negNodeIndex = outNodeIndex || o.posNodeIndex = outNodeIndex then
    throw .opAmpOrderViolation
  let c1 ← c.allocateForcedVoltageNode outNodeIndex
  let l := c1.sim.opAmpList ++ [⟨posNodeIndex, negNodeIndex, outNodeIndex, 0, 0, 0⟩]
  return (c.sim.opAmpList.length, { c1 with sim := { c1.sim with opAmpList := l } })

/-- C++ `Circuit::resistor` (reference accessor; requires the lock). -/
def Circuit.resistorRef (c : Circuit) (index : Nat) : Except ErrKind Resistor :=
  if c.isLocked then
    if index < c.sim.resistorList.length then .ok (c.sim.resistorList.getD index resistorDefault)
    else .error .nodeIndexOutOfRange
  else .error .lockViolation

/-- C++ `Circuit::capacitor` (reference accessor; requires the lock). -/
def Circuit.capacitorRef (c : Circuit) (index : Nat) : Except ErrKind Capacitor :=
  if c.isLocked then
    if index < c.sim.capacitorList.length then .ok (c.sim.capacitorList.getD index capacitorDefault)
    else .error .nodeIndexOutOfRange
  else .error .lockViolation

/-- C++ `Circuit::opAmp` (reference accessor; requires the lock). -/
def Circuit.opAmpRef (c : Circuit) (index : Nat) : Except ErrKind OpAmp :=
  if c.isLocked then
    if index < c.sim.opAmpList.length then .ok (c.sim.opAmpList.getD index opAmpDefault)
    else .error .lockViolation
  else .error .lockViolation

/-- C++ `Circuit::nodeVoltage` (write-through reference to
`voltage[0]`; requires the lock) — the read side. -/
def Circuit.nodeVoltageRef (c : Circuit) (nodeIndex : Nat) : Except ErrKind ℚ :=
  if c.isLocked then
    if nodeIndex < c.sim.nodeList.length then .ok (c.sim.node nodeIndex).voltage0
    else .error .nodeIndexOutOfRange
  else .error .lockViolation

/-- C++ `Circuit::nodeVoltage` — the write side of the reference. -/
def Circuit.writeNodeVoltage (c : Circuit) (nodeIndex : Nat) (v : ℚ) : Except ErrKind Circuit :=
  if c.isLocked then
    if nodeIndex < c.sim.nodeList.length then
      .ok { c with sim := { c.sim with nodeList := modifyIdx (fun n => { n with voltage0 := v }) nodeIndex c.sim.nodeList } }
    else .error .nodeIndexOutOfRange
  else .error .lockViolation

/-- Result of `Circuit::update`: the returned `SolutionResult` with the
updated circuit, or a propagated exception together with the circuit
state (counters included) at the moment of the throw. -/
inductive UpdateOut
  | ok (res : SolutionResult) (c : Circuit)
  | err (e : ErrKind) (c : Circuit)
deriving DecidableEq, Repr

def UpdateOut.circuitOf : UpdateOut → Circuit
  | .ok _ c => c
  | .err _ c => c

def UpdateOut.kind : UpdateOut → Option ErrKind
  | .ok _ _ => none
  | .err e _ => some e

def UpdateOut.resOf : UpdateOut → Option SolutionResult
  | .ok r _ => some r
  | .err _ _ => none

/-- The oversampling loop of `Circuit::update`: run `simulationStep`
`factor` times, accumulating the iteration and call counts and keeping
the last step's score. -/
def updLoop (rsqrt : ℚ → ℚ) (fuel : Nat) (coeff gain tol delta : ℚ) (retryLimit : Nat)
    (simRate : ℚ) : Nat → SolutionResult → SimState → StepOut
  | 0, res, s => .ok res s
  | k + 1, res, s =>
    match simulationStep rsqrt fuel coeff gain tol delta retryLimit simRate s with
    | .ok r s' =>
      updLoop rsqrt fuel coeff gain tol delta retryLimit simRate k
        ⟨res.adjustNodeVoltagesCount + r.adjustNodeVoltagesCount,
         res.currentUpdates + r.currentUpdates, r.scoreSq⟩ s'
    | .gradErr s' a b => .gradErr s' (res.adjustNodeVoltagesCount + a) (res.currentUpdates + b)
    | .noFuel s' a b => .noFuel s' (res.adjustNodeVoltagesCount + a) (res.currentUpdates + b)

/-- C++ `Circuit::update`.  Raises the range error iff the audio sample
rate is not positive; otherwise chooses the oversampling factor
`max(1, ceil(minInternalSamplingRate / rate))`, computes the op-amp
slew filter coefficient (the transcendental
`pow(0.5, 1/(simRate*halfLife))` is abstracted as the parameter
`coeffP`; it is used exactly when there are op-amps and the half-life
is positive, and is `0` otherwise), runs the oversampling loop, and on
success advances the counters and the simulation clock. -/
def Circuit.update (rsqrt : ℚ → ℚ) (fuel : Nat) (coeffP : ℚ) (audioSampleRateHz : ℚ)
    (c : Circuit) : UpdateOut :=
  if audioSampleRateHz ≤ 0 then .err .rangeError c
  else
    let realFactor : ℚ := (c.minInternalSamplingRate : ℚ) / audioSampleRateHz
    let factor : ℤ := max 1 ⌈realFactor⌉
    let simRate : ℚ := (factor : ℚ) * audioSampleRateHz
    let coeff : ℚ := if c.sim.opAmpList ≠ [] ∧ 0 < c.opAmpSlewRateHalfLifeSeconds then coeffP else 0
    let c0 := { c with opAmpFilterCoeff := coeff }
    match updLoop rsqrt fuel coeff c.opAmpOpenLoopGain c.scoreTolerance c.deltaVoltage
        c.retryLimit simRate factor.toNat ⟨0, 0, -1⟩ c.sim with
    | .ok res s' =>
      .ok res { c0 with
        sim := s'
        totalAdjustNodeVoltagesCount := c.totalAdjustNodeVoltagesCount + res.adjustNodeVoltagesCount
        totalCurrentUpdates := c.totalCurrentUpdates + res.currentUpdates
        totalSamples := c.totalSamples + 1
        simulationTime := c.simulationTime + 1 / audioSampleRateHz }
    | .gradErr s' a b =>
      .err .gradientZero { c0 with
        sim := s'
        totalAdjustNodeVoltagesCount := c.totalAdjustNodeVoltagesCount + a
        totalCurrentUpdates := c.totalCurrentUpdates + b }
    | .noFuel s' a b =>
      .err .fuelExhausted { c0 with
        sim := s'
        totalAdjustNodeVoltagesCount := c.totalAdjustNodeVoltagesCount + a
        totalCurrentUpdates := c.totalCurrentUpdates + b }

/-- The real-valued op-amp slew filter coefficient computed by
`Circuit::update` when op-amps are present:
`pow(0.5, 1.0/(simSamplingRateHz * opAmpSlewRateHalfLifeSeconds))` when
the half-life is positive, else `0`. -/
noncomputable def opAmpFilterCoeffFormula (simRate halfLife : ℝ) : ℝ :=
  if 0 < halfLife then Real.rpow (1 / 2) (1 / (simRate * halfLife)) else 0

/-- Modelled from the spec: comparator saturation high output
(`COMPARATOR_HI_VOLTAGE = +11.38 V`).  The comparator component is
absent from the `circuit.hpp` under verification (only its caller
`torpor_sloth_circuit.hpp` survives), so the comparator is modelled
from the spec's words. -/
def COMPARATOR_HI_VOLTAGE : ℚ := 1138 / 100

/-- Modelled from the spec: comparator saturation low output
(`COMPARATOR_LO_VOLTAGE = -10.64 V`). -/
def COMPARATOR_LO_VOLTAGE : ℚ := -(1064 / 100)

/-- Modelled from the spec: a comparator `(negNodeIndex, outNodeIndex)`
— an op-amp configured for saturation whose output node is
forced-voltage and latched between samples. -/
structure Comparator where
  negNodeIndex : Nat
  outNodeIndex : Nat
deriving DecidableEq, Repr

/-- Modelled from the spec: latch one comparator's output — drive the
output node to `COMPARATOR_HI_VOLTAGE` when the negative-input voltage
is negative, else `COMPARATOR_LO_VOLTAGE`. -/
def latchStep (s : SimState) (k : Comparator) : SimState :=
  let vneg := (s.node k.negNodeIndex).voltage0
  let vout := if vneg < 0 then COMPARATOR_HI_VOLTAGE else COMPARATOR_LO_VOLTAGE
  { s with nodeList := modifyIdx (fun n => { n with voltage0 := vout }) k.outNodeIndex s.nodeList }

/-- Modelled from the spec: latch all comparator outputs, in insertion
order; the driver performs this between samples, never inside a
sample's solve. -/
def latchComparators (comps : List Comparator) (s : SimState) : SimState :=
  comps.foldl latchStep s

/-! ### Statement-level definitions -/

/-- The sum of the net `current` fields over all nodes (exact
Kirchhoff bookkeeping). -/
def currentSum (s : SimState) : ℚ :=
  (s.nodeList.map fun n => n.current).sum

/-- The resistor invariant of the spec:
`current = (V[a,0] - V[b,0]) / resistance`, read in state `s` for the
resistor at index `k`. -/
def resInv (s : SimState) (k : Nat) : Prop :=
  let r := s.resistorList.getD k resistorDefault
  r.current = ((s.node r.aNodeIndex).voltage0 - (s.node r.bNodeIndex).voltage0) / r.resistance

/-- The voltage-history/forced-flag projection of a node: everything the
history-shift claims talk about. -/
def histCore (n : Node) : ℚ × ℚ × Bool :=
  (n.voltage1, n.voltage2, n.forced)

/-- The solver scratch projection of a node. -/
def scratchCore (n : Node) : ℚ × ℚ :=
  (n.savedVoltage, n.slope)

/-- Two nodes agree on the data that determines the simulation:
voltage history and forced flag (scratch fields and the transient
current accumulator are excluded). -/
def nodeVEq (a b : Node) : Prop :=
  a.voltage0 = b.voltage0 ∧ a.voltage1 = b.voltage1 ∧ a.voltage2 = b.voltage2 ∧ a.forced = b.forced

/-- `nodeVEq` plus agreement on the current accumulator. -/
def nodeVCEq (a b : Node) : Prop :=
  nodeVEq a b ∧ a.current = b.current

/-- Two states agree on everything that determines the voltage
trajectory: node voltages/flags pointwise, and the component lists
exactly. -/
def simVEq (s t : SimState) : Prop :=
  s.nodeList.length = t.nodeList.length ∧ (∀ j, nodeVEq (s.node j) (t.node j)) ∧
    s.resistorList = t.resistorList ∧ s.capacitorList = t.capacitorList ∧
    s.opAmpList = t.opAmpList

/-- `simVEq` strengthened with pointwise agreement of the node current
accumulators (holds after the evaluator has zeroed/recomputed them). -/
def simVCEq (s t : SimState) : Prop :=
  s.nodeList.length = t.nodeList.length ∧ (∀ j, nodeVCEq (s.node j) (t.node j)) ∧
    s.resistorList = t.resistorList ∧ s.capacitorList = t.capacitorList ∧
    s.opAmpList = t.opAmpList

/-- Scratch agreement at an unforced node (forced nodes' scratch fields
are dead storage that the solver never reads). -/
def scratchEqAt (j : Nat) (s t : SimState) : Prop :=
  (s.node j).forced = false → scratchCore (s.node j) = scratchCore (t.node j)

/-- Relation carried through the probe loop: states agree on the
determining data and on the scratch fields of every unforced node whose
probe iteration is not in the pending list. -/
def probeRel (pending : List Nat) (a b : ProbeAcc) : Prop :=
  simVCEq a.sim b.sim ∧ a.fallback = b.fallback ∧ a.fallbackScore = b.fallbackScore ∧
    a.magnitude = b.magnitude ∧ a.calls = b.calls ∧
    ∀ j, j ∉ pending → scratchEqAt j a.sim b.sim

/-- `simVCEq` plus scratch agreement at every unforced node: the
relation that holds from the end of the probe loop onward. -/
def simFEq (s t : SimState) : Prop :=
  simVCEq s t ∧ ∀ j, scratchEqAt j s t

/-- A freshly built circuit state: every dynamic field that the builder
zero-initialises is zero (forced-node voltage histories are the
builder-written inputs and are unconstrained here). -/
def SimState.freshSim (s : SimState) : Prop :=
  (∀ n ∈ s.nodeList, n.savedVoltage = 0 ∧ n.current = 0 ∧ n.slope = 0 ∧
      (n.forced = false → n.voltage0 = 0 ∧ n.voltage1 = 0 ∧ n.voltage2 = 0)) ∧
    (∀ r ∈ s.resistorList, r.current = 0) ∧
    (∀ k ∈ s.capacitorList, k.current0 = 0 ∧ k.current1 = 0) ∧
    (∀ o ∈ s.opAmpList, o.current = 0 ∧ o.voltage0 = 0 ∧ o.voltage1 = 0)

/-- The outcomes of two `update` calls agree observably: same
success/error kind, same returned `SolutionResult`, and the same node
voltages (pointwise on the full history) in the resulting circuits. -/
def updateAgrees (u v : UpdateOut) : Prop :=
  u.kind = v.kind ∧ u.resOf = v.resOf ∧
    u.circuitOf.sim.nodeList.length = v.circuitOf.sim.nodeList.length ∧
    ∀ j, nodeVEq (u.circuitOf.sim.node j) (v.circuitOf.sim.node j)

/-! ### Concrete example circuits -/

/-- A forced source node at voltage `v` (history filled), as built by
`createForcedVoltageNode`. -/
def forcedNode (v : ℚ) : Node := ⟨v, v, v, 0, 0, 0, true⟩

/-- An unforced node with present-sample voltage `v` and zero history. -/
def freeNode (v : ℚ) : Node := ⟨v, 0, 0, 0, 0, 0, false⟩

/-- C1 counterexample circuit: a 1 V forced source connected through a
1 Ω resistor to a single unforced node. -/
def cex1 : SimState := ⟨[forcedNode 1, freeNode 0], [⟨1, 0, 1, 0⟩], [], []⟩

/-- C2 counterexample circuit: an op-amp (gain 2) wired so that the
unforced node 1 carries a constant 1 A discrepancy regardless of its own
voltage (resistor from the 1 V source and resistor from the op-amp
output, which follows node 1 at gain 2), plus an independent unforced
node 5 held a quarter `deltaVoltage` away from its local optimum against
the forced node 4.  With `deltaVoltage = 1` the solver's probes and
micro-step all fail to improve, triggering the early-halt path with a
rational gradient magnitude of 1. -/
def cex2 : SimState :=
  ⟨[forcedNode 1, freeNode 0, forcedNode 0, forcedNode 0, forcedNode 0, freeNode (1/4)],
   [⟨1, 0, 1, 0⟩, ⟨1, 2, 1, 0⟩, ⟨1, 4, 5, 0⟩], [], [⟨1, 3, 2, 0, 0, 0⟩]⟩

/-- C4 counterexample circuit: a locked one-node circuit in mid-run
state — nonzero counters and a forced node whose voltage history holds
run-time values. -/
def cex4 : Circuit :=
  { Circuit.fresh with
    isLocked := true
    sim := ⟨[⟨3, 7, 7, 0, 0, 0, true⟩], [], [], []⟩
    totalAdjustNodeVoltagesCount := 2
    totalCurrentUpdates := 5
    totalSamples := 3
    simulationTime := 1 }

/-- C5/C7 counterexample circuit (locked): the constant-discrepancy
op-amp wiring of `cex2` alone, so that every gradient component
vanishes while the residual stays at 1 A². `deltaVoltage` is set to 1
to keep the probe arithmetic rational. -/
def cex5 : Circuit :=
  { Circuit.fresh with
    isLocked := true
    sim := ⟨[forcedNode 1, freeNode 0, forcedNode 0, forcedNode 0],
            [⟨1, 0, 1, 0⟩, ⟨1, 2, 1, 0⟩], [], [⟨1, 3, 2, 0, 0, 0⟩]⟩
    deltaVoltage := 1
    opAmpOpenLoopGain := 2 }

/-- C7 zero-gradient counterexample circuit: like `cex5` but with a 2 V
source, exercised through `adjustNodeVoltages` directly. -/
def cex7 : SimState :=
  ⟨[forcedNode 2, freeNode 0, forcedNode 0, forcedNode 0],
   [⟨1, 0, 1, 0⟩, ⟨1, 2, 1, 0⟩], [], [⟨1, 3, 2, 0, 0, 0⟩]⟩

/-- C6 counterexample circuit: a locked circuit with one unforced
node. -/
def cex6 : Circuit :=
  { Circuit.fresh with isLocked := true, sim := ⟨[nodeDefault], [], [], []⟩ }

/-- C8 counterexample circuit: a locked circuit with one unforced,
unconnected node whose present-sample voltage is 8 V (as written
through the `nodeVoltage` handle). -/
def cex8 : Circuit :=
  { Circuit.fresh with isLocked := true, sim := ⟨[freeNode 8], [], [], []⟩ }

/-- C3 witness circuit: an unforced comparator negative-input node at
-1/2 V and a forced comparator output node. -/
def wit3 : SimState := ⟨[freeNode (-(1/2)), forcedNode 0], [], [], []⟩

/-- C9 witness circuit: one op-amp with both inputs on node 0 and
output on node 1, mid-slew (`voltage1 = 5`). -/
def wit9 : SimState := ⟨[freeNode 3, forcedNode 0], [], [], [⟨0, 0, 1, 0, 0, 5⟩]⟩

/-- C10 witness circuit: source, two free nodes, a resistor chain and a
capacitor with a remembered previous current. -/
def wit10 : SimState :=
  ⟨[forcedNode 2, freeNode 1, freeNode 0],
   [⟨2, 0, 1, 0⟩, ⟨3, 1, 2, 0⟩], [⟨1, 2, 0, 0, 1/2⟩], []⟩

/-- C2 witness circuit (converged path): a lone forced node. -/
def wit2 : SimState := ⟨[forcedNode 5], [⟨1, 0, 0, 0⟩], [], []⟩

/-- C4 witness circuits: a mid-run one-resistor circuit and its freshly
built twin. -/
def wit4run : Circuit :=
  { Circuit.fresh with
    isLocked := true
    sim := ⟨[forcedNode 2, ⟨9, 4, 1, 6, 3, 2, false⟩], [⟨1, 0, 1, 7⟩], [], []⟩
    totalAdjustNodeVoltagesCount := 4
    totalCurrentUpdates := 9
    totalSamples := 2
    simulationTime := 1 }

/-- The freshly built twin of `wit4run`. -/
def wit4fresh : Circuit :=
  { Circuit.fresh with
    isLocked := true
    sim := ⟨[forcedNode 2, nodeDefault], [⟨1, 0, 1, 0⟩], [], []⟩ }

/-- The configuration of a resistor (everything but the dynamic
current). -/
def resistorConfig (r : Resistor) : ℚ × Nat × Nat :=
  (r.resistance, r.aNodeIndex, r.bNodeIndex)

/-- The configuration of an op-amp (its three node indices). -/
def opAmpConfig (o : OpAmp) : Nat × Nat × Nat :=
  (o.posNodeIndex, o.negNodeIndex, o.outNodeIndex)

/-- Preservation bundle for the solver phases that run between two
voltage-history shifts: node-list length, op-amp wiring, every node's
history/forced projection, and the present-sample voltage of every
forced node that is not an op-amp output. -/
def stepQuiet (s t : SimState) : Prop :=
  t.nodeList.length = s.nodeList.length ∧
    t.opAmpList.map opAmpConfig = s.opAmpList.map opAmpConfig ∧
    (∀ j, histCore (t.node j) = histCore (s.node j)) ∧
    ∀ j, (s.node j).forced = true → (∀ o ∈ s.opAmpList, o.outNodeIndex ≠ j) →
      (t.node j).voltage0 = (s.node j).voltage0

/-- The live (non-scratch) fields of a node: full voltage history,
current accumulator and forced flag. -/
def liveEq (a b : Node) : Prop :=
  a.voltage0 = b.voltage0 ∧ a.voltage1 = b.voltage1 ∧ a.voltage2 = b.voltage2 ∧
    a.current = b.current ∧ a.forced = b.forced

/-- Congruence relation between two runs: the component lists are
equal; the nodes agree pointwise on voltages and flags; currents agree
unless `curFree` is set; and the scratch fields agree except at the
indices allowed by `P`. -/
def simRel (curFree : Bool) (P : Nat → Prop) (s t : SimState) : Prop :=
  s.nodeList.length = t.nodeList.length ∧
    s.resistorList = t.resistorList ∧ s.capacitorList = t.capacitorList ∧
    s.opAmpList = t.opAmpList ∧
    (∀ j, (s.node j).voltage0 = (t.node j).voltage0 ∧
      (s.node j).voltage1 = (t.node j).voltage1 ∧
      (s.node j).voltage2 = (t.node j).voltage2 ∧
      (s.node j).forced = (t.node j).forced ∧
      (curFree = false → (s.node j).current = (t.node j).current)) ∧
    ∀ j, ¬ P j → scratchCore (s.node j) = scratchCore (t.node j)

/-- Observable agreement of two `simulationStep` outcomes: same
constructor, equal payloads, and pointwise `nodeVEq` states. -/
def stepAgrees : StepOut → StepOut → Prop
  | .ok r s, .ok r' s' => r = r' ∧ s.nodeList.length = s'.nodeList.length ∧ ∀ j, nodeVEq (s.node j) (s'.node j)
  | .gradErr s a b, .gradErr s' a' b' => a = a' ∧ b = b' ∧ s.nodeList.length = s'.nodeList.length ∧ ∀ j, nodeVEq (s.node j) (s'.node j)
  | .noFuel s a b, .noFuel s' a' b' => a = a' ∧ b = b' ∧ s.nodeList.length = s'.nodeList.length ∧ ∀ j, nodeVEq (s.node j) (s'.node j)
  | _, _ => False

/-- The state carried by a `simulationStep` outcome. -/
def StepOut.simOf : StepOut → SimState
  | .ok _ s => s
  | .gradErr s _ _ => s
  | .noFuel s _ _ => s

/-- The voltage written into op-amp `k` and its output node by
`opAmpVoltageStep`. -/
def opAmpVOut (coeff gain : ℚ) (s : SimState) (k : Nat) : ℚ :=
  let o := s.opAmpList.getD k opAmpDefault
  coeff * o.voltage1 +
    (1 - coeff) * clampRail (gain * ((s.node o.posNodeIndex).voltage0 - (s.node o.negNodeIndex).voltage0))

/-- Effect summary for the evaluator loops that only touch node current
accumulators: the node count and every node's voltages, scratch fields
and forced flag are untouched. -/
def nodesCurrentOnly (s t : SimState) : Prop :=
  t.nodeList.length = s.nodeList.length ∧
    ∀ j, (t.node j).voltage0 = (s.node j).voltage0 ∧
      histCore (t.node j) = histCore (s.node j) ∧
      scratchCore (t.node j) = scratchCore (s.node j)

/-- Effect summary for the op-amp output-voltage loop: only node
`voltage0` slots change. -/
def nodesVoltage0Only (s t : SimState) : Prop :=
  t.nodeList.length = s.nodeList.length ∧
    ∀ j, (t.node j).current = (s.node j).current ∧
      histCore (t.node j) = histCore (s.node j) ∧
      scratchCore (t.node j) = scratchCore (s.node j)

/-- Reachability invariant used by the round-trip claim: the solver
only ever writes the scratch fields of unforced nodes, so forced nodes
keep their builder-time zero scratch. -/
def forcedScratchZero (s : SimState) : Prop :=
  ∀ j, (s.node j).forced = true → scratchCore (s.node j) = (0, 0)

/-- Congruence relation between a reset mid-run state and its freshly
built twin at the start of a sample: either literal equality, or
agreement on everything except the node current accumulators and the
unforced scratch fields, with zero forced scratch on both sides. -/
def simRel0 (s t : SimState) : Prop :=
  s = t ∨ (simVEq s t ∧ forcedScratchZero s ∧ forcedScratchZero t)

/-- `simRel0` strengthened with current-accumulator agreement — the
form the relation takes after an evaluator call. -/
def simRelC (s t : SimState) : Prop :=
  s = t ∨ (simVCEq s t ∧ forcedScratchZero s ∧ forcedScratchZero t)

/-- Outcome relation for the `simulationStep` congruence: same
constructor, equal numeric payloads, `simRel0`-related states. -/
def stepRel : StepOut → StepOut → Prop
  | .ok r s, .ok r' s' => r = r' ∧ simRel0 s s'
  | .gradErr s a b, .gradErr s' a' b' => a = a' ∧ b = b' ∧ simRel0 s s'
  | .noFuel s a b, .noFuel s' a' b' => a = a' ∧ b = b' ∧ simRel0 s s'
  | _, _ => False


/-- The configuration of a capacitor (everything but the dynamic
currents). -/
def capacitorConfig (k : Capacitor) : ℚ × Nat × Nat :=
  (k.capacitance, k.aNodeIndex, k.bNodeIndex)

/-- Hypotheses of the round-trip claim: `f` is a freshly built circuit
with the same topology (node count, forced flags, forced input
voltages, component configurations) and the same tunables as `c`, and
`c` is reachable (forced-node scratch still zero).  All quantifiers are
bounded so the predicate is decidable on concrete circuits. -/
def resetTwin (c f : Circuit) : Prop :=
  c.sim.nodeList.length = f.sim.nodeList.length ∧
  (∀ j < c.sim.nodeList.length, (c.sim.node j).forced = (f.sim.node j).forced) ∧
  (∀ j < c.sim.nodeList.length, (c.sim.node j).forced = true →
    (c.sim.node j).voltage0 = (f.sim.node j).voltage0 ∧
    (c.sim.node j).voltage1 = (f.sim.node j).voltage1 ∧
    (c.sim.node j).voltage2 = (f.sim.node j).voltage2) ∧
  c.sim.resistorList.map resistorConfig = f.sim.resistorList.map resistorConfig ∧
  c.sim.capacitorList.map capacitorConfig = f.sim.capacitorList.map capacitorConfig ∧
  c.sim.opAmpList.map opAmpConfig = f.sim.opAmpList.map opAmpConfig ∧
  f.sim.freshSim ∧
  (∀ j < c.sim.nodeList.length, (c.sim.node j).forced = true →
    scratchCore (c.sim.node j) = (0, 0)) ∧
  c.minInternalSamplingRate = f.minInternalSamplingRate ∧
  c.opAmpSlewRateHalfLifeSeconds = f.opAmpSlewRateHalfLifeSeconds ∧
  c.opAmpOpenLoopGain = f.opAmpOpenLoopGain ∧
  c.scoreTolerance = f.scoreTolerance ∧
  c.deltaVoltage = f.deltaVoltage ∧
  c.retryLimit = f.retryLimit

instance (s : SimState) : Decidable s.freshSim := by
  unfold SimState.freshSim
  infer_instance

instance (c f : Circuit) : Decidable (resetTwin c f) := by
  unfold resetTwin
  infer_instance

end Sloth

/-! ## Basic list lemmas -/

namespace Sloth

theorem modifyIdx_length (f : α → α) (i : Nat) (l : List α) :
    (modifyIdx f i l).length = l.length := by
  induction l generalizing i with
  | nil => cases i <;> rfl
  | cons a t ih =>
    cases i with
    | zero => rfl
    | succ n => simpa [modifyIdx] using ih n

theorem getD_modifyIdx (f : α → α) (i j : Nat) (l : List α) (d : α) :
    (modifyIdx f i l).getD j d =
      if i = j ∧ j < l.length then f (l.getD j d) else l.getD j d := by
  induction l generalizing i j with
  | nil => simp [modifyIdx]
  | cons a t ih =>
    cases i with
    | zero =>
      cases j with
      | zero => simp [modifyIdx]
      | succ m => simp [modifyIdx, List.getD_cons_succ]
    | succ n =>
      cases j with
      | zero => simp [modifyIdx]
      | succ m =>
        simp only [modifyIdx, List.getD_cons_succ, ih n m, List.length_cons]
        by_cases h : n = m ∧ m < t.length
        · rw [if_pos h, if_pos ⟨by omega, by omega⟩]
        · rw [if_neg h, if_neg (by omega)]

theorem getD_map_general (f : α → β) (l : List α) (j : Nat) (d : β) (d' : α) :
    (l.map f).getD j d = if j < l.length then f (l.getD j d') else d := by
  induction l generalizing j with
  | nil => simp
  | cons a t ih =>
    cases j with
    | zero => simp
    | succ m =>
      simp only [List.map_cons, List.getD_cons_succ, ih m, List.length_cons]
      by_cases h : m < t.length
      · rw [if_pos h, if_pos (by omega)]
      · rw [if_neg h, if_neg (by omega)]

theorem getD_map_default (f : α → α) (d : α) (hd : f d = d) (l : List α) (j : Nat) :
    (l.map f).getD j d = f (l.getD j d) := by
  rw [getD_map_general f l j d d]
  by_cases h : j < l.length
  · rw [if_pos h]
  · rw [if_neg h, List.getD_eq_default _ _ (by omega), hd]

theorem map_modifyIdx_invariant (f : α → α) (g : α → β) (hgf : ∀ a, g (f a) = g a)
    (i : Nat) (l : List α) : (modifyIdx f i l).map g = l.map g := by
  induction l generalizing i with
  | nil => cases i <;> rfl
  | cons a t ih =>
    cases i with
    | zero => simp [modifyIdx, hgf]
    | succ n => simp [modifyIdx, ih n]

theorem mem_modifyIdx (f : α → α) (i : Nat) (l : List α) (a : α)
    (h : a ∈ modifyIdx f i l) : a ∈ l ∨ ∃ b ∈ l, a = f b := by
  induction l generalizing i with
  | nil => simp [modifyIdx] at h
  | cons x t ih =>
    cases i with
    | zero =>
      rcases List.mem_cons.mp h with h | h
      · exact .inr ⟨x, by simp, h⟩
      · exact .inl (List.mem_cons_of_mem _ h)
    | succ n =>
      rcases List.mem_cons.mp h with h | h
      · exact .inl (by simp [h])
      · rcases ih n h with h' | ⟨b, hb, hab⟩
        · exact .inl (List.mem_cons_of_mem _ h')
        · exact .inr ⟨b, List.mem_cons_of_mem _ hb, hab⟩

theorem sum_map_modifyIdx_shift (g : α → ℚ) (f : α → α) (x : ℚ) (l : List α) (i : Nat)
    (d : α) (hf : g (f (l.getD i d)) = g (l.getD i d) + x) (h : i < l.length) :
    ((modifyIdx f i l).map g).sum = (l.map g).sum + x := by
  induction l generalizing i with
  | nil => simp at h
  | cons a t ih =>
    cases i with
    | zero =>
      simp only [modifyIdx, List.map_cons, List.sum_cons]
      rw [show g (f a) = g a + x from hf]
      ring
    | succ n =>
      simp only [modifyIdx, List.map_cons, List.sum_cons]
      rw [ih n hf (by simpa using h)]
      ring

theorem foldl_induct {σ α : Type} (P : σ → Prop) (f : σ → α → σ)
    (l : List α) (h : ∀ s a, a ∈ l → P s → P (f s a)) (s : σ) (hs : P s) :
    P (l.foldl f s) := by
  induction l generalizing s with
  | nil => exact hs
  | cons a t ih =>
    exact ih (fun s' b hb => h s' b (List.mem_cons_of_mem _ hb)) _ (h s a (by simp) hs)

theorem foldl_pending {σ α : Type} (R : List α → σ → σ → Prop)
    (f : σ → α → σ) (g : σ → α → σ)
    (h : ∀ ks k s t, R (k :: ks) s t → R ks (f s k) (g t k)) :
    ∀ (l : List α) (s t : σ), R l s t → R [] (l.foldl f s) (l.foldl g t) := by
  intro l
  induction l with
  | nil => intro s t hst; exact hst
  | cons a ks ih => intro s t hst; exact ih _ _ (h ks a s t hst)

theorem foldl_pending_inv {σ α : Type} (P : List α → σ → Prop) (f : σ → α → σ)
    (h : ∀ ks k s, P (k :: ks) s → P ks (f s k)) :
    ∀ (l : List α) (s : σ), P l s → P [] (l.foldl f s) := by
  intro l
  induction l with
  | nil => intro s hs; exact hs
  | cons a ks ih => intro s hs; exact ih _ (h ks a s hs)

theorem list_eq_of_getD {l₁ l₂ : List α} (d : α) (hlen : l₁.length = l₂.length)
    (h : ∀ j, l₁.getD j d = l₂.getD j d) : l₁ = l₂ := by
  induction l₁ generalizing l₂ with
  | nil => cases l₂ with
    | nil => rfl
    | cons b t => simp at hlen
  | cons a t ih =>
    cases l₂ with
    | nil => simp at hlen
    | cons b t₂ =>
      have h0 := h 0
      simp only [List.getD_cons_zero] at h0
      have ht : t = t₂ := ih (by simpa using hlen) (fun j => by simpa using h (j + 1))
      rw [h0, ht]

/-! ## Pointwise characterisations of the evaluator and solver phases -/

theorem node_of_map (f : Node → Node) (hd : f nodeDefault = nodeDefault)
    (s : SimState) (l : List Node) (j : Nat) :
    (SimState.node { s with nodeList := l.map f } j) = f (l.getD j nodeDefault) := by
  simp only [SimState.node]
  exact getD_map_default f nodeDefault hd l j

theorem node_zeroCurrentsPhase (s : SimState) (j : Nat) :
    (zeroCurrentsPhase s).node j = { s.node j with current := 0 } :=
  node_of_map _ (by decide) s s.nodeList j

theorem node_zeroForcedPhase (s : SimState) (j : Nat) :
    (zeroForcedPhase s).node j =
      if (s.node j).forced then { s.node j with current := 0 } else s.node j := by
  have h := node_of_map (fun n => if n.forced then { n with current := 0 } else n)
    (by decide) s s.nodeList j
  exact h

theorem node_shiftPhase (s : SimState) (j : Nat) :
    (shiftPhase s).node j =
      { s.node j with voltage1 := (s.node j).voltage0, voltage2 := (s.node j).voltage1 } :=
  node_of_map _ (by decide) s s.nodeList j

theorem node_extrapolatePhase (s : SimState) (j : Nat) :
    (extrapolatePhase s).node j =
      if (s.node j).forced then s.node j
      else { s.node j with voltage0 := (s.node j).voltage1 + ((s.node j).voltage1 - (s.node j).voltage2) } :=
  node_of_map _ (by simp [nodeDefault]) s s.nodeList j

theorem node_gradientPhase (delta sqrtMag : ℚ) (s : SimState) (j : Nat) :
    (gradientPhase delta sqrtMag s).node j =
      if (s.node j).forced then s.node j
      else { s.node j with
              savedVoltage := (s.node j).voltage0
              slope := (s.node j).slope * (-delta / sqrtMag)
              voltage0 := (s.node j).voltage0 + (s.node j).slope * (-delta / sqrtMag) } :=
  node_of_map _ (by simp [nodeDefault]) s s.nodeList j

theorem node_voltageStep (step : ℚ) (s : SimState) (j : Nat) :
    (voltageStep step s).node j =
      if (s.node j).forced then s.node j
      else { s.node j with voltage0 := (s.node j).savedVoltage + step * (s.node j).slope } :=
  node_of_map _ (by simp [nodeDefault]) s s.nodeList j

theorem node_revertPhase (s : SimState) (j : Nat) :
    (revertPhase s).node j =
      if (s.node j).forced then s.node j
      else { s.node j with voltage0 := (s.node j).savedVoltage } :=
  node_of_map _ (by decide) s s.nodeList j

theorem node_fallbackResetPhase (s : SimState) (j : Nat) :
    (fallbackResetPhase s).node j =
      if (s.node j).forced then s.node j
      else { s.node j with voltage0 := (s.node j).savedVoltage, slope := 0 } :=
  node_of_map _ (by decide) s s.nodeList j

theorem node_setSlopeAt (idx : Nat) (adj : ℚ) (s : SimState) (j : Nat) :
    (setSlopeAt idx adj s).node j =
      if idx = j ∧ j < s.nodeList.length then { s.node j with slope := adj } else s.node j := by
  simp only [setSlopeAt, SimState.node]
  exact getD_modifyIdx _ idx j s.nodeList nodeDefault

theorem node_latchStep (s : SimState) (k : Comparator) (j : Nat) :
    (latchStep s k).node j =
      if k.outNodeIndex = j ∧ j < s.nodeList.length
      then { s.node j with voltage0 :=
              if (s.node k.negNodeIndex).voltage0 < 0 then COMPARATOR_HI_VOLTAGE
              else COMPARATOR_LO_VOLTAGE }
      else s.node j := by
  simp only [latchStep, SimState.node]
  exact getD_modifyIdx _ k.outNodeIndex j s.nodeList nodeDefault

theorem node_opAmpVoltageStep (coeff gain : ℚ) (s : SimState) (k j : Nat) :
    (opAmpVoltageStep coeff gain s k).node j =
      if (s.opAmpList.getD k opAmpDefault).outNodeIndex = j ∧ j < s.nodeList.length
      then { s.node j with voltage0 := opAmpVOut coeff gain s k }
      else s.node j := by
  simp only [opAmpVoltageStep, SimState.node, opAmpVOut]
  exact getD_modifyIdx _ _ j s.nodeList nodeDefault

theorem opAmps_opAmpVoltageStep (coeff gain : ℚ) (s : SimState) (k : Nat) :
    (opAmpVoltageStep coeff gain s k).opAmpList =
      modifyIdx (fun a => { a with voltage0 := opAmpVOut coeff gain s k }) k s.opAmpList := rfl

theorem node_resistorStep (s : SimState) (k j : Nat) :
    (resistorStep s k).node j =
      (let r := s.resistorList.getD k resistorDefault
       let i := ((s.node r.aNodeIndex).voltage0 - (s.node r.bNodeIndex).voltage0) / r.resistance
       let m1 := if r.aNodeIndex = j ∧ j < s.nodeList.length
                 then { s.node j with current := (s.node j).current - i } else s.node j
       if r.bNodeIndex = j ∧ j < s.nodeList.length
       then { m1 with current := m1.current + i } else m1) := by
  simp only [resistorStep, SimState.node, getD_modifyIdx, modifyIdx_length]

theorem resistors_resistorStep (s : SimState) (k : Nat) :
    (resistorStep s k).resistorList =
      modifyIdx (fun a => { a with current :=
        ((s.node a.aNodeIndex).voltage0 - (s.node a.bNodeIndex).voltage0) / a.resistance })
        k s.resistorList := by
  simp only [resistorStep]
  by_cases hk : k < s.resistorList.length
  · apply list_eq_of_getD resistorDefault
    · simp [modifyIdx_length]
    · intro j
      rw [getD_modifyIdx, getD_modifyIdx]
      by_cases h : k = j ∧ j < s.resistorList.length
      · rw [if_pos h, if_pos h, h.1]
      · rw [if_neg h, if_neg h]
  · apply list_eq_of_getD resistorDefault
    · simp [modifyIdx_length]
    · intro j
      rw [getD_modifyIdx, getD_modifyIdx]
      by_cases h : k = j ∧ j < s.resistorList.length
      · exact absurd (h.1 ▸ h.2) hk
      · rw [if_neg h, if_neg h]

theorem node_capacitorStep (dt : ℚ) (s : SimState) (k j : Nat) :
    (capacitorStep dt s k).node j =
      (let c := s.capacitorList.getD k capacitorDefault
       let inew := 2 * (c.capacitance *
         ((((s.node c.aNodeIndex).voltage0 - (s.node c.bNodeIndex).voltage0) -
           ((s.node c.aNodeIndex).voltage1 - (s.node c.bNodeIndex).voltage1)) / dt)) - c.current1
       let m1 := if c.aNodeIndex = j ∧ j < s.nodeList.length
                 then { s.node j with current := (s.node j).current - inew } else s.node j
       if c.bNodeIndex = j ∧ j < s.nodeList.length
       then { m1 with current := m1.current + inew } else m1) := by
  simp only [capacitorStep, SimState.node, getD_modifyIdx, modifyIdx_length]

theorem nodes_opAmpCurrentStep (s : SimState) (k : Nat) :
    (opAmpCurrentStep s k).nodeList = s.nodeList := rfl

theorem nodes_opAmpCurrentPhase (s : SimState) :
    (opAmpCurrentPhase s).nodeList = s.nodeList := by
  refine foldl_induct (fun t => t.nodeList = s.nodeList) _ _ (fun t k _ ht => ?_) s rfl
  exact (nodes_opAmpCurrentStep t k).trans ht

/-! ## Effect summaries of the evaluator phases -/

theorem nodesCurrentOnly_refl (s : SimState) : nodesCurrentOnly s s :=
  ⟨rfl, fun _ => ⟨rfl, rfl, rfl⟩⟩

theorem nodesCurrentOnly_trans {s t u : SimState}
    (h1 : nodesCurrentOnly s t) (h2 : nodesCurrentOnly t u) : nodesCurrentOnly s u := by
  refine ⟨h2.1.trans h1.1, fun j => ?_⟩
  obtain ⟨a1, b1, c1⟩ := h1.2 j
  obtain ⟨a2, b2, c2⟩ := h2.2 j
  exact ⟨a2.trans a1, b2.trans b1, c2.trans c1⟩

theorem resistorStep_currentOnly (s : SimState) (k : Nat) :
    nodesCurrentOnly s (resistorStep s k) := by
  refine ⟨by simp [resistorStep, modifyIdx_length], fun j => ?_⟩
  rw [node_resistorStep]
  dsimp only
  split_ifs <;> simp [histCore, scratchCore]

theorem capacitorStep_currentOnly (dt : ℚ) (s : SimState) (k : Nat) :
    nodesCurrentOnly s (capacitorStep dt s k) := by
  refine ⟨by simp [capacitorStep, modifyIdx_length], fun j => ?_⟩
  rw [node_capacitorStep]
  dsimp only
  split_ifs <;> simp [histCore, scratchCore]

theorem zeroCurrentsPhase_currentOnly (s : SimState) : nodesCurrentOnly s (zeroCurrentsPhase s) := by
  refine ⟨by simp [zeroCurrentsPhase], fun j => ?_⟩
  rw [node_zeroCurrentsPhase]
  simp [histCore, scratchCore]

theorem zeroForcedPhase_currentOnly (s : SimState) : nodesCurrentOnly s (zeroForcedPhase s) := by
  refine ⟨by simp [zeroForcedPhase], fun j => ?_⟩
  rw [node_zeroForcedPhase]
  split_ifs <;> simp [histCore, scratchCore]

theorem resistorPhase_currentOnly (s : SimState) : nodesCurrentOnly s (resistorPhase s) := by
  refine foldl_induct (nodesCurrentOnly s) _ _ (fun t k _ ht => ?_) s (nodesCurrentOnly_refl s)
  exact nodesCurrentOnly_trans ht (resistorStep_currentOnly t k)

theorem capacitorPhase_currentOnly (dt : ℚ) (s : SimState) :
    nodesCurrentOnly s (capacitorPhase dt s) := by
  refine foldl_induct (nodesCurrentOnly s) _ _ (fun t k _ ht => ?_) s (nodesCurrentOnly_refl s)
  exact nodesCurrentOnly_trans ht (capacitorStep_currentOnly dt t k)

theorem opAmpCurrentPhase_currentOnly (s : SimState) :
    nodesCurrentOnly s (opAmpCurrentPhase s) := by
  have h := nodes_opAmpCurrentPhase s
  exact ⟨by rw [h], fun j => by simp [SimState.node, h]⟩

theorem nodesVoltage0Only_refl (s : SimState) : nodesVoltage0Only s s :=
  ⟨rfl, fun _ => ⟨rfl, rfl, rfl⟩⟩

theorem nodesVoltage0Only_trans {s t u : SimState}
    (h1 : nodesVoltage0Only s t) (h2 : nodesVoltage0Only t u) : nodesVoltage0Only s u := by
  refine ⟨h2.1.trans h1.1, fun j => ?_⟩
  obtain ⟨a1, b1, c1⟩ := h1.2 j
  obtain ⟨a2, b2, c2⟩ := h2.2 j
  exact ⟨a2.trans a1, b2.trans b1, c2.trans c1⟩

theorem opAmpVoltageStep_v0Only (coeff gain : ℚ) (s : SimState) (k : Nat) :
    nodesVoltage0Only s (opAmpVoltageStep coeff gain s k) := by
  refine ⟨by simp [opAmpVoltageStep, modifyIdx_length], fun j => ?_⟩
  rw [node_opAmpVoltageStep]
  split_ifs <;> simp [histCore, scratchCore]

theorem opAmpVoltagePhase_v0Only (coeff gain : ℚ) (s : SimState) :
    nodesVoltage0Only s (opAmpVoltagePhase coeff gain s) := by
  refine foldl_induct (nodesVoltage0Only s) _ _ (fun t k _ ht => ?_) s (nodesVoltage0Only_refl s)
  exact nodesVoltage0Only_trans ht (opAmpVoltageStep_v0Only coeff gain t k)

/-- The node-level effect summary of one full `updateCurrents` call:
node count, histories, scratch fields and forced flags are untouched
(only `voltage0` of op-amp output nodes and the current accumulators
change). -/
theorem updateCurrents_nodeEffects (coeff gain dt : ℚ) (s : SimState) :
    (updateCurrents coeff gain dt s).1.nodeList.length = s.nodeList.length ∧
      ∀ j, histCore ((updateCurrents coeff gain dt s).1.node j) = histCore (s.node j) ∧
        scratchCore ((updateCurrents coeff gain dt s).1.node j) = scratchCore (s.node j) := by
  have h1 := opAmpVoltagePhase_v0Only coeff gain s
  have h2 := zeroCurrentsPhase_currentOnly (opAmpVoltagePhase coeff gain s)
  have h3 := resistorPhase_currentOnly (zeroCurrentsPhase (opAmpVoltagePhase coeff gain s))
  have h4 := capacitorPhase_currentOnly dt
    (resistorPhase (zeroCurrentsPhase (opAmpVoltagePhase coeff gain s)))
  have h5 := opAmpCurrentPhase_currentOnly (accumPhase coeff gain dt s)
  have h6 := zeroForcedPhase_currentOnly (opAmpCurrentPhase (accumPhase coeff gain dt s))
  have hacc : nodesCurrentOnly (opAmpVoltagePhase coeff gain s) (accumPhase coeff gain dt s) :=
    nodesCurrentOnly_trans (nodesCurrentOnly_trans h2 h3) h4
  have htail := nodesCurrentOnly_trans (nodesCurrentOnly_trans hacc h5) h6
  constructor
  · exact htail.1.trans h1.1
  · intro j
    obtain ⟨_, bh, ch⟩ := htail.2 j
    obtain ⟨_, bh', ch'⟩ := h1.2 j
    exact ⟨bh.trans bh', ch.trans ch'⟩

theorem getD_mem {l : List α} {k : Nat} (d : α) (h : k < l.length) : l.getD k d ∈ l := by
  induction l generalizing k with
  | nil => simp at h
  | cons a t ih =>
    cases k with
    | zero => simp
    | succ m => exact List.mem_cons_of_mem _ (ih (by simpa using h))

/-! ## Component-list preservation through the evaluator -/

theorem opAmpVoltagePhase_comps (coeff gain : ℚ) (s : SimState) :
    (opAmpVoltagePhase coeff gain s).resistorList = s.resistorList ∧
      (opAmpVoltagePhase coeff gain s).capacitorList = s.capacitorList ∧
      (opAmpVoltagePhase coeff gain s).opAmpList.map opAmpConfig = s.opAmpList.map opAmpConfig ∧
      (opAmpVoltagePhase coeff gain s).opAmpList.map (fun o => o.voltage1) =
        s.opAmpList.map (fun o => o.voltage1) ∧
      (opAmpVoltagePhase coeff gain s).opAmpList.length = s.opAmpList.length := by
  refine foldl_induct (fun t => t.resistorList = s.resistorList ∧ t.capacitorList = s.capacitorList ∧
      t.opAmpList.map opAmpConfig = s.opAmpList.map opAmpConfig ∧
      t.opAmpList.map (fun o => o.voltage1) = s.opAmpList.map (fun o => o.voltage1) ∧
      t.opAmpList.length = s.opAmpList.length) _ _ (fun t k _ ht => ?_) s
    ⟨rfl, rfl, rfl, rfl, rfl⟩
  obtain ⟨h1, h2, h3, h4, h5⟩ := ht
  refine ⟨h1, h2, ?_, ?_, ?_⟩
  · rw [opAmps_opAmpVoltageStep]
    refine (map_modifyIdx_invariant _ _ ?_ k t.opAmpList).trans h3
    exact fun a => rfl
  · rw [opAmps_opAmpVoltageStep]
    refine (map_modifyIdx_invariant _ _ ?_ k t.opAmpList).trans h4
    exact fun a => rfl
  · rw [opAmps_opAmpVoltageStep, modifyIdx_length, h5]

theorem resistorPhase_comps (s : SimState) :
    (resistorPhase s).capacitorList = s.capacitorList ∧
      (resistorPhase s).opAmpList = s.opAmpList ∧
      (resistorPhase s).resistorList.map resistorConfig = s.resistorList.map resistorConfig ∧
      (resistorPhase s).resistorList.length = s.resistorList.length := by
  refine foldl_induct (fun t => t.capacitorList = s.capacitorList ∧ t.opAmpList = s.opAmpList ∧
      t.resistorList.map resistorConfig = s.resistorList.map resistorConfig ∧
      t.resistorList.length = s.resistorList.length) _ _ (fun t k _ ht => ?_) s ⟨rfl, rfl, rfl, rfl⟩
  obtain ⟨h1, h2, h3, h4⟩ := ht
  refine ⟨h1, h2, ?_, ?_⟩
  · rw [resistors_resistorStep]
    refine (map_modifyIdx_invariant _ _ ?_ k t.resistorList).trans h3
    exact fun a => rfl
  · rw [resistors_resistorStep, modifyIdx_length, h4]

theorem capacitorPhase_comps (dt : ℚ) (s : SimState) :
    (capacitorPhase dt s).resistorList = s.resistorList ∧
      (capacitorPhase dt s).opAmpList = s.opAmpList ∧
      (capacitorPhase dt s).capacitorList.map (fun c => (c.capacitance, c.aNodeIndex, c.bNodeIndex)) =
        s.capacitorList.map (fun c => (c.capacitance, c.aNodeIndex, c.bNodeIndex)) ∧
      (capacitorPhase dt s).capacitorList.map (fun c => c.current1) =
        s.capacitorList.map (fun c => c.current1) ∧
      (capacitorPhase dt s).capacitorList.length = s.capacitorList.length := by
  refine foldl_induct (fun t => t.resistorList = s.resistorList ∧ t.opAmpList = s.opAmpList ∧
      t.capacitorList.map (fun c => (c.capacitance, c.aNodeIndex, c.bNodeIndex)) =
        s.capacitorList.map (fun c => (c.capacitance, c.aNodeIndex, c.bNodeIndex)) ∧
      t.capacitorList.map (fun c => c.current1) = s.capacitorList.map (fun c => c.current1) ∧
      t.capacitorList.length = s.capacitorList.length) _ _ (fun t k _ ht => ?_) s
    ⟨rfl, rfl, rfl, rfl, rfl⟩
  obtain ⟨h1, h2, h3, h4, h5⟩ := ht
  have hcap : (capacitorStep dt t k).capacitorList = modifyIdx
      (fun a => { a with current0 := 2 * ((t.capacitorList.getD k capacitorDefault).capacitance *
        ((((t.node (t.capacitorList.getD k capacitorDefault).aNodeIndex).voltage0 -
          (t.node (t.capacitorList.getD k capacitorDefault).bNodeIndex).voltage0) -
         ((t.node (t.capacitorList.getD k capacitorDefault).aNodeIndex).voltage1 -
          (t.node (t.capacitorList.getD k capacitorDefault).bNodeIndex).voltage1)) / dt)) -
        (t.capacitorList.getD k capacitorDefault).current1 }) k t.capacitorList := rfl
  refine ⟨h1, h2, ?_, ?_, ?_⟩
  · rw [hcap]
    refine (map_modifyIdx_invariant _ _ ?_ k t.capacitorList).trans h3
    exact fun a => rfl
  · rw [hcap]
    refine (map_modifyIdx_invariant _ _ ?_ k t.capacitorList).trans h4
    exact fun a => rfl
  · rw [hcap, modifyIdx_length, h5]

theorem opAmpCurrentPhase_comps (s : SimState) :
    (opAmpCurrentPhase s).resistorList = s.resistorList ∧
      (opAmpCurrentPhase s).capacitorList = s.capacitorList ∧
      (opAmpCurrentPhase s).opAmpList.map opAmpConfig = s.opAmpList.map opAmpConfig ∧
      (opAmpCurrentPhase s).opAmpList.map (fun o => o.voltage0) =
        s.opAmpList.map (fun o => o.voltage0) ∧
      (opAmpCurrentPhase s).opAmpList.map (fun o => o.voltage1) =
        s.opAmpList.map (fun o => o.voltage1) ∧
      (opAmpCurrentPhase s).opAmpList.length = s.opAmpList.length := by
  refine foldl_induct (fun t => t.resistorList = s.resistorList ∧ t.capacitorList = s.capacitorList ∧
      t.opAmpList.map opAmpConfig = s.opAmpList.map opAmpConfig ∧
      t.opAmpList.map (fun o => o.voltage0) = s.opAmpList.map (fun o => o.voltage0) ∧
      t.opAmpList.map (fun o => o.voltage1) = s.opAmpList.map (fun o => o.voltage1) ∧
      t.opAmpList.length = s.opAmpList.length) _ _ (fun t k _ ht => ?_) s
    ⟨rfl, rfl, rfl, rfl, rfl, rfl⟩
  obtain ⟨h1, h2, h3, h4, h5, h6⟩ := ht
  have hoa : (opAmpCurrentStep t k).opAmpList = modifyIdx
      (fun a => { a with current := -(t.node (t.opAmpList.getD k opAmpDefault).outNodeIndex).current })
      k t.opAmpList := rfl
  refine ⟨h1, h2, ?_, ?_, ?_, ?_⟩
  · rw [hoa]
    refine (map_modifyIdx_invariant _ _ ?_ k t.opAmpList).trans h3
    exact fun a => rfl
  · rw [hoa]
    refine (map_modifyIdx_invariant _ _ ?_ k t.opAmpList).trans h4
    exact fun a => rfl
  · rw [hoa]
    refine (map_modifyIdx_invariant _ _ ?_ k t.opAmpList).trans h5
    exact fun a => rfl
  · rw [hoa, modifyIdx_length, h6]

/-! ## The `stepQuiet` preservation suite -/

theorem stepQuiet_refl (s : SimState) : stepQuiet s s :=
  ⟨rfl, rfl, fun _ => rfl, fun _ _ _ => rfl⟩

theorem forced_of_histCore {a b : Node} (h : histCore a = histCore b) : a.forced = b.forced := by
  simpa [histCore] using congrArg (fun p => p.2.2) h

theorem stepQuiet_trans {s t u : SimState} (h1 : stepQuiet s t) (h2 : stepQuiet t u) :
    stepQuiet s u := by
  obtain ⟨l1, c1, hh1, hp1⟩ := h1
  obtain ⟨l2, c2, hh2, hp2⟩ := h2
  refine ⟨l2.trans l1, c2.trans c1, fun j => (hh2 j).trans (hh1 j), fun j hf ho => ?_⟩
  have hft : (t.node j).forced = true := (forced_of_histCore (hh1 j)).trans hf
  have hot : ∀ o ∈ t.opAmpList, o.outNodeIndex ≠ j := by
    intro o hmem
    have : opAmpConfig o ∈ s.opAmpList.map opAmpConfig := by
      rw [← c1]; exact List.mem_map_of_mem _ hmem
    obtain ⟨o', ho', hcfg⟩ := List.mem_map.mp this
    have : o'.outNodeIndex = o.outNodeIndex := by
      simpa [opAmpConfig] using congrArg (fun p => p.2.2) hcfg
    rw [← this]
    exact ho o' ho'
  exact (hp2 j hft hot).trans (hp1 j hf ho)

theorem stepQuiet_of_currentOnly {s t : SimState} (h : nodesCurrentOnly s t)
    (hc : t.opAmpList.map opAmpConfig = s.opAmpList.map opAmpConfig) : stepQuiet s t := by
  refine ⟨h.1, hc, fun j => (h.2 j).2.1, fun j _ _ => (h.2 j).1⟩

theorem stepQuiet_modify_unforced (s : SimState) (f : Node → Node) (k : Nat)
    (hk : (s.node k).forced = false) (hf : ∀ n, histCore (f n) = histCore n) :
    stepQuiet s { s with nodeList := modifyIdx f k s.nodeList } := by
  refine ⟨by simp [modifyIdx_length], rfl, fun j => ?_, fun j hj _ => ?_⟩
  · simp only [SimState.node, getD_modifyIdx]
    split_ifs with h
    · exact hf _
    · rfl
  · simp only [SimState.node, getD_modifyIdx]
    split_ifs with h
    · rw [h.1] at hk
      simp only [SimState.node] at hk hj
      rw [hk] at hj
      cases hj
    · rfl

theorem opAmpVoltageStep_stepQuiet (coeff gain : ℚ) (t : SimState) (k : Nat)
    (hk : k < t.opAmpList.length) : stepQuiet t (opAmpVoltageStep coeff gain t k) := by
  refine ⟨by simp [opAmpVoltageStep, modifyIdx_length], ?_, fun j => ?_, fun j hf ho => ?_⟩
  · rw [opAmps_opAmpVoltageStep]
    refine map_modifyIdx_invariant _ _ ?_ k t.opAmpList
    exact fun a => rfl
  · rw [node_opAmpVoltageStep]
    split_ifs <;> simp [histCore]
  · rw [node_opAmpVoltageStep]
    rw [if_neg ?_]
    rintro ⟨hout, -⟩
    exact ho _ (getD_mem opAmpDefault hk) hout

theorem opAmpVoltagePhase_stepQuiet (coeff gain : ℚ) (s : SimState) :
    stepQuiet s (opAmpVoltagePhase coeff gain s) := by
  refine foldl_induct (stepQuiet s) _ _ (fun t k hmem ht => ?_) s (stepQuiet_refl s)
  have hk : k < t.opAmpList.length := by
    have hlen : t.opAmpList.length = s.opAmpList.length := by
      have := congrArg List.length ht.2.1
      simpa using this
    rw [hlen]
    simpa using hmem
  exact stepQuiet_trans ht (opAmpVoltageStep_stepQuiet coeff gain t k hk)

theorem updateCurrents_stepQuiet (coeff gain dt : ℚ) (s : SimState) :
    stepQuiet s (updateCurrents coeff gain dt s).1 := by
  have q1 := opAmpVoltagePhase_stepQuiet coeff gain s
  have q2 := stepQuiet_of_currentOnly
    (zeroCurrentsPhase_currentOnly (opAmpVoltagePhase coeff gain s)) rfl
  have q3 := stepQuiet_of_currentOnly
    (resistorPhase_currentOnly (zeroCurrentsPhase (opAmpVoltagePhase coeff gain s)))
    (by rw [(resistorPhase_comps _).2.1])
  have q4 := stepQuiet_of_currentOnly
    (capacitorPhase_currentOnly dt (resistorPhase (zeroCurrentsPhase (opAmpVoltagePhase coeff gain s))))
    (by rw [(capacitorPhase_comps dt _).2.1])
  have q5 := stepQuiet_of_currentOnly (opAmpCurrentPhase_currentOnly (accumPhase coeff gain dt s))
    ((opAmpCurrentPhase_comps _).2.2.1)
  have q6 := stepQuiet_of_currentOnly (zeroForcedPhase_currentOnly
    (opAmpCurrentPhase (accumPhase coeff gain dt s))) rfl
  exact stepQuiet_trans (stepQuiet_trans (stepQuiet_trans
    (stepQuiet_trans (stepQuiet_trans q1 q2) q3) q4) q5) q6

theorem forced_false_after {s t : SimState} (h : stepQuiet s t) {k : Nat}
    (hk : (s.node k).forced = false) : (t.node k).forced = false :=
  (forced_of_histCore (h.2.2.1 k)).trans hk

theorem probeWriteA_stepQuiet (delta : ℚ) (k : Nat) (s : SimState)
    (hk : (s.node k).forced = false) : stepQuiet s (probeWriteA delta k s) := by
  simp only [probeWriteA]
  refine stepQuiet_modify_unforced s _ k hk ?_
  exact fun n => rfl

theorem probeWriteC_stepQuiet (delta : ℚ) (k : Nat) (s : SimState)
    (hk : (s.node k).forced = false) : stepQuiet s (probeWriteC delta k s) := by
  simp only [probeWriteC]
  refine stepQuiet_modify_unforced s _ k hk ?_
  exact fun n => rfl

theorem probeWriteE_stepQuiet (slope : ℚ) (k : Nat) (s : SimState)
    (hk : (s.node k).forced = false) : stepQuiet s (probeWriteE slope k s) := by
  simp only [probeWriteE]
  refine stepQuiet_modify_unforced s _ k hk ?_
  exact fun n => rfl

theorem probeStep_stepQuiet (coeff gain dt delta : ℚ) (acc : ProbeAcc) (k : Nat) :
    stepQuiet acc.sim (probeStep coeff gain dt delta acc k).sim := by
  by_cases hf : (acc.sim.node k).forced
  · simp only [probeStep, hf, if_true]
    exact stepQuiet_refl _
  · have hf' : (acc.sim.node k).forced = false := by simpa using hf
    simp only [probeStep, hf', Bool.false_eq_true, if_false]
    have q2 : stepQuiet acc.sim
        (updateCurrents coeff gain dt (probeWriteA delta k acc.sim)).1 :=
      stepQuiet_trans (probeWriteA_stepQuiet delta k acc.sim hf')
        (updateCurrents_stepQuiet coeff gain dt _)
    have q4 : stepQuiet acc.sim
        (updateCurrents coeff gain dt (probeWriteC delta k
          (updateCurrents coeff gain dt (probeWriteA delta k acc.sim)).1)).1 :=
      stepQuiet_trans (stepQuiet_trans q2
        (probeWriteC_stepQuiet delta k _ (forced_false_after q2 hf')))
        (updateCurrents_stepQuiet coeff gain dt _)
    exact stepQuiet_trans q4 (probeWriteE_stepQuiet _ k _ (forced_false_after q4 hf'))

theorem probePhase_stepQuiet (coeff gain dt delta score1 : ℚ) (s : SimState) :
    stepQuiet s (probePhase coeff gain dt delta score1 s).sim := by
  refine foldl_induct (fun acc : ProbeAcc => stepQuiet s acc.sim) _ _ (fun acc k _ ha => ?_) _
    (stepQuiet_refl s)
  exact stepQuiet_trans ha (probeStep_stepQuiet coeff gain dt delta acc k)

theorem gradientPhase_stepQuiet (delta m : ℚ) (s : SimState) :
    stepQuiet s (gradientPhase delta m s) := by
  refine ⟨by simp [gradientPhase], rfl, fun j => ?_, fun j hf _ => ?_⟩
  · rw [node_gradientPhase]
    split_ifs <;> simp [histCore]
  · rw [node_gradientPhase, if_pos hf]

theorem voltageStep_stepQuiet (step : ℚ) (s : SimState) :
    stepQuiet s (voltageStep step s) := by
  refine ⟨by simp [voltageStep], rfl, fun j => ?_, fun j hf _ => ?_⟩
  · rw [node_voltageStep]
    split_ifs <;> simp [histCore]
  · rw [node_voltageStep, if_pos hf]

theorem revertPhase_stepQuiet (s : SimState) : stepQuiet s (revertPhase s) := by
  refine ⟨by simp [revertPhase], rfl, fun j => ?_, fun j hf _ => ?_⟩
  · rw [node_revertPhase]
    split_ifs <;> simp [histCore]
  · rw [node_revertPhase, if_pos hf]

theorem fallbackResetPhase_stepQuiet (s : SimState) : stepQuiet s (fallbackResetPhase s) := by
  refine ⟨by simp [fallbackResetPhase], rfl, fun j => ?_, fun j hf _ => ?_⟩
  · rw [node_fallbackResetPhase]
    split_ifs <;> simp [histCore]
  · rw [node_fallbackResetPhase, if_pos hf]

theorem setSlopeAt_stepQuiet (idx : Nat) (adj : ℚ) (s : SimState) :
    stepQuiet s (setSlopeAt idx adj s) := by
  refine ⟨by simp [setSlopeAt, modifyIdx_length], rfl, fun j => ?_, fun j hf _ => ?_⟩
  · rw [node_setSlopeAt]
    split_ifs <;> simp [histCore]
  · rw [node_setSlopeAt]
    split_ifs <;> rfl

theorem bracketLoop_stepQuiet (coeff gain dt score1 : ℚ) :
    ∀ (fuel : Nat) (alpha bA bS : ℚ) (s : SimState) (calls : Nat) (t : SimState) (a b : ℚ) (c : Nat),
      bracketLoop coeff gain dt score1 fuel alpha bA bS s calls = some (t, a, b, c) →
      stepQuiet s t := by
  intro fuel
  induction fuel with
  | zero => intro alpha bA bS s calls t a b c h; exact absurd h (by simp [bracketLoop])
  | succ n ih =>
    intro alpha bA bS s calls t a b c h
    rw [bracketLoop] at h
    set e := updateCurrents coeff gain dt (voltageStep alpha s) with he
    have q : stepQuiet s e.1 :=
      stepQuiet_trans (voltageStep_stepQuiet alpha s)
        (updateCurrents_stepQuiet coeff gain dt (voltageStep alpha s))
    by_cases hlt : e.2 < score1
    · rw [if_pos hlt] at h
      exact stepQuiet_trans q (ih _ _ _ _ _ _ _ _ _ h)
    · rw [if_neg hlt] at h
      obtain ⟨rfl, -⟩ : e.1 = t ∧ True := by
        simp only [Option.some.injEq, Prod.mk.injEq] at h
        exact ⟨h.1, trivial⟩
      exact q

theorem interiorStep_stepQuiet (coeff gain dt lo hi : ℚ) (acc : SimState × ℚ × ℚ × Nat) (k : Nat) :
    stepQuiet acc.1 (interiorStep coeff gain dt lo hi acc k).1 := by
  have q : stepQuiet acc.1 (updateCurrents coeff gain dt
      (voltageStep (lo + ((k : ℚ) * (hi - lo)) / 9) acc.1)).1 :=
    stepQuiet_trans (voltageStep_stepQuiet _ _) (updateCurrents_stepQuiet _ _ _ _)
  simp only [interiorStep]
  split_ifs <;> exact q

theorem interiorFold_stepQuiet (coeff gain dt lo hi : ℚ) (l : List Nat)
    (acc : SimState × ℚ × ℚ × Nat) :
    stepQuiet acc.1 (l.foldl (interiorStep coeff gain dt lo hi) acc).1 := by
  induction l generalizing acc with
  | nil => exact stepQuiet_refl _
  | cons a t ih =>
    rw [List.foldl_cons]
    exact stepQuiet_trans (interiorStep_stepQuiet coeff gain dt lo hi acc a)
      (ih (interiorStep coeff gain dt lo hi acc a))

theorem lineSearch_stepQuiet (coeff gain dt score1 score3 : ℚ) (fuel : Nat) (s : SimState)
    (calls : Nat) : stepQuiet s (lineSearch coeff gain dt score1 score3 fuel s calls).2.1 := by
  cases hb : bracketLoop coeff gain dt score1 fuel 2 1 score3 s calls with
  | none => simp only [lineSearch, hb]; exact stepQuiet_refl s
  | some r =>
    obtain ⟨s2, bA, bS, calls2⟩ := r
    simp only [lineSearch, hb]
    have q1 : stepQuiet s s2 := bracketLoop_stepQuiet coeff gain dt score1 _ _ _ _ _ _ _ _ _ _ hb
    have q2 := interiorFold_stepQuiet coeff gain dt (bA / 2) (bA * 2) (List.range' 1 8)
      (s2, bA, bS, calls2)
    have q3 := voltageStep_stepQuiet
      (((List.range' 1 8).foldl (interiorStep coeff gain dt (bA / 2) (bA * 2))
        (s2, bA, bS, calls2)).2.1)
      (((List.range' 1 8).foldl (interiorStep coeff gain dt (bA / 2) (bA * 2))
        (s2, bA, bS, calls2)).1)
    exact stepQuiet_trans (stepQuiet_trans q1 q2) q3

theorem adjustAfterProbe_stepQuiet (rsqrt : ℚ → ℚ) (fuel : Nat)
    (coeff gain dt delta score1 : ℚ) (acc : ProbeAcc) :
    stepQuiet acc.sim (adjustAfterProbe rsqrt fuel coeff gain dt delta score1 acc).2.1 := by
  have qg := gradientPhase_stepQuiet delta (rsqrt acc.magnitude) acc.sim
  have qe3 := updateCurrents_stepQuiet coeff gain dt
    (gradientPhase delta (rsqrt acc.magnitude) acc.sim)
  have q3 := stepQuiet_trans qg qe3
  simp only [adjustAfterProbe]
  split_ifs with h1 h2
  · exact stepQuiet_refl _
  · cases hfb : acc.fallback with
    | none =>
      simp only [hfb]
      exact stepQuiet_trans q3 (revertPhase_stepQuiet _)
    | some p =>
      obtain ⟨idx, adj⟩ := p
      simp only [hfb]
      refine stepQuiet_trans (stepQuiet_trans (stepQuiet_trans q3
        (fallbackResetPhase_stepQuiet _)) (setSlopeAt_stepQuiet idx adj _)) ?_
      exact lineSearch_stepQuiet _ _ _ _ _ _ _ _
  · exact stepQuiet_trans q3 (lineSearch_stepQuiet _ _ _ _ _ _ _ _)

theorem adjustNodeVoltages_stepQuiet (rsqrt : ℚ → ℚ) (fuel : Nat) (coeff gain dt tol delta : ℚ)
    (s : SimState) : stepQuiet s (adjustNodeVoltages rsqrt fuel coeff gain dt tol delta s).2.1 := by
  have qe := updateCurrents_stepQuiet coeff gain dt s
  have qp := probePhase_stepQuiet coeff gain dt delta
    (updateCurrents coeff gain dt s).2 (updateCurrents coeff gain dt s).1
  simp only [adjustNodeVoltages]
  split_ifs with h1
  · exact qe
  · exact stepQuiet_trans (stepQuiet_trans qe qp)
      (adjustAfterProbe_stepQuiet rsqrt fuel coeff gain dt delta _ _)

theorem retryLoop_stepQuiet (rsqrt : ℚ → ℚ) (fuel : Nat) (coeff gain dt tol delta : ℚ) :
    ∀ (budget count calls : Nat) (s : SimState),
      stepQuiet s (retryLoop rsqrt fuel coeff gain dt tol delta budget count calls s).simOf := by
  intro budget
  induction budget with
  | zero =>
    intro count calls s
    exact updateCurrents_stepQuiet coeff gain dt s
  | succ n ih =>
    intro count calls s
    have qa := adjustNodeVoltages_stepQuiet rsqrt fuel coeff gain dt tol delta s
    simp only [retryLoop]
    cases h : (adjustNodeVoltages rsqrt fuel coeff gain dt tol delta s).1 with
    | converged q => simp only [h, StepOut.simOf]; exact qa
    | halted q => simp only [h, StepOut.simOf]; exact qa
    | progress =>
      simp only [h]
      exact stepQuiet_trans qa (ih _ _ _)
    | zeroGradient => simp only [h, StepOut.simOf]; exact qa
    | fuelOut => simp only [h, StepOut.simOf]; exact qa

theorem extrapolatePhase_stepQuiet (s : SimState) : stepQuiet s (extrapolatePhase s) := by
  refine ⟨by simp [extrapolatePhase], rfl, fun j => ?_, fun j hf _ => ?_⟩
  · rw [node_extrapolatePhase]
    split_ifs <;> simp [histCore]
  · rw [node_extrapolatePhase, if_pos hf]

theorem capShiftPhase_stepQuiet (s : SimState) : stepQuiet s (capShiftPhase s) :=
  ⟨rfl, rfl, fun _ => rfl, fun _ _ _ => rfl⟩

theorem opAmpShiftPhase_stepQuiet (s : SimState) : stepQuiet s (opAmpShiftPhase s) := by
  refine ⟨rfl, ?_, fun _ => rfl, fun _ _ _ => rfl⟩
  simp only [opAmpShiftPhase, List.map_map]
  rfl

/-- The whole of `simulationStep` after the history shift preserves the
`stepQuiet` bundle. -/
theorem simulationStep_stepQuiet (rsqrt : ℚ → ℚ) (fuel : Nat) (coeff gain tol delta : ℚ)
    (retryLimit : Nat) (simRate : ℚ) (s : SimState) :
    stepQuiet (shiftPhase s)
      (simulationStep rsqrt fuel coeff gain tol delta retryLimit simRate s).simOf := by
  unfold simulationStep
  refine stepQuiet_trans (stepQuiet_trans (stepQuiet_trans (capShiftPhase_stepQuiet _)
    (opAmpShiftPhase_stepQuiet _)) (extrapolatePhase_stepQuiet _)) ?_
  exact retryLoop_stepQuiet rsqrt fuel coeff gain (1 / simRate) tol delta retryLimit 0 0 _

/-! ## Claim C1 -/

theorem zeroForced_filter (l : List Node) :
    ((l.map fun n => if n.forced then { n with current := 0 } else n).filter
      fun n => !n.forced) = l.filter fun n => !n.forced := by
  induction l with
  | nil => rfl
  | cons a t ih =>
    by_cases hf : a.forced
    · simp [hf, ih]
    · simp [hf, ih]

/-- Claim C1 (amended): one call of `updateCurrents` returns the sum of
squared currents over the non-forced nodes of its resulting state, and
zeroes the current of every forced node; there is no separate
signed-sink-sum term and no `sqrt`/`1e9` scaling of the return value
(the solver takes the square root, in amps, when it reports). -/
theorem claim1_amended (coeff gain dt : ℚ) (s : SimState) :
    (updateCurrents coeff gain dt s).2 =
      (((updateCurrents coeff gain dt s).1.nodeList.filter fun n => !n.forced).map
        fun n => n.current * n.current).sum ∧
    ∀ n ∈ (updateCurrents coeff gain dt s).1.nodeList, n.forced = true → n.current = 0 := by
  have hu : updateCurrents coeff gain dt s =
      (zeroForcedPhase (opAmpCurrentPhase (accumPhase coeff gain dt s)),
        scoreOf (opAmpCurrentPhase (accumPhase coeff gain dt s))) := rfl
  rw [hu]
  constructor
  · unfold scoreOf zeroForcedPhase
    rw [zeroForced_filter]
  · intro n hn hf
    unfold zeroForcedPhase at hn
    simp only [List.mem_map] at hn
    obtain ⟨m, _, hm⟩ := hn
    by_cases hmf : m.forced
    · rw [← hm]
      simp [hmf]
    · rw [← hm] at hf
      simp [hmf] at hf

/-- Claim C1 (counterexample): on the one-resistor divider `cex1` the
evaluator returns `1` (the raw sum of squares in amps²), while the
spec's formula — non-sink squares plus the squared signed sink sum —
gives `2`, whose claimed report `sqrt(2)·1e9` is not the returned
value. -/
theorem claim1_counterexample :
    (updateCurrents 0 1000000 1 cex1).2 = 1 ∧
    specResidualSq (opAmpCurrentPhase (accumPhase 0 1000000 1 cex1)) = 2 ∧
    (1 : ℝ) ≠ Real.sqrt 2 * 10 ^ 9 := by
  refine ⟨by with_unfolding_all decide, by with_unfolding_all decide, fun h => ?_⟩
  have h2 : (1 : ℝ) ≤ Real.sqrt 2 := by
    rw [show (1 : ℝ) = Real.sqrt 1 by simp]
    exact Real.sqrt_le_sqrt (by norm_num)
  nlinarith [h2]

/-! ## Claim C5 -/

/-- Claim C5 (amended): `update` raises the range error exactly when the
sample rate is not positive, and such a call leaves the circuit (all
counters included) unchanged; every successful call advances
`totalSamples` by exactly one and the other two counters by the work
counts it returns.  (The claim's further assertion — that *any* raising
call leaves every counter unchanged — fails when the solver's
zero-gradient `logic_error` escapes mid-sample; see the
counterexample.) -/
theorem claim5_amended (rsqrt : ℚ → ℚ) (fuel : Nat) (coeffP rate : ℚ) (c : Circuit) :
    ((Circuit.update rsqrt fuel coeffP rate c).kind = some .rangeError ↔ rate ≤ 0) ∧
    (rate ≤ 0 → Circuit.update rsqrt fuel coeffP rate c = .err .rangeError c) ∧
    ∀ res c', Circuit.update rsqrt fuel coeffP rate c = .ok res c' →
      c'.totalSamples = c.totalSamples + 1 ∧
      c'.totalAdjustNodeVoltagesCount =
        c.totalAdjustNodeVoltagesCount + res.adjustNodeVoltagesCount ∧
      c'.totalCurrentUpdates = c.totalCurrentUpdates + res.currentUpdates := by
  by_cases hr : rate ≤ 0
  · refine ⟨⟨fun _ => hr, fun _ => ?_⟩, fun _ => ?_, fun res c' h => ?_⟩
    · simp [Circuit.update, hr, UpdateOut.kind]
    · simp [Circuit.update, hr]
    · rw [Circuit.update, if_pos hr] at h
      cases h
  · refine ⟨⟨fun hk => ?_, fun h => absurd h hr⟩, fun h => absurd h hr, fun res c' h => ?_⟩
    · simp only [Circuit.update, if_neg hr] at hk
      cases hu : updLoop rsqrt fuel
          (if c.sim.opAmpList ≠ [] ∧ 0 < c.opAmpSlewRateHalfLifeSeconds then coeffP else 0)
          c.opAmpOpenLoopGain c.scoreTolerance c.deltaVoltage c.retryLimit
          ((max 1 ⌈(c.minInternalSamplingRate : ℚ) / rate⌉ : ℤ) * rate)
          (max 1 ⌈(c.minInternalSamplingRate : ℚ) / rate⌉ : ℤ).toNat ⟨0, 0, -1⟩ c.sim with
      | ok r s' => rw [hu] at hk; simp [UpdateOut.kind] at hk
      | gradErr s' a b => rw [hu] at hk; simp [UpdateOut.kind] at hk
      | noFuel s' a b => rw [hu] at hk; simp [UpdateOut.kind] at hk
    · simp only [Circuit.update, if_neg hr] at h
      cases hu : updLoop rsqrt fuel
          (if c.sim.opAmpList ≠ [] ∧ 0 < c.opAmpSlewRateHalfLifeSeconds then coeffP else 0)
          c.opAmpOpenLoopGain c.scoreTolerance c.deltaVoltage c.retryLimit
          ((max 1 ⌈(c.minInternalSamplingRate : ℚ) / rate⌉ : ℤ) * rate)
          (max 1 ⌈(c.minInternalSamplingRate : ℚ) / rate⌉ : ℤ).toNat ⟨0, 0, -1⟩ c.sim with
      | ok r s' =>
        rw [hu] at h
        injection h with h1 h2
        subst h1
        rw [← h2]
        exact ⟨rfl, rfl, rfl⟩
      | gradErr s' a b => rw [hu] at h; cases h
      | noFuel s' a b => rw [hu] at h; cases h

/-- Claim C5 (counterexample): on `cex5` the solver's zero-gradient
`logic_error` escapes `update` (an exception that is not the range
error), yet `totalAdjustNodeVoltagesCount` and `totalCurrentUpdates`
have already advanced — so a raising `update` call does not leave every
counter unchanged. -/
theorem claim5_counterexample :
    (Circuit.update (fun x => x) 1 0 44100 cex5).kind = some .gradientZero ∧
    ErrKind.gradientZero ≠ ErrKind.rangeError ∧
    cex5.totalCurrentUpdates = 0 ∧ cex5.totalAdjustNodeVoltagesCount = 0 ∧
    (Circuit.update (fun x => x) 1 0 44100 cex5).circuitOf.totalCurrentUpdates = 3 ∧
    (Circuit.update (fun x => x) 1 0 44100 cex5).circuitOf.totalAdjustNodeVoltagesCount = 1 := by
  refine ⟨by with_unfolding_all decide, by decide, by with_unfolding_all decide,
    by with_unfolding_all decide, by with_unfolding_all decide, by with_unfolding_all decide⟩

/-- Claim C5 (witness): the amended theorem applied to a non-positive
rate on a concrete circuit. -/
theorem claim5_witness :
    Circuit.update (fun x => x) 1 0 (-1) cex5 = .err .rangeError cex5 :=
  (claim5_amended (fun x => x) 1 0 (-1) cex5).2.1 (by norm_num)

/-! ## Claim C6 -/

/-- Claim C6 (amended): after `lock()` every builder method that adds
nodes or components fails with the lock violation, and before `lock()`
every component-reference accessor fails with the lock violation —
except that `allocateForcedVoltageNode` performs no lock check at all
(see the counterexample). -/
theorem claim6_amended (c : Circuit) (i a b : Nat) (x v : ℚ) :
    (c.isLocked = true →
      c.createNode = .error .lockViolation ∧
      c.addResistor x a b = .error .lockViolation ∧
      c.addCapacitor x a b = .error .lockViolation ∧
      c.addOpAmp a b i = .error .lockViolation ∧
      c.createForcedVoltageNode v = .error .lockViolation) ∧
    (c.isLocked = false →
      c.resistorRef i = .error .lockViolation ∧
      c.capacitorRef i = .error .lockViolation ∧
      c.opAmpRef i = .error .lockViolation ∧
      c.nodeVoltageRef i = .error .lockViolation ∧
      c.writeNodeVoltage i v = .error .lockViolation) := by
  constructor
  · intro h
    refine ⟨?_, ?_, ?_, ?_, ?_⟩
    · simp [Circuit.createNode, h]
    · simp [Circuit.addResistor, h, throw, throwThe, MonadExceptOf.throw, Bind.bind, Except.bind,
        Functor.map, Except.map]
    · simp [Circuit.addCapacitor, h, throw, throwThe, MonadExceptOf.throw, Bind.bind, Except.bind,
        Functor.map, Except.map]
    · simp [Circuit.addOpAmp, h, throw, throwThe, MonadExceptOf.throw, Bind.bind, Except.bind,
        Functor.map, Except.map]
    · simp [Circuit.createForcedVoltageNode, Circuit.createNode, h, Bind.bind, Except.bind]
  · intro h
    refine ⟨?_, ?_, ?_, ?_, ?_⟩
    · simp [Circuit.resistorRef, h]
    · simp [Circuit.capacitorRef, h]
    · simp [Circuit.opAmpRef, h]
    · simp [Circuit.nodeVoltageRef, h]
    · simp [Circuit.writeNodeVoltage, h]

/-- Claim C6 (counterexample): `allocateForcedVoltageNode` succeeds on a
locked circuit instead of raising the lock violation — the source
performs no `confirmUnlocked` check in that builder method; the call
returns normally with the node marked forced. -/
theorem claim6_counterexample :
    cex6.isLocked = true ∧
    (cex6.allocateForcedVoltageNode 0).toOption.map (fun c' => (c'.sim.node 0).forced) =
      some true := by
  refine ⟨by decide, by with_unfolding_all decide⟩

/-- Claim C6 (witness): the amended theorem applied to a locked and an
unlocked concrete circuit. -/
theorem claim6_witness :
    cex6.createNode = .error .lockViolation ∧
    cex6.addResistor 5 0 0 = .error .lockViolation ∧
    cex6.addCapacitor 5 0 0 = .error .lockViolation ∧
    cex6.addOpAmp 0 0 0 = .error .lockViolation ∧
    cex6.createForcedVoltageNode 3 = .error .lockViolation ∧
    Circuit.fresh.resistorRef 0 = .error .lockViolation ∧
    Circuit.fresh.capacitorRef 0 = .error .lockViolation ∧
    Circuit.fresh.opAmpRef 0 = .error .lockViolation ∧
    Circuit.fresh.nodeVoltageRef 0 = .error .lockViolation ∧
    Circuit.fresh.writeNodeVoltage 0 2 = .error .lockViolation := by
  obtain ⟨b1, b2, b3, b4, b5⟩ := (claim6_amended cex6 0 0 0 5 3).1 (by decide)
  obtain ⟨a1, a2, a3, a4, a5⟩ := (claim6_amended Circuit.fresh 0 0 0 5 2).2 (by decide)
  exact ⟨b1, b2, b3, b4, b5, a1, a2, a3, a4, a5⟩

/-! ## Claim C10 -/

theorem currentSum_zeroCurrents (s : SimState) : currentSum (zeroCurrentsPhase s) = 0 := by
  unfold currentSum zeroCurrentsPhase
  rw [List.map_map]
  exact List.sum_eq_zero (fun x hx => by
    obtain ⟨n, -, rfl⟩ := List.mem_map.mp hx
    rfl)

theorem getD_proj_eq {l l' : List α} (g : α → β) (h : l.map g = l'.map g) (k : Nat) (d : α)
    (hk : k < l.length) : g (l.getD k d) = g (l'.getD k d) := by
  have hlen : l.length = l'.length := by
    have := congrArg List.length h
    simpa using this
  have h1 := getD_map_general g l k (g d) d
  have h2 := getD_map_general g l' k (g d) d
  rw [if_pos hk] at h1
  rw [if_pos (hlen ▸ hk)] at h2
  rw [← h1, h, h2]

theorem sum_current_modify_sub_add (l : List Node) (a b : Nat) (x : ℚ)
    (ha : a < l.length) (hb : b < l.length) :
    ((modifyIdx (fun n => { n with current := n.current + x }) b
        (modifyIdx (fun n => { n with current := n.current - x }) a l)).map
      fun n => n.current).sum = (l.map fun n => n.current).sum := by
  rw [sum_map_modifyIdx_shift (fun n => n.current) _ x _ b nodeDefault (by simp)
      (by rwa [modifyIdx_length]),
    sum_map_modifyIdx_shift (fun n => n.current) _ (-x) l a nodeDefault
      (by simp [sub_eq_add_neg]) ha]
  ring

theorem resistorStep_currentSum (t : SimState) (k : Nat)
    (ha : (t.resistorList.getD k resistorDefault).aNodeIndex < t.nodeList.length)
    (hb : (t.resistorList.getD k resistorDefault).bNodeIndex < t.nodeList.length) :
    currentSum (resistorStep t k) = currentSum t := by
  simp only [resistorStep, currentSum]
  exact sum_current_modify_sub_add t.nodeList _ _ _ ha hb

theorem capacitorStep_currentSum (dt : ℚ) (t : SimState) (k : Nat)
    (ha : (t.capacitorList.getD k capacitorDefault).aNodeIndex < t.nodeList.length)
    (hb : (t.capacitorList.getD k capacitorDefault).bNodeIndex < t.nodeList.length) :
    currentSum (capacitorStep dt t k) = currentSum t := by
  simp only [capacitorStep, currentSum]
  exact sum_current_modify_sub_add t.nodeList _ _ _ ha hb

theorem resistorPhase_currentSum (s : SimState)
    (hr : ∀ r ∈ s.resistorList, r.aNodeIndex < s.nodeList.length ∧ r.bNodeIndex < s.nodeList.length)
    (h0 : currentSum s = 0) : currentSum (resistorPhase s) = 0 := by
  refine (foldl_induct (fun t => currentSum t = 0 ∧ t.nodeList.length = s.nodeList.length ∧
      t.resistorList.map resistorConfig = s.resistorList.map resistorConfig)
    resistorStep (List.range s.resistorList.length) (fun t k hk ht => ?_) s ⟨h0, rfl, rfl⟩).1
  obtain ⟨ht0, htl, htc⟩ := ht
  have hkr : k < s.resistorList.length := List.mem_range.mp hk
  have hklen : k < t.resistorList.length := by
    have := congrArg List.length htc
    simp only [List.length_map] at this
    omega
  have hcfg := getD_proj_eq resistorConfig htc k resistorDefault hklen
  have hmem := getD_mem resistorDefault hkr
  have haidx : (t.resistorList.getD k resistorDefault).aNodeIndex =
      (s.resistorList.getD k resistorDefault).aNodeIndex := by
    simpa [resistorConfig] using congrArg (fun p => p.2.1) hcfg
  have hbidx : (t.resistorList.getD k resistorDefault).bNodeIndex =
      (s.resistorList.getD k resistorDefault).bNodeIndex := by
    simpa [resistorConfig] using congrArg (fun p => p.2.2) hcfg
  have ha : (t.resistorList.getD k resistorDefault).aNodeIndex < t.nodeList.length := by
    rw [haidx, htl]
    exact (hr _ hmem).1
  have hb : (t.resistorList.getD k resistorDefault).bNodeIndex < t.nodeList.length := by
    rw [hbidx, htl]
    exact (hr _ hmem).2
  refine ⟨(resistorStep_currentSum t k ha hb).trans ht0,
    (resistorStep_currentOnly t k).1.trans htl, ?_⟩
  rw [resistors_resistorStep]
  refine (map_modifyIdx_invariant _ _ ?_ k t.resistorList).trans htc
  exact fun a => rfl

theorem capacitorPhase_currentSum (dt : ℚ) (s : SimState)
    (hc : ∀ c ∈ s.capacitorList, c.aNodeIndex < s.nodeList.length ∧ c.bNodeIndex < s.nodeList.length)
    (h0 : currentSum s = 0) : currentSum (capacitorPhase dt s) = 0 := by
  refine (foldl_induct (fun t => currentSum t = 0 ∧ t.nodeList.length = s.nodeList.length ∧
      t.capacitorList.map (fun c => (c.capacitance, c.aNodeIndex, c.bNodeIndex)) =
        s.capacitorList.map (fun c => (c.capacitance, c.aNodeIndex, c.bNodeIndex)))
    (capacitorStep dt) (List.range s.capacitorList.length) (fun t k hk ht => ?_) s
    ⟨h0, rfl, rfl⟩).1
  obtain ⟨ht0, htl, htc⟩ := ht
  have hkr : k < s.capacitorList.length := List.mem_range.mp hk
  have hklen : k < t.capacitorList.length := by
    have := congrArg List.length htc
    simp only [List.length_map] at this
    omega
  have hcfg := getD_proj_eq (fun c => (c.capacitance, c.aNodeIndex, c.bNodeIndex)) htc k
    capacitorDefault hklen
  have hmem := getD_mem capacitorDefault hkr
  have haidx : (t.capacitorList.getD k capacitorDefault).aNodeIndex =
      (s.capacitorList.getD k capacitorDefault).aNodeIndex := by
    simpa using congrArg (fun p => p.2.1) hcfg
  have hbidx : (t.capacitorList.getD k capacitorDefault).bNodeIndex =
      (s.capacitorList.getD k capacitorDefault).bNodeIndex := by
    simpa using congrArg (fun p => p.2.2) hcfg
  have ha : (t.capacitorList.getD k capacitorDefault).aNodeIndex < t.nodeList.length := by
    rw [haidx, htl]
    exact (hc _ hmem).1
  have hb : (t.capacitorList.getD k capacitorDefault).bNodeIndex < t.nodeList.length := by
    rw [hbidx, htl]
    exact (hc _ hmem).2
  have hcapeq : (capacitorStep dt t k).capacitorList = modifyIdx
      (fun a => { a with current0 := 2 * ((t.capacitorList.getD k capacitorDefault).capacitance *
        ((((t.node (t.capacitorList.getD k capacitorDefault).aNodeIndex).voltage0 -
          (t.node (t.capacitorList.getD k capacitorDefault).bNodeIndex).voltage0) -
         ((t.node (t.capacitorList.getD k capacitorDefault).aNodeIndex).voltage1 -
          (t.node (t.capacitorList.getD k capacitorDefault).bNodeIndex).voltage1)) / dt)) -
        (t.capacitorList.getD k capacitorDefault).current1 }) k t.capacitorList := rfl
  refine ⟨(capacitorStep_currentSum dt t k ha hb).trans ht0,
    (capacitorStep_currentOnly dt t k).1.trans htl, ?_⟩
  rw [hcapeq]
  refine (map_modifyIdx_invariant _ _ ?_ k t.capacitorList).trans htc
  exact fun a => rfl

/-- Claim C10 (confirmed): immediately after the resistor and capacitor
accumulation loops of `updateCurrents` — before forced-node currents
are harvested and zeroed — the net currents over all nodes sum to
exactly zero (in the exact arithmetic of the model), because each
component subtracts its branch current at one endpoint and adds the
identical value at the other. -/
theorem claim10_conservation (coeff gain dt : ℚ) (s : SimState)
    (hr : ∀ r ∈ s.resistorList, r.aNodeIndex < s.nodeList.length ∧ r.bNodeIndex < s.nodeList.length)
    (hc : ∀ c ∈ s.capacitorList, c.aNodeIndex < s.nodeList.length ∧ c.bNodeIndex < s.nodeList.length) :
    currentSum (accumPhase coeff gain dt s) = 0 := by
  have hov := opAmpVoltagePhase_comps coeff gain s
  have hovl := (opAmpVoltagePhase_v0Only coeff gain s).1
  have hzl : (zeroCurrentsPhase (opAmpVoltagePhase coeff gain s)).nodeList.length =
      s.nodeList.length := by
    simp [zeroCurrentsPhase, hovl]
  have hzres : (zeroCurrentsPhase (opAmpVoltagePhase coeff gain s)).resistorList =
      s.resistorList := hov.1
  have hrsum := resistorPhase_currentSum (zeroCurrentsPhase (opAmpVoltagePhase coeff gain s))
    (by rw [hzres, hzl]; exact hr)
    (currentSum_zeroCurrents (opAmpVoltagePhase coeff gain s))
  have hres := resistorPhase_comps (zeroCurrentsPhase (opAmpVoltagePhase coeff gain s))
  have hrl := (resistorPhase_currentOnly (zeroCurrentsPhase (opAmpVoltagePhase coeff gain s))).1
  have hcaps : (resistorPhase (zeroCurrentsPhase (opAmpVoltagePhase coeff gain s))).capacitorList =
      s.capacitorList := by
    rw [hres.1, show (zeroCurrentsPhase (opAmpVoltagePhase coeff gain s)).capacitorList =
      (opAmpVoltagePhase coeff gain s).capacitorList from rfl, hov.2.1]
  exact capacitorPhase_currentSum dt _ (by rw [hcaps, hrl, hzl]; exact hc) hrsum

/-- Claim C10 (witness): conservation on the concrete source/divider/
capacitor circuit `wit10`. -/
theorem claim10_witness :
    (∀ r ∈ wit10.resistorList, r.aNodeIndex < wit10.nodeList.length ∧
      r.bNodeIndex < wit10.nodeList.length) ∧
    (∀ c ∈ wit10.capacitorList, c.aNodeIndex < wit10.nodeList.length ∧
      c.bNodeIndex < wit10.nodeList.length) ∧
    currentSum (accumPhase 0 1000000 (1/2) wit10) = 0 :=
  ⟨by decide, by decide,
    claim10_conservation 0 1000000 (1/2) wit10 (by decide) (by decide)⟩

/-! ## Claim C2 -/

theorem resInv_default (s : SimState) (k : Nat) (hk : s.resistorList.length ≤ k) :
    resInv s k := by
  simp only [resInv]
  rw [List.getD_eq_default _ _ hk]
  simp [resistorDefault]

theorem resInv_transfer {t u : SimState} (hres : u.resistorList = t.resistorList)
    (hv : ∀ j, (u.node j).voltage0 = (t.node j).voltage0) {k : Nat}
    (h : resInv t k) : resInv u k := by
  simp only [resInv, hres, hv] at h ⊢
  exact h

theorem resistorPhase_resInv (s : SimState) (k : Nat) (hk : k < s.resistorList.length) :
    resInv (resistorPhase s) k := by
  simp only [resistorPhase]
  refine (foldl_pending_inv (fun pending t =>
      t.nodeList.length = s.nodeList.length ∧
      (∀ j, (t.node j).voltage0 = (s.node j).voltage0) ∧
      t.resistorList.map resistorConfig = s.resistorList.map resistorConfig ∧
      (∀ m ∈ pending, m < s.resistorList.length) ∧
      (∀ m, m ∉ pending → m < s.resistorList.length → resInv t m))
    resistorStep (fun ks i t ht => ?_) (List.range s.resistorList.length) s
    ⟨rfl, fun _ => rfl, rfl, fun m hm => List.mem_range.mp hm,
     fun m hm hlt => absurd (List.mem_range.mpr hlt) hm⟩).2.2.2.2 k (List.not_mem_nil k) hk
  obtain ⟨hlen, hv, hcfg, hpend, hinv⟩ := ht
  have hcur := resistorStep_currentOnly t i
  have hv0 : ∀ j, ((resistorStep t i).node j).voltage0 = (t.node j).voltage0 :=
    fun j => (hcur.2 j).1
  have hRlen : t.resistorList.length = s.resistorList.length := by
    have hml := congrArg List.length hcfg
    simpa using hml
  have hicase : i < s.resistorList.length := hpend i (List.mem_cons_self i ks)
  refine ⟨hcur.1.trans hlen, fun j => (hv0 j).trans (hv j), ?_,
    fun m hm => hpend m (List.mem_cons_of_mem _ hm), fun m hm hmlt => ?_⟩
  · rw [resistors_resistorStep]
    refine (map_modifyIdx_invariant _ _ ?_ i t.resistorList).trans hcfg
    exact fun a => rfl
  · by_cases hmi : m = i
    · subst hmi
      simp only [resInv, resistors_resistorStep, getD_modifyIdx]
      rw [if_pos ⟨by trivial, by omega⟩]
      simp [hv0]
    · have hold := hinv m (fun hmem => (List.mem_cons.mp hmem).elim hmi hm) hmlt
      simp only [resInv] at hold
      simp only [resInv, resistors_resistorStep, getD_modifyIdx]
      rw [if_neg (fun hc => hmi hc.1.symm)]
      simp only [hv0]
      exact hold

theorem updateCurrents_resInv (coeff gain dt : ℚ) (s : SimState) (k : Nat) :
    resInv (updateCurrents coeff gain dt s).1 k := by
  simp only [updateCurrents, accumPhase]
  by_cases hk : k < (zeroCurrentsPhase (opAmpVoltagePhase coeff gain s)).resistorList.length
  · have h1 := resistorPhase_resInv (zeroCurrentsPhase (opAmpVoltagePhase coeff gain s)) k hk
    have h2 := resInv_transfer (capacitorPhase_comps dt _).1
      (fun j => ((capacitorPhase_currentOnly dt _).2 j).1) h1
    have h3 := resInv_transfer (opAmpCurrentPhase_comps _).1
      (fun j => ((opAmpCurrentPhase_currentOnly _).2 j).1) h2
    refine resInv_transfer ?_ (fun j => ((zeroForcedPhase_currentOnly _).2 j).1) h3
    rfl
  · have hlen : (zeroForcedPhase (opAmpCurrentPhase (capacitorPhase dt (resistorPhase
        (zeroCurrentsPhase (opAmpVoltagePhase coeff gain s)))))).resistorList.length =
        (zeroCurrentsPhase (opAmpVoltagePhase coeff gain s)).resistorList.length := by
      rw [show (zeroForcedPhase (opAmpCurrentPhase (capacitorPhase dt (resistorPhase
          (zeroCurrentsPhase (opAmpVoltagePhase coeff gain s)))))).resistorList =
          (opAmpCurrentPhase (capacitorPhase dt (resistorPhase (zeroCurrentsPhase
          (opAmpVoltagePhase coeff gain s))))).resistorList from rfl,
        (opAmpCurrentPhase_comps _).1, (capacitorPhase_comps dt _).1,
        (resistorPhase_comps _).2.2.2]
    exact resInv_default _ k (by omega)

theorem lineSearch_outcome (coeff gain dt s1 s3 : ℚ) (fuel : Nat) (s : SimState) (calls : Nat) :
    (lineSearch coeff gain dt s1 s3 fuel s calls).1 = .progress ∨
    (lineSearch coeff gain dt s1 s3 fuel s calls).1 = .fuelOut := by
  simp only [lineSearch]
  cases hb : bracketLoop coeff gain dt s1 fuel 2 1 s3 s calls with
  | none => exact .inr rfl
  | some p =>
    obtain ⟨s2, bA, bS, c2⟩ := p
    exact .inl rfl

theorem outPair_ne_converged (sc : ℚ) (x : AdjustOut × SimState × Nat)
    (h : x.1 = .progress ∨ x.1 = .fuelOut) : x.1 ≠ .converged sc := by
  rcases h with h | h <;> rw [h] <;> exact fun hc => AdjustOut.noConfusion hc

theorem adjustAfterProbe_not_converged (rsqrt : ℚ → ℚ) (fuel : Nat)
    (coeff gain dt delta score1 sc : ℚ) (acc : ProbeAcc) :
    (adjustAfterProbe rsqrt fuel coeff gain dt delta score1 acc).1 ≠ .converged sc := by
  simp only [adjustAfterProbe]
  split_ifs with h1 h2
  · simp
  · cases hf : acc.fallback with
    | none => simp
    | some p =>
      obtain ⟨idx, adj⟩ := p
      exact outPair_ne_converged sc _ (lineSearch_outcome _ _ _ _ _ _ _ _)
  · exact outPair_ne_converged sc _ (lineSearch_outcome _ _ _ _ _ _ _ _)

/-- Claim C2 (amended): after every evaluator call every resistor's
`current` field equals `(V[a,0] - V[b,0]) / resistance` read in the
resulting state; and when a solver call returns through its converged
branch, the final state is the evaluator's own output, so every
resistor's current reflects the final voltage vector.  On the
early-halt path, by contrast, the C++ reverts the trial voltages
without re-running the evaluator, so the stored component currents
reflect the abandoned trial voltages rather than the reverted final
vector (see the counterexample). -/
theorem claim2_amended (rsqrt : ℚ → ℚ) (fuel : Nat) (coeff gain dt tol delta sc : ℚ)
    (s s' : SimState) (n : Nat) :
    (∀ k, resInv (updateCurrents coeff gain dt s).1 k) ∧
    (adjustNodeVoltages rsqrt fuel coeff gain dt tol delta s = (.converged sc, s', n) →
      ∀ k, resInv s' k) := by
  refine ⟨fun k => updateCurrents_resInv coeff gain dt s k, fun h k => ?_⟩
  simp only [adjustNodeVoltages] at h
  by_cases hc : (updateCurrents coeff gain dt s).2 < tol * tol
  · rw [if_pos hc] at h
    have hs' : (updateCurrents coeff gain dt s).1 = s' := congrArg (fun p => p.2.1) h
    rw [← hs']
    exact updateCurrents_resInv coeff gain dt s k
  · rw [if_neg hc] at h
    have hcon : (adjustAfterProbe rsqrt fuel coeff gain dt delta
        (updateCurrents coeff gain dt s).2
        (probePhase coeff gain dt delta (updateCurrents coeff gain dt s).2
          (updateCurrents coeff gain dt s).1)).1 = .converged sc :=
      congrArg (fun p => p.1) h
    exact absurd hcon (adjustAfterProbe_not_converged rsqrt fuel coeff gain dt delta
      (updateCurrents coeff gain dt s).2 sc _)

/-- Claim C2 (counterexample): on `cex2` the solver takes the
early-halt path (`halted 17/16`), reverting the trial voltages without
re-running the evaluator: the returned state stores `3/4` in resistor
2's `current` field although that resistor's terminal voltages are `0`
and `1/4` with resistance `1`, demanding `(0 - 1/4)/1 = -1/4` — the
claimed invariant fails in the state a solver call returns. -/
theorem claim2_counterexample :
    (adjustNodeVoltages (fun x => x) 1 0 2 1 (1/100000000) 1 cex2).1 = .halted (17/16) ∧
    ((adjustNodeVoltages (fun x => x) 1 0 2 1 (1/100000000) 1 cex2).2.1.resistorList.getD 2
      resistorDefault).current = 3/4 ∧
    (((adjustNodeVoltages (fun x => x) 1 0 2 1 (1/100000000) 1 cex2).2.1.node 4).voltage0 -
      ((adjustNodeVoltages (fun x => x) 1 0 2 1 (1/100000000) 1 cex2).2.1.node 5).voltage0) /
      ((adjustNodeVoltages (fun x => x) 1 0 2 1 (1/100000000) 1 cex2).2.1.resistorList.getD 2
        resistorDefault).resistance = -(1/4) ∧
    ¬ resInv (adjustNodeVoltages (fun x => x) 1 0 2 1 (1/100000000) 1 cex2).2.1 2 := by
  refine ⟨?_, ?_, ?_, ?_⟩
  · with_unfolding_all decide
  · with_unfolding_all decide
  · with_unfolding_all decide
  · simp only [resInv]
    with_unfolding_all decide

/-- Claim C2 (witness): on the one-forced-node circuit `wit2` the
solver converges immediately and the amended theorem delivers the
resistor invariant in the returned state. -/
theorem claim2_witness :
    adjustNodeVoltages (fun x => x) 1 0 1000000 1 (1/100000000) (1/1000000000) wit2 =
      (.converged 0, (updateCurrents 0 1000000 1 wit2).1, 1) ∧
    ∀ k, resInv (updateCurrents 0 1000000 1 wit2).1 k := by
  have h : adjustNodeVoltages (fun x => x) 1 0 1000000 1 (1/100000000) (1/1000000000) wit2 =
      (.converged 0, (updateCurrents 0 1000000 1 wit2).1, 1) := by
    with_unfolding_all decide
  exact ⟨h, (claim2_amended (fun x => x) 1 0 1000000 1 (1/100000000) (1/1000000000) 0 wit2
    (updateCurrents 0 1000000 1 wit2).1 1).2 h⟩

/-! ## Claim C7 -/

/-- Claim C7 (amended): suppose the baseline evaluation does not
converge.  If the probe loop's gradient magnitude is zero, the solver
raises the zero-gradient `logic_error` (it does *not* return the best
residual).  If the magnitude is nonzero but the normalised-gradient
micro-step fails to improve on the baseline score and no single-axis
fallback was found, the solver reverts the trial voltages and returns
the best residual found — the baseline score — without raising. -/
theorem claim7_amended (rsqrt : ℚ → ℚ) (fuel : Nat) (coeff gain dt tol delta : ℚ) (s : SimState)
    (hnc : ¬ (updateCurrents coeff gain dt s).2 < tol * tol) :
    ((probePhase coeff gain dt delta (updateCurrents coeff gain dt s).2
        (updateCurrents coeff gain dt s).1).magnitude = 0 →
      adjustNodeVoltages rsqrt fuel coeff gain dt tol delta s =
        (.zeroGradient,
         (probePhase coeff gain dt delta (updateCurrents coeff gain dt s).2
           (updateCurrents coeff gain dt s).1).sim,
         (probePhase coeff gain dt delta (updateCurrents coeff gain dt s).2
           (updateCurrents coeff gain dt s).1).calls)) ∧
    ((probePhase coeff gain dt delta (updateCurrents coeff gain dt s).2
        (updateCurrents coeff gain dt s).1).magnitude ≠ 0 →
     (probePhase coeff gain dt delta (updateCurrents coeff gain dt s).2
        (updateCurrents coeff gain dt s).1).fallback = none →
     (updateCurrents coeff gain dt s).2 ≤
       (updateCurrents coeff gain dt (gradientPhase delta
         (rsqrt (probePhase coeff gain dt delta (updateCurrents coeff gain dt s).2
           (updateCurrents coeff gain dt s).1).magnitude)
         (probePhase coeff gain dt delta (updateCurrents coeff gain dt s).2
           (updateCurrents coeff gain dt s).1).sim)).2 →
      adjustNodeVoltages rsqrt fuel coeff gain dt tol delta s =
        (.halted (updateCurrents coeff gain dt s).2,
         revertPhase (updateCurrents coeff gain dt (gradientPhase delta
           (rsqrt (probePhase coeff gain dt delta (updateCurrents coeff gain dt s).2
             (updateCurrents coeff gain dt s).1).magnitude)
           (probePhase coeff gain dt delta (updateCurrents coeff gain dt s).2
             (updateCurrents coeff gain dt s).1).sim)).1,
         (probePhase coeff gain dt delta (updateCurrents coeff gain dt s).2
           (updateCurrents coeff gain dt s).1).calls + 1)) := by
  constructor
  · intro hm
    simp only [adjustNodeVoltages]
    rw [if_neg hnc]
    simp only [adjustAfterProbe]
    rw [if_pos hm]
  · intro hm hfb hle
    simp only [adjustNodeVoltages]
    rw [if_neg hnc]
    simp only [adjustAfterProbe]
    rw [if_neg hm, if_pos hle, hfb]

/-- Claim C7 (counterexample): on `cex7` every probe direction leaves
the residual unchanged, so the gradient is zero — exactly the "no local
improvement possible along any explored direction" situation — and the
solver raises the zero-gradient `logic_error` instead of returning the
best residual found. -/
theorem claim7_counterexample :
    (adjustNodeVoltages (fun x => x) 1 0 2 1 (1/100000000) 1 cex7).1 = .zeroGradient := by
  with_unfolding_all decide

/-- Claim C7 (witness): the amended theorem applied to the
zero-gradient circuit `cex7` (the raise) and to the no-fallback
early-halt circuit `cex2` (the quiet return of the baseline
residual). -/
theorem claim7_witness :
    (probePhase 0 2 1 1 (updateCurrents 0 2 1 cex7).2 (updateCurrents 0 2 1 cex7).1).magnitude
      = 0 ∧
    adjustNodeVoltages (fun x => x) 1 0 2 1 (1/100000000) 1 cex7 =
      (.zeroGradient,
       (probePhase 0 2 1 1 (updateCurrents 0 2 1 cex7).2 (updateCurrents 0 2 1 cex7).1).sim,
       (probePhase 0 2 1 1 (updateCurrents 0 2 1 cex7).2 (updateCurrents 0 2 1 cex7).1).calls) ∧
    (probePhase 0 2 1 1 (updateCurrents 0 2 1 cex2).2 (updateCurrents 0 2 1 cex2).1).fallback
      = none ∧
    (adjustNodeVoltages (fun x => x) 1 0 2 1 (1/100000000) 1 cex2).1 =
      .halted ((updateCurrents 0 2 1 cex2).2) := by
  have h1 : ¬ (updateCurrents 0 2 1 cex7).2 < (1/100000000) * (1/100000000) := by
    with_unfolding_all decide
  have h2 : (probePhase 0 2 1 1 (updateCurrents 0 2 1 cex7).2
      (updateCurrents 0 2 1 cex7).1).magnitude = 0 := by
    with_unfolding_all decide
  have h3 : ¬ (updateCurrents 0 2 1 cex2).2 < (1/100000000) * (1/100000000) := by
    with_unfolding_all decide
  have h4 : (probePhase 0 2 1 1 (updateCurrents 0 2 1 cex2).2
      (updateCurrents 0 2 1 cex2).1).magnitude ≠ 0 := by
    with_unfolding_all decide
  have h5 : (probePhase 0 2 1 1 (updateCurrents 0 2 1 cex2).2
      (updateCurrents 0 2 1 cex2).1).fallback = none := by
    with_unfolding_all decide
  have h6 : (updateCurrents 0 2 1 cex2).2 ≤
      (updateCurrents 0 2 1 (gradientPhase 1
        ((probePhase 0 2 1 1 (updateCurrents 0 2 1 cex2).2
          (updateCurrents 0 2 1 cex2).1).magnitude)
        (probePhase 0 2 1 1 (updateCurrents 0 2 1 cex2).2
          (updateCurrents 0 2 1 cex2).1).sim)).2 := by
    with_unfolding_all decide
  refine ⟨h2, (claim7_amended (fun x => x) 1 0 2 1 (1/100000000) 1 cex7 h1).1 h2, h5, ?_⟩
  exact congrArg (fun p => p.1)
    ((claim7_amended (fun x => x) 1 0 2 1 (1/100000000) 1 cex2 h3).2 h4 h5 h6)

/-! ## Claim C9 -/

theorem clampRail_range (x : ℚ) : VNEG ≤ clampRail x ∧ clampRail x ≤ VPOS := by
  unfold clampRail VNEG VPOS
  split_ifs with h1 h2 <;> constructor <;> linarith

theorem convex_rail (c a b : ℚ) (hc0 : 0 ≤ c) (hc1 : c ≤ 1)
    (ha : VNEG ≤ a ∧ a ≤ VPOS) (hb : VNEG ≤ b ∧ b ≤ VPOS) :
    VNEG ≤ c * a + (1 - c) * b ∧ c * a + (1 - c) * b ≤ VPOS := by
  unfold VNEG VPOS at ha hb ⊢
  constructor <;> nlinarith [ha.1, ha.2, hb.1, hb.2]

theorem opAmpVOut_range (coeff gain : ℚ) (t : SimState) (k : Nat)
    (hc0 : 0 ≤ coeff) (hc1 : coeff ≤ 1)
    (hv1 : VNEG ≤ (t.opAmpList.getD k opAmpDefault).voltage1 ∧
      (t.opAmpList.getD k opAmpDefault).voltage1 ≤ VPOS) :
    VNEG ≤ opAmpVOut coeff gain t k ∧ opAmpVOut coeff gain t k ≤ VPOS := by
  simp only [opAmpVOut]
  exact convex_rail coeff _ _ hc0 hc1 hv1 (clampRail_range _)

theorem opAmpFilterCoeffFormula_range (simRate halfLife : ℝ) (hr : 0 < simRate) :
    0 ≤ opAmpFilterCoeffFormula simRate halfLife ∧
      opAmpFilterCoeffFormula simRate halfLife < 1 := by
  unfold opAmpFilterCoeffFormula
  split_ifs with h
  · constructor
    · exact Real.rpow_nonneg (by norm_num) _
    · exact Real.rpow_lt_one (by norm_num) (by norm_num) (by positivity)
  · norm_num

theorem opAmpVoltagePhase_rails (coeff gain : ℚ) (s : SimState)
    (hc0 : 0 ≤ coeff) (hc1 : coeff ≤ 1)
    (hv1 : ∀ o ∈ s.opAmpList, VNEG ≤ o.voltage1 ∧ o.voltage1 ≤ VPOS) :
    (∀ m, m < s.opAmpList.length →
      VNEG ≤ ((opAmpVoltagePhase coeff gain s).opAmpList.getD m opAmpDefault).voltage0 ∧
      ((opAmpVoltagePhase coeff gain s).opAmpList.getD m opAmpDefault).voltage0 ≤ VPOS) ∧
    (∀ j, j < s.nodeList.length →
      (∃ m, m < s.opAmpList.length ∧ (s.opAmpList.getD m opAmpDefault).outNodeIndex = j) →
      VNEG ≤ ((opAmpVoltagePhase coeff gain s).node j).voltage0 ∧
      ((opAmpVoltagePhase coeff gain s).node j).voltage0 ≤ VPOS) := by
  have main : (opAmpVoltagePhase coeff gain s).nodeList.length = s.nodeList.length ∧
      (opAmpVoltagePhase coeff gain s).opAmpList.map (fun o => o.voltage1) =
        s.opAmpList.map (fun o => o.voltage1) ∧
      (opAmpVoltagePhase coeff gain s).opAmpList.map opAmpConfig =
        s.opAmpList.map opAmpConfig ∧
      (∀ m ∈ ([] : List Nat), m < s.opAmpList.length) ∧
      (∀ m, m ∉ ([] : List Nat) → m < s.opAmpList.length →
        VNEG ≤ ((opAmpVoltagePhase coeff gain s).opAmpList.getD m opAmpDefault).voltage0 ∧
        ((opAmpVoltagePhase coeff gain s).opAmpList.getD m opAmpDefault).voltage0 ≤ VPOS) ∧
      (∀ j, j < s.nodeList.length →
        (∃ m, m < s.opAmpList.length ∧ m ∉ ([] : List Nat) ∧
          (s.opAmpList.getD m opAmpDefault).outNodeIndex = j) →
        VNEG ≤ ((opAmpVoltagePhase coeff gain s).node j).voltage0 ∧
        ((opAmpVoltagePhase coeff gain s).node j).voltage0 ≤ VPOS) := by
    simp only [opAmpVoltagePhase]
    refine foldl_pending_inv (fun pending t =>
        t.nodeList.length = s.nodeList.length ∧
        t.opAmpList.map (fun o => o.voltage1) = s.opAmpList.map (fun o => o.voltage1) ∧
        t.opAmpList.map opAmpConfig = s.opAmpList.map opAmpConfig ∧
        (∀ m ∈ pending, m < s.opAmpList.length) ∧
        (∀ m, m ∉ pending → m < s.opAmpList.length →
          VNEG ≤ (t.opAmpList.getD m opAmpDefault).voltage0 ∧
          (t.opAmpList.getD m opAmpDefault).voltage0 ≤ VPOS) ∧
        (∀ j, j < s.nodeList.length →
          (∃ m, m < s.opAmpList.length ∧ m ∉ pending ∧
            (s.opAmpList.getD m opAmpDefault).outNodeIndex = j) →
          VNEG ≤ (t.node j).voltage0 ∧ (t.node j).voltage0 ≤ VPOS))
      (opAmpVoltageStep coeff gain) (fun ks i t ht => ?_) (List.range s.opAmpList.length) s
      ⟨rfl, rfl, rfl, fun m hm => List.mem_range.mp hm,
       fun m hm hlt => absurd (List.mem_range.mpr hlt) hm,
       fun j hj hex => hex.elim fun m hm => absurd (List.mem_range.mpr hm.1) hm.2.1⟩
    obtain ⟨hlen, hm1, hcfg, hpend, hops, hnodes⟩ := ht
    have hilt : i < s.opAmpList.length := hpend i (List.mem_cons_self i ks)
    have hOlen : t.opAmpList.length = s.opAmpList.length := by
      have hl := congrArg List.length hcfg
      simpa using hl
    have hv1i : VNEG ≤ (t.opAmpList.getD i opAmpDefault).voltage1 ∧
        (t.opAmpList.getD i opAmpDefault).voltage1 ≤ VPOS := by
      rw [show (t.opAmpList.getD i opAmpDefault).voltage1 =
        (s.opAmpList.getD i opAmpDefault).voltage1 from
        getD_proj_eq (fun o => o.voltage1) hm1 i opAmpDefault (by omega)]
      exact hv1 _ (getD_mem opAmpDefault hilt)
    have hrange := opAmpVOut_range coeff gain t i hc0 hc1 hv1i
    have houti : (t.opAmpList.getD i opAmpDefault).outNodeIndex =
        (s.opAmpList.getD i opAmpDefault).outNodeIndex := by
      have hproj := getD_proj_eq opAmpConfig hcfg i opAmpDefault (by omega)
      simpa [opAmpConfig] using congrArg (fun p => p.2.2) hproj
    refine ⟨(opAmpVoltageStep_v0Only coeff gain t i).1.trans hlen, ?_, ?_,
      fun m hm => hpend m (List.mem_cons_of_mem _ hm), fun m hm hmlt => ?_,
      fun j hj hex => ?_⟩
    · rw [opAmps_opAmpVoltageStep]
      refine (map_modifyIdx_invariant _ _ ?_ i t.opAmpList).trans hm1
      exact fun a => rfl
    · rw [opAmps_opAmpVoltageStep]
      refine (map_modifyIdx_invariant _ _ ?_ i t.opAmpList).trans hcfg
      exact fun a => rfl
    · rw [opAmps_opAmpVoltageStep, getD_modifyIdx]
      by_cases hmi : i = m
      · subst hmi
        rw [if_pos ⟨by trivial, by omega⟩]
        exact hrange
      · rw [if_neg (fun hc => hmi hc.1)]
        exact hops m (fun hmem => (List.mem_cons.mp hmem).elim (fun h => hmi h.symm) hm) hmlt
    · rw [node_opAmpVoltageStep]
      split_ifs with hif
      · exact hrange
      · obtain ⟨m, hmlt, hmp, hout⟩ := hex
        by_cases hmi : m = i
        · exfalso
          apply hif
          subst hmi
          exact ⟨houti.trans hout, by omega⟩
        · exact hnodes j hj
            ⟨m, hmlt, fun hmem => (List.mem_cons.mp hmem).elim hmi hmp, hout⟩
  exact ⟨fun m hm => main.2.2.2.2.1 m (List.not_mem_nil m) hm,
    fun j hj hex => hex.elim fun m hm =>
      main.2.2.2.2.2 j hj ⟨m, hm.1, List.not_mem_nil m, hm.2⟩⟩

set_option maxHeartbeats 1000000 in
/-- Claim C9 (confirmed): provided the filter coefficient lies in
`[0, 1]` and every op-amp's remembered previous output lies within the
rails, after one `updateCurrents` call every op-amp's filtered output
voltage, and the `voltage[0]` of every node that is some op-amp's
output, lie within `[VNEG, VPOS] = [-12, 12]`; the real-valued filter
coefficient computed by `update` always lies in `[0, 1)` whenever the
internal sampling rate is positive; and the between-sample shift
re-establishes the premise by copying those in-range outputs into the
op-amps' `voltage[1]` slots. -/
theorem claim9_invariant (coeff gain dt : ℚ) (s : SimState)
    (hc0 : 0 ≤ coeff) (hc1 : coeff ≤ 1)
    (hv1 : ∀ o ∈ s.opAmpList, VNEG ≤ o.voltage1 ∧ o.voltage1 ≤ VPOS) :
    (∀ simRate halfLife : ℝ, 0 < simRate →
      0 ≤ opAmpFilterCoeffFormula simRate halfLife ∧
      opAmpFilterCoeffFormula simRate halfLife < 1) ∧
    (∀ m, m < s.opAmpList.length →
      VNEG ≤ ((updateCurrents coeff gain dt s).1.opAmpList.getD m opAmpDefault).voltage0 ∧
      ((updateCurrents coeff gain dt s).1.opAmpList.getD m opAmpDefault).voltage0 ≤ VPOS) ∧
    (∀ j, j < s.nodeList.length →
      (∃ m, m < s.opAmpList.length ∧ (s.opAmpList.getD m opAmpDefault).outNodeIndex = j) →
      VNEG ≤ ((updateCurrents coeff gain dt s).1.node j).voltage0 ∧
      ((updateCurrents coeff gain dt s).1.node j).voltage0 ≤ VPOS) ∧
    (∀ m, m < s.opAmpList.length →
      VNEG ≤ ((opAmpShiftPhase (updateCurrents coeff gain dt s).1).opAmpList.getD m
        opAmpDefault).voltage1 ∧
      ((opAmpShiftPhase (updateCurrents coeff gain dt s).1).opAmpList.getD m
        opAmpDefault).voltage1 ≤ VPOS) := by
  have hph := opAmpVoltagePhase_rails coeff gain s hc0 hc1 hv1
  have hfin : (updateCurrents coeff gain dt s).1 =
      zeroForcedPhase (opAmpCurrentPhase (accumPhase coeff gain dt s)) := rfl
  have hacc : accumPhase coeff gain dt s =
      capacitorPhase dt (resistorPhase (zeroCurrentsPhase (opAmpVoltagePhase coeff gain s))) :=
    rfl
  have hOmap : (updateCurrents coeff gain dt s).1.opAmpList.map (fun o => o.voltage0) =
      (opAmpVoltagePhase coeff gain s).opAmpList.map (fun o => o.voltage0) := by
    rw [hfin,
      show (zeroForcedPhase (opAmpCurrentPhase (accumPhase coeff gain dt s))).opAmpList =
        (opAmpCurrentPhase (accumPhase coeff gain dt s)).opAmpList from rfl,
      (opAmpCurrentPhase_comps _).2.2.2.1, hacc, (capacitorPhase_comps _ _).2.1,
      (resistorPhase_comps _).2.1]
    rfl
  have hOlen : (updateCurrents coeff gain dt s).1.opAmpList.length = s.opAmpList.length := by
    have h1 := congrArg List.length hOmap
    simp only [List.length_map] at h1
    exact h1.trans (opAmpVoltagePhase_comps coeff gain s).2.2.2.2
  have hop : ∀ m, m < s.opAmpList.length →
      VNEG ≤ ((updateCurrents coeff gain dt s).1.opAmpList.getD m opAmpDefault).voltage0 ∧
      ((updateCurrents coeff gain dt s).1.opAmpList.getD m opAmpDefault).voltage0 ≤ VPOS := by
    intro m hm
    rw [show ((updateCurrents coeff gain dt s).1.opAmpList.getD m opAmpDefault).voltage0 =
      ((opAmpVoltagePhase coeff gain s).opAmpList.getD m opAmpDefault).voltage0 from
      getD_proj_eq (fun o => o.voltage0) hOmap m opAmpDefault (by omega)]
    exact hph.1 m hm
  have hco : nodesCurrentOnly (opAmpVoltagePhase coeff gain s)
      (updateCurrents coeff gain dt s).1 := by
    have h2 := zeroCurrentsPhase_currentOnly (opAmpVoltagePhase coeff gain s)
    have h3 := resistorPhase_currentOnly (zeroCurrentsPhase (opAmpVoltagePhase coeff gain s))
    have h4 := capacitorPhase_currentOnly dt
      (resistorPhase (zeroCurrentsPhase (opAmpVoltagePhase coeff gain s)))
    have h5 := opAmpCurrentPhase_currentOnly (accumPhase coeff gain dt s)
    have h6 := zeroForcedPhase_currentOnly (opAmpCurrentPhase (accumPhase coeff gain dt s))
    have hacc2 : nodesCurrentOnly (opAmpVoltagePhase coeff gain s)
        (accumPhase coeff gain dt s) := by
      rw [hacc]
      exact nodesCurrentOnly_trans (nodesCurrentOnly_trans h2 h3) h4
    have htail := nodesCurrentOnly_trans (nodesCurrentOnly_trans hacc2 h5) h6
    rw [hfin]
    exact htail
  refine ⟨fun simRate halfLife hr => opAmpFilterCoeffFormula_range simRate halfLife hr,
    hop, fun j hj hex => ?_, fun m hm => ?_⟩
  · rw [show (((updateCurrents coeff gain dt s).1.node j).voltage0 :) =
      ((opAmpVoltagePhase coeff gain s).node j).voltage0 from (hco.2 j).1]
    exact hph.2 j hj hex
  · rw [show (opAmpShiftPhase (updateCurrents coeff gain dt s).1).opAmpList =
      (updateCurrents coeff gain dt s).1.opAmpList.map
        (fun o => { o with voltage1 := o.voltage0 }) from rfl,
      getD_map_default (fun o => { o with voltage1 := o.voltage0 }) opAmpDefault rfl]
    exact hop m hm

/-- Claim C9 (witness): the rails invariant on the mid-slew unity-wired
op-amp circuit `wit9` with filter coefficient `1/2`, and a concrete
instance of the coefficient-range bound. -/
theorem claim9_witness :
    (∀ o ∈ wit9.opAmpList, VNEG ≤ o.voltage1 ∧ o.voltage1 ≤ VPOS) ∧
    (∀ m, m < wit9.opAmpList.length →
      VNEG ≤ ((updateCurrents (1/2) 1000000 1 wit9).1.opAmpList.getD m opAmpDefault).voltage0 ∧
      ((updateCurrents (1/2) 1000000 1 wit9).1.opAmpList.getD m opAmpDefault).voltage0 ≤ VPOS) ∧
    (∀ j, j < wit9.nodeList.length →
      (∃ m, m < wit9.opAmpList.length ∧ (wit9.opAmpList.getD m opAmpDefault).outNodeIndex = j) →
      VNEG ≤ ((updateCurrents (1/2) 1000000 1 wit9).1.node j).voltage0 ∧
      ((updateCurrents (1/2) 1000000 1 wit9).1.node j).voltage0 ≤ VPOS) ∧
    (0 ≤ opAmpFilterCoeffFormula 2 1 ∧ opAmpFilterCoeffFormula 2 1 < 1) := by
  have hv : ∀ o ∈ wit9.opAmpList, VNEG ≤ o.voltage1 ∧ o.voltage1 ≤ VPOS := by
    with_unfolding_all decide
  have h := claim9_invariant (1/2) 1000000 1 wit9 (by norm_num) (by norm_num) hv
  exact ⟨hv, h.2.1, h.2.2.1, h.1 2 1 (by norm_num)⟩

/-! ## Claim C8 -/

theorem updLoop_one (rsqrt : ℚ → ℚ) (fuel : Nat) (coeff gain tol delta : ℚ) (rl : Nat)
    (sr : ℚ) (res : SolutionResult) (s : SimState) :
    updLoop rsqrt fuel coeff gain tol delta rl sr 1 res s =
      match simulationStep rsqrt fuel coeff gain tol delta rl sr s with
      | .ok r s' => .ok ⟨res.adjustNodeVoltagesCount + r.adjustNodeVoltagesCount,
          res.currentUpdates + r.currentUpdates, r.scoreSq⟩ s'
      | .gradErr s' a b => .gradErr s' (res.adjustNodeVoltagesCount + a) (res.currentUpdates + b)
      | .noFuel s' a b => .noFuel s' (res.adjustNodeVoltagesCount + a) (res.currentUpdates + b)
    := by
  rfl

/-- Claim C8 (amended): the voltage-history shift is per *internal
simulation step*, not per `update` call.  (1) Across one
`simulationStep`, every node's final `voltage[1]` equals its
`voltage[0]` at the step's start and its final `voltage[2]` equals its
`voltage[1]` at the step's start, whatever the solver outcome.  (2)
Inside a step, after the shifts, every non-forced node is seeded with
`V[0] := V[1] + (V[1] - V[2])` before the solver runs.  (3) The spec's
per-update phrasing is recovered exactly when the oversampling factor
is `1`: a successful `update` at an audio rate at least
`minInternalSamplingRate` leaves every node with `voltage[1]` equal to
its `voltage[0]` at the start of the call (the end of the previous
update), and `voltage[2]` equal to the start-of-call `voltage[1]`.
When the rate is lower, one `update` performs several internal steps
and the per-update phrasing fails (see the counterexample). -/
theorem claim8_amended :
    (∀ (rsqrt : ℚ → ℚ) (fuel : Nat) (coeff gain tol delta : ℚ) (retryLimit : Nat)
       (simRate : ℚ) (s : SimState) (j : Nat),
       (((simulationStep rsqrt fuel coeff gain tol delta retryLimit simRate s).simOf.node
         j).voltage1 = (s.node j).voltage0) ∧
       (((simulationStep rsqrt fuel coeff gain tol delta retryLimit simRate s).simOf.node
         j).voltage2 = (s.node j).voltage1)) ∧
    (∀ (s : SimState) (j : Nat), (s.node j).forced = false →
       ((extrapolatePhase (opAmpShiftPhase (capShiftPhase (shiftPhase s)))).node j).voltage0 =
         (s.node j).voltage0 + ((s.node j).voltage0 - (s.node j).voltage1)) ∧
    (∀ (rsqrt : ℚ → ℚ) (fuel : Nat) (coeffP rate : ℚ) (c : Circuit) (res : SolutionResult)
       (c' : Circuit), 0 < rate → (c.minInternalSamplingRate : ℚ) ≤ rate →
       Circuit.update rsqrt fuel coeffP rate c = .ok res c' →
       ∀ j, (c'.sim.node j).voltage1 = (c.sim.node j).voltage0 ∧
            (c'.sim.node j).voltage2 = (c.sim.node j).voltage1) := by
  have part1 : ∀ (rsqrt : ℚ → ℚ) (fuel : Nat) (coeff gain tol delta : ℚ) (retryLimit : Nat)
      (simRate : ℚ) (s : SimState) (j : Nat),
      (((simulationStep rsqrt fuel coeff gain tol delta retryLimit simRate s).simOf.node
        j).voltage1 = (s.node j).voltage0) ∧
      (((simulationStep rsqrt fuel coeff gain tol delta retryLimit simRate s).simOf.node
        j).voltage2 = (s.node j).voltage1) := by
    intro rsqrt fuel coeff gain tol delta retryLimit simRate s j
    have hh := (simulationStep_stepQuiet rsqrt fuel coeff gain tol delta retryLimit
      simRate s).2.2.1 j
    rw [node_shiftPhase] at hh
    simp only [histCore, Prod.mk.injEq] at hh
    exact ⟨hh.1, hh.2.1⟩
  refine ⟨part1, fun s j hf => ?_, ?_⟩
  · have hx : (extrapolatePhase (opAmpShiftPhase (capShiftPhase (shiftPhase s)))).node j =
        (extrapolatePhase (shiftPhase s)).node j := rfl
    rw [hx, node_extrapolatePhase, node_shiftPhase]
    simp [hf]
  · intro rsqrt fuel coeffP rate c res c' hpos hge hup
    simp only [Circuit.update] at hup
    rw [if_neg (not_le.mpr hpos)] at hup
    have hfac : max 1 ⌈(c.minInternalSamplingRate : ℚ) / rate⌉ = 1 := by
      have h1 : (c.minInternalSamplingRate : ℚ) / rate ≤ 1 := (div_le_one hpos).mpr hge
      have h2 : ⌈(c.minInternalSamplingRate : ℚ) / rate⌉ ≤ 1 := by
        rw [Int.ceil_le]
        exact_mod_cast h1
      omega
    rw [hfac] at hup
    simp only [Int.toNat_one, Int.cast_one, one_mul] at hup
    rw [updLoop_one] at hup
    cases hstep : simulationStep rsqrt fuel
        (if c.sim.opAmpList ≠ [] ∧ 0 < c.opAmpSlewRateHalfLifeSeconds then coeffP else 0)
        c.opAmpOpenLoopGain c.scoreTolerance c.deltaVoltage c.retryLimit rate c.sim with
    | ok r s' =>
      rw [hstep] at hup
      injection hup with h1 h2
      subst h2
      intro j
      have hh := part1 rsqrt fuel
        (if c.sim.opAmpList ≠ [] ∧ 0 < c.opAmpSlewRateHalfLifeSeconds then coeffP else 0)
        c.opAmpOpenLoopGain c.scoreTolerance c.deltaVoltage c.retryLimit rate c.sim j
      rw [hstep] at hh
      simp only [StepOut.simOf] at hh
      exact hh
    | gradErr s' a b =>
      rw [hstep] at hup
      exact UpdateOut.noConfusion hup
    | noFuel s' a b =>
      rw [hstep] at hup
      exact UpdateOut.noConfusion hup

/-- Claim C8 (counterexample): at audio rate `20000 < 40000 =
minInternalSamplingRate` the oversampling factor is `2`, so one
successful `update` shifts the history twice: on `cex8` (one unforced
node whose `voltage[0]` was `8` at the end of the previous update) the
new `voltage[1]` is `16`, the seed of the second internal step, not the
`8` that `voltage[0]` held at the end of update `N-1`. -/
theorem claim8_counterexample :
    (Circuit.update (fun x => x) 1 0 20000 cex8).kind = none ∧
    ((Circuit.update (fun x => x) 1 0 20000 cex8).circuitOf.sim.node 0).voltage1 = 16 ∧
    (cex8.sim.node 0).voltage0 = 8 ∧
    ((Circuit.update (fun x => x) 1 0 20000 cex8).circuitOf.sim.node 0).voltage1 ≠
      (cex8.sim.node 0).voltage0 := by
  refine ⟨?_, ?_, ?_, ?_⟩ <;> with_unfolding_all decide

theorem eq_ok_of_kind_none (u : UpdateOut) (d : SolutionResult) (h : u.kind = none) :
    u = .ok (u.resOf.getD d) u.circuitOf := by
  cases u with
  | ok r c => rfl
  | err e c => exact absurd h (by simp [UpdateOut.kind])

/-- Claim C8 (witness): a factor-1 update (`44100 ≥ 40000`) on `cex8`
satisfies the per-update history-shift property, and the extrapolation
seed on `cex8`'s unforced node equals `V[1] + (V[1] - V[2])` after the
shift. -/
theorem claim8_witness :
    (((Circuit.update (fun x => x) 1 0 44100 cex8).circuitOf).sim.node 0).voltage1 =
      (cex8.sim.node 0).voltage0 ∧
    (∀ j, (((Circuit.update (fun x => x) 1 0 44100 cex8).circuitOf).sim.node j).voltage1 =
        (cex8.sim.node j).voltage0 ∧
      (((Circuit.update (fun x => x) 1 0 44100 cex8).circuitOf).sim.node j).voltage2 =
        (cex8.sim.node j).voltage1) ∧
    ((extrapolatePhase (opAmpShiftPhase (capShiftPhase (shiftPhase cex8.sim)))).node 0).voltage0 =
      (cex8.sim.node 0).voltage0 + ((cex8.sim.node 0).voltage0 - (cex8.sim.node 0).voltage1) := by
  have h : Circuit.update (fun x => x) 1 0 44100 cex8 =
      .ok ((Circuit.update (fun x => x) 1 0 44100 cex8).resOf.getD ⟨0, 0, 0⟩)
        ((Circuit.update (fun x => x) 1 0 44100 cex8).circuitOf) :=
    eq_ok_of_kind_none _ ⟨0, 0, 0⟩ (by with_unfolding_all decide)
  have hmain := claim8_amended.2.2 (fun x => x) 1 0 44100 cex8
    ((Circuit.update (fun x => x) 1 0 44100 cex8).resOf.getD ⟨0, 0, 0⟩)
    ((Circuit.update (fun x => x) 1 0 44100 cex8).circuitOf)
    (by norm_num) (by with_unfolding_all decide) h
  exact ⟨(hmain 0).1, hmain, claim8_amended.2.1 cex8.sim 0 (by with_unfolding_all decide)⟩

/-! ## Claim C3 -/

/-- Claim C3 (confirmed against the spec-modelled comparator): latching
a comparator drives its output node to `COMPARATOR_HI_VOLTAGE` exactly
when the negative-input voltage is negative and to
`COMPARATOR_LO_VOLTAGE` otherwise; and during a sample's solve a forced
node that is not an op-amp output — the comparator output as the spec
describes it — keeps its `voltage[0]` unchanged through the whole
`simulationStep`, so the output only updates when the between-sample
driver latches it. -/
theorem claim3_latch :
    (∀ (s : SimState) (k : Comparator), k.outNodeIndex < s.nodeList.length →
      ((latchStep s k).node k.outNodeIndex).voltage0 =
        if (s.node k.negNodeIndex).voltage0 < 0 then COMPARATOR_HI_VOLTAGE
        else COMPARATOR_LO_VOLTAGE) ∧
    (∀ (rsqrt : ℚ → ℚ) (fuel : Nat) (coeff gain tol delta : ℚ) (retryLimit : Nat)
       (simRate : ℚ) (s : SimState) (j : Nat),
      (s.node j).forced = true → (∀ o ∈ s.opAmpList, o.outNodeIndex ≠ j) →
      ((simulationStep rsqrt fuel coeff gain tol delta retryLimit simRate s).simOf.node
        j).voltage0 = (s.node j).voltage0) := by
  constructor
  · intro s k hlt
    simp only [latchStep, SimState.node, getD_modifyIdx]
    rw [if_pos ⟨by trivial, hlt⟩]
  · intro rsqrt fuel coeff gain tol delta retryLimit simRate s j hf hno
    have h4 := (simulationStep_stepQuiet rsqrt fuel coeff gain tol delta retryLimit
        simRate s).2.2.2 j (by rw [node_shiftPhase]; exact hf) hno
    rw [node_shiftPhase] at h4
    exact h4

/-- Claim C3 (witness): on `wit3` (negative input at `-1/2` V, forced
output node) the latch drives the output to `+11.38` V, and a
`simulationStep` on the latched state leaves the output voltage
untouched. -/
theorem claim3_witness :
    ((latchStep wit3 ⟨0, 1⟩).node 1).voltage0 =
      (if (wit3.node 0).voltage0 < 0 then COMPARATOR_HI_VOLTAGE else COMPARATOR_LO_VOLTAGE) ∧
    ((latchStep wit3 ⟨0, 1⟩).node 1).voltage0 = 569 / 50 ∧
    ((simulationStep (fun x => x) 1 0 2 1 1 100 44100 (latchStep wit3 ⟨0, 1⟩)).simOf.node
      1).voltage0 = ((latchStep wit3 ⟨0, 1⟩).node 1).voltage0 := by
  have h1 := claim3_latch.1 wit3 ⟨0, 1⟩ (by decide)
  have hf : ((latchStep wit3 ⟨0, 1⟩).node 1).forced = true := by with_unfolding_all decide
  have hno : ∀ o ∈ (latchStep wit3 ⟨0, 1⟩).opAmpList, o.outNodeIndex ≠ 1 :=
    fun o ho => absurd ho (List.not_mem_nil o)
  have hcond : (wit3.node 0).voltage0 < 0 := by with_unfolding_all decide
  refine ⟨h1, ?_, claim3_latch.2 (fun x => x) 1 0 2 1 1 100 44100 (latchStep wit3 ⟨0, 1⟩) 1
    hf hno⟩
  rw [h1, if_pos hcond]
  unfold COMPARATOR_HI_VOLTAGE
  norm_num

/-! ## Claim C4: congruence machinery -/

theorem nodeVEq_refl (a : Node) : nodeVEq a a := ⟨rfl, rfl, rfl, rfl⟩

theorem nodeVCEq_refl (a : Node) : nodeVCEq a a := ⟨nodeVEq_refl a, rfl⟩

theorem simVEq_of_simVCEq {s t : SimState} (h : simVCEq s t) : simVEq s t :=
  ⟨h.1, fun j => (h.2.1 j).1, h.2.2.1, h.2.2.2.1, h.2.2.2.2⟩

theorem getD_modify_rel {α β : Type} {P : α → β → Prop} {l1 : List α} {l2 : List β}
    (d1 : α) (d2 : β) (hlen : l1.length = l2.length)
    (h : ∀ j, P (l1.getD j d1) (l2.getD j d2))
    (f : α → α) (g : β → β) (hfg : ∀ a b, P a b → P (f a) (g b)) (i j : Nat) :
    P ((modifyIdx f i l1).getD j d1) ((modifyIdx g i l2).getD j d2) := by
  rw [getD_modifyIdx, getD_modifyIdx]
  by_cases hc : i = j ∧ j < l1.length
  · rw [if_pos hc, if_pos ⟨hc.1, by omega⟩]
    exact hfg _ _ (h j)
  · rw [if_neg hc, if_neg (fun hc2 => hc ⟨hc2.1, by omega⟩)]
    exact h j

theorem node_ext {a b : Node} (h0 : a.voltage0 = b.voltage0) (h1 : a.voltage1 = b.voltage1)
    (h2 : a.voltage2 = b.voltage2) (hs : a.savedVoltage = b.savedVoltage)
    (hc : a.current = b.current) (hsl : a.slope = b.slope) (hf : a.forced = b.forced) :
    a = b := by
  cases a; cases b
  simp only [Node.mk.injEq]
  exact ⟨h0, h1, h2, hs, hc, hsl, hf⟩

theorem simState_ext {s t : SimState} (h1 : s.nodeList = t.nodeList)
    (h2 : s.resistorList = t.resistorList) (h3 : s.capacitorList = t.capacitorList)
    (h4 : s.opAmpList = t.opAmpList) : s = t := by
  cases s; cases t
  simp only [SimState.mk.injEq]
  exact ⟨h1, h2, h3, h4⟩

theorem simEq_of_simVCEq_scratch {s t : SimState} (h : simVCEq s t)
    (hsc : ∀ j, scratchCore (s.node j) = scratchCore (t.node j)) : s = t := by
  refine simState_ext ?_ h.2.2.1 h.2.2.2.1 h.2.2.2.2
  refine list_eq_of_getD nodeDefault h.1 (fun j => ?_)
  have hn := h.2.1 j
  have hs := hsc j
  exact node_ext hn.1.1 hn.1.2.1 hn.1.2.2.1 (congrArg (fun p => p.1) hs) hn.2
    (congrArg (fun p => p.2) hs) hn.1.2.2.2

theorem scratch_all_eq {s t : SimState} (hvc : simVCEq s t) (hall : ∀ j, scratchEqAt j s t)
    (h1 : forcedScratchZero s) (h2 : forcedScratchZero t) (j : Nat) :
    scratchCore (s.node j) = scratchCore (t.node j) := by
  by_cases hf : (s.node j).forced = true
  · rw [h1 j hf, h2 j (by rw [← (hvc.2.1 j).1.2.2.2]; exact hf)]
  · have hff : (s.node j).forced = false := by
      cases hb : (s.node j).forced
      · rfl
      · exact absurd hb hf
    exact hall j hff

theorem opAmpVOut_congr (coeff gain : ℚ) {s t : SimState} (h : simVEq s t) (k : Nat) :
    opAmpVOut coeff gain s k = opAmpVOut coeff gain t k := by
  simp only [opAmpVOut]
  rw [h.2.2.2.2, (h.2.1 _).1, (h.2.1 _).1]

theorem opAmpVoltageStep_congr (coeff gain : ℚ) {s t : SimState} (h : simVEq s t) (k : Nat) :
    simVEq (opAmpVoltageStep coeff gain s k) (opAmpVoltageStep coeff gain t k) := by
  have hout : (s.opAmpList.getD k opAmpDefault).outNodeIndex =
      (t.opAmpList.getD k opAmpDefault).outNodeIndex := by rw [h.2.2.2.2]
  have hv := opAmpVOut_congr coeff gain h k
  refine ⟨?_, fun j => ?_, h.2.2.1, h.2.2.2.1, ?_⟩
  · simp only [opAmpVoltageStep, modifyIdx_length]
    exact h.1
  · rw [node_opAmpVoltageStep, node_opAmpVoltageStep]
    by_cases hc : (s.opAmpList.getD k opAmpDefault).outNodeIndex = j ∧ j < s.nodeList.length
    · rw [if_pos hc, if_pos ⟨by rw [← hout]; exact hc.1, by have := h.1; omega⟩]
      exact ⟨hv, (h.2.1 j).2.1, (h.2.1 j).2.2.1, (h.2.1 j).2.2.2⟩
    · rw [if_neg hc, if_neg (fun hc2 => hc ⟨by rw [hout]; exact hc2.1, by have := h.1; omega⟩)]
      exact h.2.1 j
  · rw [opAmps_opAmpVoltageStep, opAmps_opAmpVoltageStep, hv, h.2.2.2.2]

theorem opAmpVoltagePhase_congr (coeff gain : ℚ) {s t : SimState} (h : simVEq s t) :
    simVEq (opAmpVoltagePhase coeff gain s) (opAmpVoltagePhase coeff gain t) := by
  have hlen : t.opAmpList.length = s.opAmpList.length := by rw [h.2.2.2.2]
  unfold opAmpVoltagePhase
  rw [hlen]
  exact foldl_pending (fun _ a b => simVEq a b) _ _
    (fun ks k a b hab => opAmpVoltageStep_congr coeff gain hab k) _ s t h

theorem zeroCurrentsPhase_congr {s t : SimState} (h : simVEq s t) :
    simVCEq (zeroCurrentsPhase s) (zeroCurrentsPhase t) := by
  refine ⟨?_, fun j => ?_, h.2.2.1, h.2.2.2.1, h.2.2.2.2⟩
  · simp only [zeroCurrentsPhase, List.length_map]
    exact h.1
  · rw [node_zeroCurrentsPhase, node_zeroCurrentsPhase]
    exact ⟨⟨(h.2.1 j).1, (h.2.1 j).2.1, (h.2.1 j).2.2.1, (h.2.1 j).2.2.2⟩, rfl⟩

theorem resistorStep_congr {a b : SimState} (h : simVCEq a b) (k : Nat) :
    simVCEq (resistorStep a k) (resistorStep b k) := by
  obtain ⟨hlen, hnodes, hres, hcap, hop⟩ := h
  have hi : ((a.node (a.resistorList.getD k resistorDefault).aNodeIndex).voltage0 -
        (a.node (a.resistorList.getD k resistorDefault).bNodeIndex).voltage0) /
        (a.resistorList.getD k resistorDefault).resistance =
      ((b.node (b.resistorList.getD k resistorDefault).aNodeIndex).voltage0 -
        (b.node (b.resistorList.getD k resistorDefault).bNodeIndex).voltage0) /
        (b.resistorList.getD k resistorDefault).resistance := by
    rw [hres, (hnodes _).1.1, (hnodes _).1.1]
  refine ⟨?_, fun j => ?_, ?_, hcap, hop⟩
  · simp only [resistorStep, modifyIdx_length]
    exact hlen
  · rw [node_resistorStep, node_resistorStep]
    simp only []
    have hA : (a.resistorList.getD k resistorDefault).aNodeIndex =
        (b.resistorList.getD k resistorDefault).aNodeIndex := by rw [hres]
    have hB : (a.resistorList.getD k resistorDefault).bNodeIndex =
        (b.resistorList.getD k resistorDefault).bNodeIndex := by rw [hres]
    have e1 : ((b.resistorList.getD k resistorDefault).aNodeIndex = j ∧
        j < b.nodeList.length) = ((a.resistorList.getD k resistorDefault).aNodeIndex = j ∧
        j < a.nodeList.length) := by rw [← hA, ← hlen]
    have e2 : ((b.resistorList.getD k resistorDefault).bNodeIndex = j ∧
        j < b.nodeList.length) = ((a.resistorList.getD k resistorDefault).bNodeIndex = j ∧
        j < a.nodeList.length) := by rw [← hB, ← hlen]
    simp only [e1, e2]
    split_ifs with c1 c2 <;>
      first
        | exact hnodes j
        | exact ⟨⟨(hnodes j).1.1, (hnodes j).1.2.1, (hnodes j).1.2.2.1, (hnodes j).1.2.2.2⟩,
            by simp only [(hnodes j).2, hi]⟩
  · rw [resistors_resistorStep, resistors_resistorStep, hres]
    refine list_eq_of_getD resistorDefault (by rw [modifyIdx_length, modifyIdx_length]) ?_
    intro j
    rw [getD_modifyIdx, getD_modifyIdx]
    by_cases hc : k = j ∧ j < b.resistorList.length
    · rw [if_pos hc, if_pos hc, (hnodes _).1.1, (hnodes _).1.1]
    · rw [if_neg hc, if_neg hc]

theorem capacitorStep_congr (dt : ℚ) {a b : SimState} (h : simVCEq a b) (k : Nat) :
    simVCEq (capacitorStep dt a k) (capacitorStep dt b k) := by
  obtain ⟨hlen, hnodes, hres, hcap, hop⟩ := h
  have hi : 2 * ((a.capacitorList.getD k capacitorDefault).capacitance *
        ((((a.node (a.capacitorList.getD k capacitorDefault).aNodeIndex).voltage0 -
            (a.node (a.capacitorList.getD k capacitorDefault).bNodeIndex).voltage0) -
          (((a.node (a.capacitorList.getD k capacitorDefault).aNodeIndex).voltage1 -
            (a.node (a.capacitorList.getD k capacitorDefault).bNodeIndex).voltage1))) / dt)) -
        (a.capacitorList.getD k capacitorDefault).current1 =
      2 * ((b.capacitorList.getD k capacitorDefault).capacitance *
        ((((b.node (b.capacitorList.getD k capacitorDefault).aNodeIndex).voltage0 -
            (b.node (b.capacitorList.getD k capacitorDefault).bNodeIndex).voltage0) -
          (((b.node (b.capacitorList.getD k capacitorDefault).aNodeIndex).voltage1 -
            (b.node (b.capacitorList.getD k capacitorDefault).bNodeIndex).voltage1))) / dt)) -
        (b.capacitorList.getD k capacitorDefault).current1 := by
    rw [hcap, (hnodes _).1.1, (hnodes _).1.1, (hnodes _).1.2.1, (hnodes _).1.2.1]
  refine ⟨?_, fun j => ?_, hres, ?_, hop⟩
  · simp only [capacitorStep, modifyIdx_length]
    exact hlen
  · rw [node_capacitorStep, node_capacitorStep]
    simp only []
    have hA : (a.capacitorList.getD k capacitorDefault).aNodeIndex =
        (b.capacitorList.getD k capacitorDefault).aNodeIndex := by rw [hcap]
    have hB : (a.capacitorList.getD k capacitorDefault).bNodeIndex =
        (b.capacitorList.getD k capacitorDefault).bNodeIndex := by rw [hcap]
    have e1 : ((b.capacitorList.getD k capacitorDefault).aNodeIndex = j ∧
        j < b.nodeList.length) = ((a.capacitorList.getD k capacitorDefault).aNodeIndex = j ∧
        j < a.nodeList.length) := by rw [← hA, ← hlen]
    have e2 : ((b.capacitorList.getD k capacitorDefault).bNodeIndex = j ∧
        j < b.nodeList.length) = ((a.capacitorList.getD k capacitorDefault).bNodeIndex = j ∧
        j < a.nodeList.length) := by rw [← hB, ← hlen]
    simp only [e1, e2]
    split_ifs with c1 c2 <;>
      first
        | exact hnodes j
        | exact ⟨⟨(hnodes j).1.1, (hnodes j).1.2.1, (hnodes j).1.2.2.1, (hnodes j).1.2.2.2⟩,
            by simp only [(hnodes j).2, hi]⟩
  · have hceq : (capacitorStep dt a k).capacitorList =
        modifyIdx (fun c => { c with current0 := 2 *
          ((a.capacitorList.getD k capacitorDefault).capacitance *
          ((((a.node (a.capacitorList.getD k capacitorDefault).aNodeIndex).voltage0 -
              (a.node (a.capacitorList.getD k capacitorDefault).bNodeIndex).voltage0) -
            (((a.node (a.capacitorList.getD k capacitorDefault).aNodeIndex).voltage1 -
              (a.node (a.capacitorList.getD k capacitorDefault).bNodeIndex).voltage1))) / dt)) -
          (a.capacitorList.getD k capacitorDefault).current1 }) k a.capacitorList := rfl
    have hceq' : (capacitorStep dt b k).capacitorList =
        modifyIdx (fun c => { c with current0 := 2 *
          ((b.capacitorList.getD k capacitorDefault).capacitance *
          ((((b.node (b.capacitorList.getD k capacitorDefault).aNodeIndex).voltage0 -
              (b.node (b.capacitorList.getD k capacitorDefault).bNodeIndex).voltage0) -
            (((b.node (b.capacitorList.getD k capacitorDefault).aNodeIndex).voltage1 -
              (b.node (b.capacitorList.getD k capacitorDefault).bNodeIndex).voltage1))) / dt)) -
          (b.capacitorList.getD k capacitorDefault).current1 }) k b.capacitorList := rfl
    rw [hceq, hceq', hi, hcap]

theorem opAmpCurrentStep_congr {a b : SimState} (h : simVCEq a b) (k : Nat) :
    simVCEq (opAmpCurrentStep a k) (opAmpCurrentStep b k) := by
  obtain ⟨hlen, hnodes, hres, hcap, hop⟩ := h
  have hcur : (a.node (a.opAmpList.getD k opAmpDefault).outNodeIndex).current =
      (b.node (b.opAmpList.getD k opAmpDefault).outNodeIndex).current := by
    rw [hop, (hnodes _).2]
  refine ⟨hlen, hnodes, hres, hcap, ?_⟩
  have ha : (opAmpCurrentStep a k).opAmpList = modifyIdx
      (fun o => { o with current := -(a.node (a.opAmpList.getD k opAmpDefault).outNodeIndex).current })
      k a.opAmpList := rfl
  have hb : (opAmpCurrentStep b k).opAmpList = modifyIdx
      (fun o => { o with current := -(b.node (b.opAmpList.getD k opAmpDefault).outNodeIndex).current })
      k b.opAmpList := rfl
  rw [ha, hb, hcur, hop]

theorem zeroForcedPhase_congr {s t : SimState} (h : simVCEq s t) :
    simVCEq (zeroForcedPhase s) (zeroForcedPhase t) := by
  refine ⟨?_, fun j => ?_, h.2.2.1, h.2.2.2.1, h.2.2.2.2⟩
  · simp only [zeroForcedPhase, List.length_map]
    exact h.1
  · rw [node_zeroForcedPhase, node_zeroForcedPhase]
    have hf := (h.2.1 j).1.2.2.2
    by_cases hc : (s.node j).forced = true
    · rw [if_pos hc, if_pos (by rw [← hf]; exact hc)]
      exact ⟨⟨(h.2.1 j).1.1, (h.2.1 j).1.2.1, (h.2.1 j).1.2.2.1, hf⟩, rfl⟩
    · rw [if_neg hc, if_neg (by rw [← hf]; exact hc)]
      exact h.2.1 j

theorem filter_map_cur_congr : ∀ (l1 l2 : List Node), l1.length = l2.length →
    (∀ j, (l1.getD j nodeDefault).current = (l2.getD j nodeDefault).current ∧
      (l1.getD j nodeDefault).forced = (l2.getD j nodeDefault).forced) →
    ((l1.filter fun n => !n.forced).map fun n => n.current * n.current) =
      ((l2.filter fun n => !n.forced).map fun n => n.current * n.current)
  | [], [], _, _ => rfl
  | [], _ :: _, hlen, _ => by simp at hlen
  | _ :: _, [], hlen, _ => by simp at hlen
  | a :: t1, b :: t2, hlen, h => by
    have h0 := h 0
    simp only [List.getD_cons_zero] at h0
    have ht := filter_map_cur_congr t1 t2 (by simpa using hlen)
      (fun j => by simpa using h (j + 1))
    simp only [List.filter_cons, h0.2]
    by_cases hb : (!b.forced) = true
    · rw [if_pos hb, if_pos hb]
      simp only [List.map_cons, h0.1, ht]
    · rw [if_neg hb, if_neg hb]
      exact ht

theorem scoreOf_congr {s t : SimState} (h : simVCEq s t) : scoreOf s = scoreOf t := by
  unfold scoreOf
  rw [filter_map_cur_congr s.nodeList t.nodeList h.1
    (fun j => ⟨(h.2.1 j).2, (h.2.1 j).1.2.2.2⟩)]

theorem updateCurrents_congr (coeff gain dt : ℚ) {s t : SimState} (h : simVEq s t) :
    (updateCurrents coeff gain dt s).2 = (updateCurrents coeff gain dt t).2 ∧
    simVCEq (updateCurrents coeff gain dt s).1 (updateCurrents coeff gain dt t).1 := by
  have h1 := opAmpVoltagePhase_congr coeff gain h
  have h2 := zeroCurrentsPhase_congr h1
  have h3 : simVCEq (resistorPhase (zeroCurrentsPhase (opAmpVoltagePhase coeff gain s)))
      (resistorPhase (zeroCurrentsPhase (opAmpVoltagePhase coeff gain t))) := by
    have hrlen : (zeroCurrentsPhase (opAmpVoltagePhase coeff gain t)).resistorList.length =
        (zeroCurrentsPhase (opAmpVoltagePhase coeff gain s)).resistorList.length := by
      rw [h2.2.2.1]
    unfold resistorPhase
    rw [hrlen]
    exact foldl_pending (fun _ x y => simVCEq x y) _ _
      (fun ks k x y hxy => resistorStep_congr hxy k) _ _ _ h2
  have h4 : simVCEq (capacitorPhase dt (resistorPhase (zeroCurrentsPhase
        (opAmpVoltagePhase coeff gain s))))
      (capacitorPhase dt (resistorPhase (zeroCurrentsPhase (opAmpVoltagePhase coeff gain t)))) := by
    have hclen : (resistorPhase (zeroCurrentsPhase
        (opAmpVoltagePhase coeff gain t))).capacitorList.length =
        (resistorPhase (zeroCurrentsPhase (opAmpVoltagePhase coeff gain s))).capacitorList.length := by
      rw [h3.2.2.2.1]
    unfold capacitorPhase
    rw [hclen]
    exact foldl_pending (fun _ x y => simVCEq x y) _ _
      (fun ks k x y hxy => capacitorStep_congr dt hxy k) _ _ _ h3
  have h5 : simVCEq (opAmpCurrentPhase (accumPhase coeff gain dt s))
      (opAmpCurrentPhase (accumPhase coeff gain dt t)) := by
    have hacc : accumPhase coeff gain dt s = capacitorPhase dt (resistorPhase (zeroCurrentsPhase
        (opAmpVoltagePhase coeff gain s))) := rfl
    have hacc' : accumPhase coeff gain dt t = capacitorPhase dt (resistorPhase (zeroCurrentsPhase
        (opAmpVoltagePhase coeff gain t))) := rfl
    rw [hacc, hacc']
    have holen : (capacitorPhase dt (resistorPhase (zeroCurrentsPhase
        (opAmpVoltagePhase coeff gain t)))).opAmpList.length =
        (capacitorPhase dt (resistorPhase (zeroCurrentsPhase
        (opAmpVoltagePhase coeff gain s)))).opAmpList.length := by
      rw [h4.2.2.2.2]
    unfold opAmpCurrentPhase
    rw [holen]
    exact foldl_pending (fun _ x y => simVCEq x y) _ _
      (fun ks k x y hxy => opAmpCurrentStep_congr hxy k) _ _ _ h4
  constructor
  · simp only [updateCurrents]
    exact scoreOf_congr h5
  · simp only [updateCurrents]
    exact zeroForcedPhase_congr h5

theorem fsz_of_histScratch {s t : SimState}
    (heff : ∀ j, histCore (t.node j) = histCore (s.node j) ∧
      scratchCore (t.node j) = scratchCore (s.node j))
    (h : forcedScratchZero s) : forcedScratchZero t := by
  intro j hf
  have hfs : (s.node j).forced = true := by
    rw [← forced_of_histCore (heff j).1]
    exact hf
  rw [(heff j).2]
  exact h j hfs

theorem fsz_updateCurrents (coeff gain dt : ℚ) {s : SimState} (h : forcedScratchZero s) :
    forcedScratchZero (updateCurrents coeff gain dt s).1 :=
  fsz_of_histScratch (updateCurrents_nodeEffects coeff gain dt s).2 h

theorem fsz_shiftPhase {s : SimState} (h : forcedScratchZero s) :
    forcedScratchZero (shiftPhase s) := by
  intro j hf
  rw [node_shiftPhase] at hf ⊢
  exact h j hf

theorem fsz_capShiftPhase {s : SimState} (h : forcedScratchZero s) :
    forcedScratchZero (capShiftPhase s) := h

theorem fsz_opAmpShiftPhase {s : SimState} (h : forcedScratchZero s) :
    forcedScratchZero (opAmpShiftPhase s) := h

theorem fsz_extrapolatePhase {s : SimState} (h : forcedScratchZero s) :
    forcedScratchZero (extrapolatePhase s) := by
  intro j hf
  rw [node_extrapolatePhase] at hf ⊢
  by_cases hc : (s.node j).forced = true
  · rw [if_pos hc] at hf ⊢
    exact h j hf
  · rw [if_neg hc] at hf
    exact absurd hf hc

/-! ### Probe-loop congruence -/

theorem node_probeWriteA (delta : ℚ) (k : Nat) (s : SimState) (j : Nat) :
    (probeWriteA delta k s).node j =
      if k = j ∧ j < s.nodeList.length
      then { s.node j with savedVoltage := (s.node j).voltage0, voltage0 := (s.node j).voltage0 + delta }
      else s.node j := by
  simp only [probeWriteA, SimState.node]
  exact getD_modifyIdx _ k j s.nodeList nodeDefault

theorem node_probeWriteC (delta : ℚ) (k : Nat) (s : SimState) (j : Nat) :
    (probeWriteC delta k s).node j =
      if k = j ∧ j < s.nodeList.length
      then { s.node j with voltage0 := (s.node j).savedVoltage - delta }
      else s.node j := by
  simp only [probeWriteC, SimState.node]
  exact getD_modifyIdx _ k j s.nodeList nodeDefault

theorem node_probeWriteE (sl : ℚ) (k : Nat) (s : SimState) (j : Nat) :
    (probeWriteE sl k s).node j =
      if k = j ∧ j < s.nodeList.length
      then { s.node j with slope := sl, voltage0 := (s.node j).savedVoltage }
      else s.node j := by
  simp only [probeWriteE, SimState.node]
  exact getD_modifyIdx _ k j s.nodeList nodeDefault

theorem forced_probeWriteA (delta : ℚ) (k : Nat) (s : SimState) (j : Nat) :
    ((probeWriteA delta k s).node j).forced = (s.node j).forced := by
  rw [node_probeWriteA]
  split_ifs <;> rfl

theorem forced_probeWriteC (delta : ℚ) (k : Nat) (s : SimState) (j : Nat) :
    ((probeWriteC delta k s).node j).forced = (s.node j).forced := by
  rw [node_probeWriteC]
  split_ifs <;> rfl

theorem forced_probeWriteE (sl : ℚ) (k : Nat) (s : SimState) (j : Nat) :
    ((probeWriteE sl k s).node j).forced = (s.node j).forced := by
  rw [node_probeWriteE]
  split_ifs <;> rfl

theorem scratch_probeWriteA (delta : ℚ) (k : Nat) (s : SimState) (j : Nat) (hjk : k ≠ j) :
    scratchCore ((probeWriteA delta k s).node j) = scratchCore (s.node j) := by
  rw [node_probeWriteA, if_neg (fun hc => hjk hc.1)]

theorem scratch_probeWriteC (delta : ℚ) (k : Nat) (s : SimState) (j : Nat) :
    scratchCore ((probeWriteC delta k s).node j) = scratchCore (s.node j) := by
  rw [node_probeWriteC]
  split_ifs <;> rfl

theorem scratch_probeWriteE (sl : ℚ) (k : Nat) (s : SimState) (j : Nat) (hjk : k ≠ j) :
    scratchCore ((probeWriteE sl k s).node j) = scratchCore (s.node j) := by
  rw [node_probeWriteE, if_neg (fun hc => hjk hc.1)]

theorem savedVoltage_probeWriteA (delta : ℚ) (k : Nat) (s : SimState)
    (hk : k < s.nodeList.length) :
    ((probeWriteA delta k s).node k).savedVoltage = (s.node k).voltage0 := by
  rw [node_probeWriteA, if_pos ⟨rfl, hk⟩]

theorem scratch_probeWriteE_at (sl : ℚ) (k : Nat) (s : SimState)
    (hk : k < s.nodeList.length) :
    scratchCore ((probeWriteE sl k s).node k) = ((s.node k).savedVoltage, sl) := by
  rw [node_probeWriteE, if_pos ⟨rfl, hk⟩]
  rfl

theorem fsz_probeWriteA (delta : ℚ) (k : Nat) {s : SimState} (h : forcedScratchZero s)
    (hunf : (s.node k).forced = false) : forcedScratchZero (probeWriteA delta k s) := by
  intro j hf
  rw [node_probeWriteA] at hf ⊢
  by_cases hc : k = j ∧ j < s.nodeList.length
  · rw [if_pos hc] at hf
    obtain ⟨rfl, -⟩ := hc
    exact Bool.noConfusion (hunf.symm.trans hf)
  · rw [if_neg hc] at hf ⊢
    exact h j hf

theorem fsz_probeWriteC (delta : ℚ) (k : Nat) {s : SimState} (h : forcedScratchZero s) :
    forcedScratchZero (probeWriteC delta k s) := by
  intro j hf
  rw [node_probeWriteC] at hf ⊢
  by_cases hc : k = j ∧ j < s.nodeList.length
  · rw [if_pos hc] at hf ⊢
    exact h j hf
  · rw [if_neg hc] at hf ⊢
    exact h j hf

theorem fsz_probeWriteE (sl : ℚ) (k : Nat) {s : SimState} (h : forcedScratchZero s)
    (hunf : (s.node k).forced = false) : forcedScratchZero (probeWriteE sl k s) := by
  intro j hf
  rw [node_probeWriteE] at hf ⊢
  by_cases hc : k = j ∧ j < s.nodeList.length
  · rw [if_pos hc] at hf
    obtain ⟨rfl, -⟩ := hc
    exact Bool.noConfusion (hunf.symm.trans hf)
  · rw [if_neg hc] at hf ⊢
    exact h j hf

theorem probeWriteA_congr (delta : ℚ) (k : Nat) {s t : SimState} (h : simVCEq s t) :
    simVCEq (probeWriteA delta k s) (probeWriteA delta k t) := by
  refine ⟨?_, fun j => ?_, h.2.2.1, h.2.2.2.1, h.2.2.2.2⟩
  · simp only [probeWriteA, modifyIdx_length]
    exact h.1
  · rw [node_probeWriteA, node_probeWriteA]
    have e1 : (k = j ∧ j < t.nodeList.length) = (k = j ∧ j < s.nodeList.length) := by
      rw [h.1]
    simp only [e1]
    split_ifs with c1
    · exact ⟨⟨by rw [(h.2.1 j).1.1], (h.2.1 j).1.2.1, (h.2.1 j).1.2.2.1, (h.2.1 j).1.2.2.2⟩,
        (h.2.1 j).2⟩
    · exact h.2.1 j

theorem probeWriteC_congrAt (delta : ℚ) (k : Nat) {s t : SimState} (h : simVCEq s t)
    (hsv : (s.node k).savedVoltage = (t.node k).savedVoltage) :
    simVCEq (probeWriteC delta k s) (probeWriteC delta k t) := by
  refine ⟨?_, fun j => ?_, h.2.2.1, h.2.2.2.1, h.2.2.2.2⟩
  · simp only [probeWriteC, modifyIdx_length]
    exact h.1
  · rw [node_probeWriteC, node_probeWriteC]
    have e1 : (k = j ∧ j < t.nodeList.length) = (k = j ∧ j < s.nodeList.length) := by
      rw [h.1]
    simp only [e1]
    split_ifs with c1
    · obtain ⟨rfl, -⟩ := c1
      exact ⟨⟨by rw [hsv], (h.2.1 k).1.2.1, (h.2.1 k).1.2.2.1, (h.2.1 k).1.2.2.2⟩, (h.2.1 k).2⟩
    · exact h.2.1 j

theorem probeWriteE_congrAt (sl sl' : ℚ) (k : Nat) {s t : SimState} (h : simVCEq s t)
    (hsv : (s.node k).savedVoltage = (t.node k).savedVoltage) :
    simVCEq (probeWriteE sl k s) (probeWriteE sl' k t) := by
  refine ⟨?_, fun j => ?_, h.2.2.1, h.2.2.2.1, h.2.2.2.2⟩
  · simp only [probeWriteE, modifyIdx_length]
    exact h.1
  · rw [node_probeWriteE, node_probeWriteE]
    have e1 : (k = j ∧ j < t.nodeList.length) = (k = j ∧ j < s.nodeList.length) := by
      rw [h.1]
    simp only [e1]
    split_ifs with c1
    · obtain ⟨rfl, -⟩ := c1
      exact ⟨⟨by rw [hsv], (h.2.1 k).1.2.1, (h.2.1 k).1.2.2.1, (h.2.1 k).1.2.2.2⟩, (h.2.1 k).2⟩
    · exact h.2.1 j

set_option maxHeartbeats 400000 in
theorem probeStep_congr (coeff gain dt delta : ℚ) {x y : ProbeAcc} {ks : List Nat} {k : Nat}
    (hk : k < x.sim.nodeList.length)
    (h : probeRel (k :: ks) x y ∧ forcedScratchZero x.sim ∧ forcedScratchZero y.sim) :
    probeRel ks (probeStep coeff gain dt delta x k) (probeStep coeff gain dt delta y k) ∧
    forcedScratchZero (probeStep coeff gain dt delta x k).sim ∧
    forcedScratchZero (probeStep coeff gain dt delta y k).sim := by
  obtain ⟨⟨hvc, hfb, hfs, hmag, hcalls, hsc⟩, hz1, hz2⟩ := h
  by_cases hforced : (x.sim.node k).forced = true
  · have hforced2 : (y.sim.node k).forced = true := by
      rw [← (hvc.2.1 k).1.2.2.2]
      exact hforced
    have hx : probeStep coeff gain dt delta x k = x := by
      simp only [probeStep]
      rw [if_pos hforced]
    have hy : probeStep coeff gain dt delta y k = y := by
      simp only [probeStep]
      rw [if_pos hforced2]
    rw [hx, hy]
    refine ⟨⟨hvc, hfb, hfs, hmag, hcalls, fun j hj => ?_⟩, hz1, hz2⟩
    by_cases hjk : j = k
    · subst hjk
      intro hfalse
      exact Bool.noConfusion (hforced.symm.trans hfalse)
    · exact hsc j (fun hm => (List.mem_cons.mp hm).elim hjk hj)
  · have hforced2 : ¬ (y.sim.node k).forced = true := by
      rw [← (hvc.2.1 k).1.2.2.2]
      exact hforced
    have hunf1 : (x.sim.node k).forced = false := by
      cases hb : (x.sim.node k).forced
      · rfl
      · exact absurd hb hforced
    have hunf2 : (y.sim.node k).forced = false := by
      cases hb : (y.sim.node k).forced
      · rfl
      · exact absurd hb hforced2
    have hkY : k < y.sim.nodeList.length := by
      rw [← hvc.1]
      exact hk
    have hA := probeWriteA_congr delta k hvc
    have hzA1 : forcedScratchZero (probeWriteA delta k x.sim) :=
      fsz_probeWriteA delta k hz1 hunf1
    have hzA2 : forcedScratchZero (probeWriteA delta k y.sim) :=
      fsz_probeWriteA delta k hz2 hunf2
    have hkA1 : k < (probeWriteA delta k x.sim).nodeList.length := by
      simp only [probeWriteA, modifyIdx_length]
      exact hk
    have hkA2 : k < (probeWriteA delta k y.sim).nodeList.length := by
      simp only [probeWriteA, modifyIdx_length]
      exact hkY
    have hB := updateCurrents_congr coeff gain dt (simVEq_of_simVCEq hA)
    have heffB1 := updateCurrents_nodeEffects coeff gain dt (probeWriteA delta k x.sim)
    have heffB2 := updateCurrents_nodeEffects coeff gain dt (probeWriteA delta k y.sim)
    have hzB1 : forcedScratchZero (updateCurrents coeff gain dt
        (probeWriteA delta k x.sim)).1 := fsz_updateCurrents _ _ _ hzA1
    have hzB2 : forcedScratchZero (updateCurrents coeff gain dt
        (probeWriteA delta k y.sim)).1 := fsz_updateCurrents _ _ _ hzA2
    have hkB1 : k < (updateCurrents coeff gain dt
        (probeWriteA delta k x.sim)).1.nodeList.length := by
      rw [heffB1.1]
      exact hkA1
    have hkB2 : k < (updateCurrents coeff gain dt
        (probeWriteA delta k y.sim)).1.nodeList.length := by
      rw [heffB2.1]
      exact hkA2
    have hsvB : ((updateCurrents coeff gain dt
          (probeWriteA delta k x.sim)).1.node k).savedVoltage =
        ((updateCurrents coeff gain dt (probeWriteA delta k y.sim)).1.node k).savedVoltage := by
      have e1 := congrArg (fun p => p.1) ((heffB1.2 k).2)
      have e2 := congrArg (fun p => p.1) ((heffB2.2 k).2)
      simp only [scratchCore] at e1 e2
      rw [e1, e2, savedVoltage_probeWriteA delta k x.sim hk,
        savedVoltage_probeWriteA delta k y.sim hkY, (hvc.2.1 k).1.1]
    have hC := probeWriteC_congrAt delta k hB.2 hsvB
    have hzC1 : forcedScratchZero (probeWriteC delta k (updateCurrents coeff gain dt
        (probeWriteA delta k x.sim)).1) := fsz_probeWriteC delta k hzB1
    have hzC2 : forcedScratchZero (probeWriteC delta k (updateCurrents coeff gain dt
        (probeWriteA delta k y.sim)).1) := fsz_probeWriteC delta k hzB2
    have hkC1 : k < (probeWriteC delta k (updateCurrents coeff gain dt
        (probeWriteA delta k x.sim)).1).nodeList.length := by
      simp only [probeWriteC, modifyIdx_length]
      exact hkB1
    have hkC2 : k < (probeWriteC delta k (updateCurrents coeff gain dt
        (probeWriteA delta k y.sim)).1).nodeList.length := by
      simp only [probeWriteC, modifyIdx_length]
      exact hkB2
    have hD := updateCurrents_congr coeff gain dt (simVEq_of_simVCEq hC)
    have heffD1 := updateCurrents_nodeEffects coeff gain dt (probeWriteC delta k
      (updateCurrents coeff gain dt (probeWriteA delta k x.sim)).1)
    have heffD2 := updateCurrents_nodeEffects coeff gain dt (probeWriteC delta k
      (updateCurrents coeff gain dt (probeWriteA delta k y.sim)).1)
    have hzD1 : forcedScratchZero (updateCurrents coeff gain dt (probeWriteC delta k
        (updateCurrents coeff gain dt (probeWriteA delta k x.sim)).1)).1 :=
      fsz_updateCurrents _ _ _ hzC1
    have hzD2 : forcedScratchZero (updateCurrents coeff gain dt (probeWriteC delta k
        (updateCurrents coeff gain dt (probeWriteA delta k y.sim)).1)).1 :=
      fsz_updateCurrents _ _ _ hzC2
    have hkD1 : k < (updateCurrents coeff gain dt (probeWriteC delta k
        (updateCurrents coeff gain dt (probeWriteA delta k x.sim)).1)).1.nodeList.length := by
      rw [heffD1.1]
      exact hkC1
    have hkD2 : k < (updateCurrents coeff gain dt (probeWriteC delta k
        (updateCurrents coeff gain dt (probeWriteA delta k y.sim)).1)).1.nodeList.length := by
      rw [heffD2.1]
      exact hkC2
    have hsvD : ((updateCurrents coeff gain dt (probeWriteC delta k
          (updateCurrents coeff gain dt (probeWriteA delta k x.sim)).1)).1.node k).savedVoltage =
        ((updateCurrents coeff gain dt (probeWriteC delta k
          (updateCurrents coeff gain dt (probeWriteA delta k y.sim)).1)).1.node k).savedVoltage := by
      have e1 := congrArg (fun p => p.1) ((heffD1.2 k).2)
      have e2 := congrArg (fun p => p.1) ((heffD2.2 k).2)
      have f1 := congrArg (fun p => p.1) (scratch_probeWriteC delta k
        (updateCurrents coeff gain dt (probeWriteA delta k x.sim)).1 k)
      have f2 := congrArg (fun p => p.1) (scratch_probeWriteC delta k
        (updateCurrents coeff gain dt (probeWriteA delta k y.sim)).1 k)
      simp only [scratchCore] at e1 e2 f1 f2
      rw [e1, e2, f1, f2]
      exact hsvB
    have hE := probeWriteE_congrAt
      ((updateCurrents coeff gain dt (probeWriteA delta k x.sim)).2 -
        (updateCurrents coeff gain dt (probeWriteC delta k
          (updateCurrents coeff gain dt (probeWriteA delta k x.sim)).1)).2)
      ((updateCurrents coeff gain dt (probeWriteA delta k y.sim)).2 -
        (updateCurrents coeff gain dt (probeWriteC delta k
          (updateCurrents coeff gain dt (probeWriteA delta k y.sim)).1)).2)
      k hD.2 hsvD
    have hfb1eq : (if (updateCurrents coeff gain dt (probeWriteA delta k x.sim)).2 <
          x.fallbackScore
        then ((some (k, delta), (updateCurrents coeff gain dt (probeWriteA delta k x.sim)).2) :
          Option (Nat × ℚ) × ℚ)
        else (x.fallback, x.fallbackScore)) =
        (if (updateCurrents coeff gain dt (probeWriteA delta k y.sim)).2 < y.fallbackScore
        then (some (k, delta), (updateCurrents coeff gain dt (probeWriteA delta k y.sim)).2)
        else (y.fallback, y.fallbackScore)) := by
      rw [hB.1, hfs, hfb]
    have hfb2eq : (if (updateCurrents coeff gain dt (probeWriteC delta k
          (updateCurrents coeff gain dt (probeWriteA delta k x.sim)).1)).2 <
          (if (updateCurrents coeff gain dt (probeWriteA delta k x.sim)).2 < x.fallbackScore
          then ((some (k, delta), (updateCurrents coeff gain dt (probeWriteA delta k x.sim)).2) :
            Option (Nat × ℚ) × ℚ)
          else (x.fallback, x.fallbackScore)).2
        then (some (k, -delta), (updateCurrents coeff gain dt (probeWriteC delta k
          (updateCurrents coeff gain dt (probeWriteA delta k x.sim)).1)).2)
        else (if (updateCurrents coeff gain dt (probeWriteA delta k x.sim)).2 < x.fallbackScore
          then ((some (k, delta), (updateCurrents coeff gain dt (probeWriteA delta k x.sim)).2) :
            Option (Nat × ℚ) × ℚ)
          else (x.fallback, x.fallbackScore))) =
        (if (updateCurrents coeff gain dt (probeWriteC delta k
          (updateCurrents coeff gain dt (probeWriteA delta k y.sim)).1)).2 <
          (if (updateCurrents coeff gain dt (probeWriteA delta k y.sim)).2 < y.fallbackScore
          then ((some (k, delta), (updateCurrents coeff gain dt (probeWriteA delta k y.sim)).2) :
            Option (Nat × ℚ) × ℚ)
          else (y.fallback, y.fallbackScore)).2
        then (some (k, -delta), (updateCurrents coeff gain dt (probeWriteC delta k
          (updateCurrents coeff gain dt (probeWriteA delta k y.sim)).1)).2)
        else (if (updateCurrents coeff gain dt (probeWriteA delta k y.sim)).2 < y.fallbackScore
          then ((some (k, delta), (updateCurrents coeff gain dt (probeWriteA delta k y.sim)).2) :
            Option (Nat × ℚ) × ℚ)
          else (y.fallback, y.fallbackScore))) := by
      rw [hD.1, hfb1eq]
    have hffD1 : ∀ j, ((updateCurrents coeff gain dt (probeWriteC delta k
        (updateCurrents coeff gain dt (probeWriteA delta k x.sim)).1)).1.node j).forced =
        (x.sim.node j).forced := by
      intro j
      rw [forced_of_histCore ((heffD1.2 j).1), forced_probeWriteC,
        forced_of_histCore ((heffB1.2 j).1), forced_probeWriteA]
    have hffD2 : ∀ j, ((updateCurrents coeff gain dt (probeWriteC delta k
        (updateCurrents coeff gain dt (probeWriteA delta k y.sim)).1)).1.node j).forced =
        (y.sim.node j).forced := by
      intro j
      rw [forced_of_histCore ((heffD2.2 j).1), forced_probeWriteC,
        forced_of_histCore ((heffB2.2 j).1), forced_probeWriteA]
    simp only [probeStep]
    rw [if_neg hforced, if_neg hforced2]
    refine ⟨⟨?gsim, ?gfb, ?gfs, ?gmag, ?gcalls, fun j hj => ?gscr⟩, ?gz1, ?gz2⟩
    case gsim => with_reducible exact hE
    case gfb => with_reducible exact congrArg (fun p : Option (Nat × ℚ) × ℚ => p.1) hfb2eq
    case gfs => with_reducible exact congrArg (fun p : Option (Nat × ℚ) × ℚ => p.2) hfb2eq
    case gmag => rw [hmag, hB.1, hD.1]
    case gcalls => rw [hcalls]
    case gz1 => with_reducible exact fsz_probeWriteE _ _ hzD1 (by rw [hffD1 k]; exact hunf1)
    case gz2 => with_reducible exact fsz_probeWriteE _ _ hzD2 (by rw [hffD2 k]; exact hunf2)
    case gscr =>
      by_cases hjk : j = k
      · subst hjk
        intro hfnew
        rw [scratch_probeWriteE_at _ _ _ hkD1, scratch_probeWriteE_at _ _ _ hkD2,
          hsvD, hB.1, hD.1]
      · intro hfnew
        have hfx : (x.sim.node j).forced = false := by
          rw [forced_probeWriteE, hffD1 j] at hfnew
          exact hfnew
        have horig := hsc j (fun hm => (List.mem_cons.mp hm).elim hjk hj) hfx
        rw [scratch_probeWriteE _ _ _ _ (fun hh => hjk hh.symm),
          scratch_probeWriteE _ _ _ _ (fun hh => hjk hh.symm),
          (heffD1.2 j).2, (heffD2.2 j).2, scratch_probeWriteC, scratch_probeWriteC,
          (heffB1.2 j).2, (heffB2.2 j).2,
          scratch_probeWriteA _ _ _ _ (fun hh => hjk hh.symm),
          scratch_probeWriteA _ _ _ _ (fun hh => hjk hh.symm)]
        exact horig

theorem probeAcc_ext {a b : ProbeAcc} (h1 : a.sim = b.sim) (h2 : a.fallback = b.fallback)
    (h3 : a.fallbackScore = b.fallbackScore) (h4 : a.magnitude = b.magnitude)
    (h5 : a.calls = b.calls) : a = b := by
  cases a; cases b
  simp only [ProbeAcc.mk.injEq]
  exact ⟨h1, h2, h3, h4, h5⟩

theorem probePhase_congr (coeff gain dt delta score1 : ℚ) {s t : SimState}
    (h : simVCEq s t) (hz1 : forcedScratchZero s) (hz2 : forcedScratchZero t) :
    probeRel [] (probePhase coeff gain dt delta score1 s)
      (probePhase coeff gain dt delta score1 t) ∧
    forcedScratchZero (probePhase coeff gain dt delta score1 s).sim ∧
    forcedScratchZero (probePhase coeff gain dt delta score1 t).sim := by
  have hlen : t.nodeList.length = s.nodeList.length := h.1.symm
  unfold probePhase
  rw [hlen]
  refine (foldl_pending (fun pending a b =>
      (probeRel pending a b ∧ forcedScratchZero a.sim ∧ forcedScratchZero b.sim) ∧
        ∀ m ∈ pending, m < a.sim.nodeList.length)
    (probeStep coeff gain dt delta) (probeStep coeff gain dt delta)
    (fun ks k a b hab => ?_) (List.range s.nodeList.length)
    ⟨s, none, score1, 0, 1⟩ ⟨t, none, score1, 0, 1⟩
    ⟨⟨⟨h, rfl, rfl, rfl, rfl, fun j hj hf => ?_⟩, hz1, hz2⟩,
      fun m hm => List.mem_range.mp hm⟩).1
  · have hk : k < a.sim.nodeList.length := hab.2 k (List.mem_cons_self k ks)
    have hstep := probeStep_congr coeff gain dt delta hk hab.1
    refine ⟨hstep, fun m hm => ?_⟩
    rw [(probeStep_stepQuiet coeff gain dt delta a k).1]
    exact hab.2 m (List.mem_cons_of_mem _ hm)
  · have hjn : s.nodeList.length ≤ j := by
      by_contra hlt
      exact hj (List.mem_range.mpr (by omega))
    rw [show s.node j = nodeDefault from List.getD_eq_default _ _ hjn,
      show t.node j = nodeDefault from List.getD_eq_default _ _ (by omega)]

theorem probePhase_full_eq (coeff gain dt delta score1 : ℚ) {s t : SimState}
    (h : simVCEq s t) (hz1 : forcedScratchZero s) (hz2 : forcedScratchZero t) :
    probePhase coeff gain dt delta score1 s = probePhase coeff gain dt delta score1 t := by
  obtain ⟨⟨hvc, hfb, hfs, hmag, hcalls, hsc⟩, hz1', hz2'⟩ :=
    probePhase_congr coeff gain dt delta score1 h hz1 hz2
  refine probeAcc_ext ?_ hfb hfs hmag hcalls
  exact simEq_of_simVCEq_scratch hvc
    (fun j => scratch_all_eq hvc (fun i => hsc i (List.not_mem_nil i)) hz1' hz2' j)

theorem stepRel_refl (u : StepOut) : stepRel u u := by
  cases u with
  | ok r s => exact ⟨rfl, .inl rfl⟩
  | gradErr s a b => exact ⟨rfl, rfl, .inl rfl⟩
  | noFuel s a b => exact ⟨rfl, rfl, .inl rfl⟩

theorem simRel0_of_simRelC {s t : SimState} (h : simRelC s t) : simRel0 s t := by
  rcases h with rfl | ⟨hv, h1, h2⟩
  · exact .inl rfl
  · exact .inr ⟨simVEq_of_simVCEq hv, h1, h2⟩

theorem adjustNodeVoltages_congr (rsqrt : ℚ → ℚ) (fuel : Nat) (coeff gain dt tol delta : ℚ)
    {s t : SimState} (h : simRel0 s t) :
    (adjustNodeVoltages rsqrt fuel coeff gain dt tol delta s).1 =
      (adjustNodeVoltages rsqrt fuel coeff gain dt tol delta t).1 ∧
    (adjustNodeVoltages rsqrt fuel coeff gain dt tol delta s).2.2 =
      (adjustNodeVoltages rsqrt fuel coeff gain dt tol delta t).2.2 ∧
    simRelC (adjustNodeVoltages rsqrt fuel coeff gain dt tol delta s).2.1
      (adjustNodeVoltages rsqrt fuel coeff gain dt tol delta t).2.1 := by
  rcases h with rfl | ⟨hv, hz1, hz2⟩
  · exact ⟨rfl, rfl, .inl rfl⟩
  · have huc := updateCurrents_congr coeff gain dt hv
    have hzu1 := fsz_updateCurrents coeff gain dt hz1
    have hzu2 := fsz_updateCurrents coeff gain dt hz2
    simp only [adjustNodeVoltages]
    rw [huc.1]
    by_cases hcv : (updateCurrents coeff gain dt t).2 < tol * tol
    · rw [if_pos hcv, if_pos hcv]
      exact ⟨rfl, rfl, .inr ⟨huc.2, hzu1, hzu2⟩⟩
    · rw [if_neg hcv, if_neg hcv,
        probePhase_full_eq coeff gain dt delta (updateCurrents coeff gain dt t).2 huc.2
          hzu1 hzu2]
      exact ⟨rfl, rfl, .inl rfl⟩

theorem retryLoop_congr (rsqrt : ℚ → ℚ) (fuel : Nat) (coeff gain dt tol delta : ℚ)
    (r : Nat) : ∀ (count calls : Nat) {s t : SimState}, simRel0 s t →
    stepRel (retryLoop rsqrt fuel coeff gain dt tol delta r count calls s)
      (retryLoop rsqrt fuel coeff gain dt tol delta r count calls t) := by
  induction r with
  | zero =>
    intro count calls s t h
    rcases h with rfl | ⟨hv, hz1, hz2⟩
    · exact stepRel_refl _
    · have huc := updateCurrents_congr coeff gain dt hv
      simp only [retryLoop]
      exact ⟨by rw [huc.1], .inr ⟨simVEq_of_simVCEq huc.2, fsz_updateCurrents _ _ _ hz1,
        fsz_updateCurrents _ _ _ hz2⟩⟩
  | succ r ih =>
    intro count calls s t h
    have ha := adjustNodeVoltages_congr rsqrt fuel coeff gain dt tol delta h
    simp only [retryLoop]
    rw [ha.1, ha.2.1]
    cases hout : (adjustNodeVoltages rsqrt fuel coeff gain dt tol delta t).1 with
    | converged s1 => exact ⟨rfl, simRel0_of_simRelC ha.2.2⟩
    | halted s1 => exact ⟨rfl, simRel0_of_simRelC ha.2.2⟩
    | progress =>
      exact ih (count + 1) (calls + (adjustNodeVoltages rsqrt fuel coeff gain dt tol delta t).2.2)
        (simRel0_of_simRelC ha.2.2)
    | zeroGradient => exact ⟨rfl, rfl, simRel0_of_simRelC ha.2.2⟩
    | fuelOut => exact ⟨rfl, rfl, simRel0_of_simRelC ha.2.2⟩

theorem shiftPhase_congr {s t : SimState} (h : simVEq s t) :
    simVEq (shiftPhase s) (shiftPhase t) := by
  refine ⟨?_, fun j => ?_, h.2.2.1, h.2.2.2.1, h.2.2.2.2⟩
  · simp only [shiftPhase, List.length_map]
    exact h.1
  · rw [node_shiftPhase, node_shiftPhase]
    exact ⟨(h.2.1 j).1, (h.2.1 j).1, (h.2.1 j).2.1, (h.2.1 j).2.2.2⟩

theorem capShiftPhase_congr {s t : SimState} (h : simVEq s t) :
    simVEq (capShiftPhase s) (capShiftPhase t) := by
  refine ⟨h.1, h.2.1, h.2.2.1, ?_, h.2.2.2.2⟩
  simp only [capShiftPhase]
  rw [h.2.2.2.1]

theorem opAmpShiftPhase_congr {s t : SimState} (h : simVEq s t) :
    simVEq (opAmpShiftPhase s) (opAmpShiftPhase t) := by
  refine ⟨h.1, h.2.1, h.2.2.1, h.2.2.2.1, ?_⟩
  simp only [opAmpShiftPhase]
  rw [h.2.2.2.2]

theorem extrapolatePhase_congr {s t : SimState} (h : simVEq s t) :
    simVEq (extrapolatePhase s) (extrapolatePhase t) := by
  refine ⟨?_, fun j => ?_, h.2.2.1, h.2.2.2.1, h.2.2.2.2⟩
  · simp only [extrapolatePhase, List.length_map]
    exact h.1
  · rw [node_extrapolatePhase, node_extrapolatePhase]
    have hf := (h.2.1 j).2.2.2
    by_cases hc : (s.node j).forced = true
    · rw [if_pos hc, if_pos (by rw [← hf]; exact hc)]
      exact h.2.1 j
    · rw [if_neg hc, if_neg (by rw [← hf]; exact hc)]
      exact ⟨by rw [(h.2.1 j).2.1, (h.2.1 j).2.2.1], (h.2.1 j).2.1, (h.2.1 j).2.2.1, hf⟩

theorem simulationStep_congr (rsqrt : ℚ → ℚ) (fuel : Nat) (coeff gain tol delta : ℚ)
    (retryLimit : Nat) (simRate : ℚ) {s t : SimState} (h : simRel0 s t) :
    stepRel (simulationStep rsqrt fuel coeff gain tol delta retryLimit simRate s)
      (simulationStep rsqrt fuel coeff gain tol delta retryLimit simRate t) := by
  rcases h with rfl | ⟨hv, hz1, hz2⟩
  · exact stepRel_refl _
  · unfold simulationStep
    refine retryLoop_congr rsqrt fuel coeff gain (1 / simRate) tol delta retryLimit 0 0
      (.inr ⟨?_, ?_, ?_⟩)
    · exact extrapolatePhase_congr (opAmpShiftPhase_congr (capShiftPhase_congr
        (shiftPhase_congr hv)))
    · exact fsz_extrapolatePhase (fsz_opAmpShiftPhase (fsz_capShiftPhase (fsz_shiftPhase hz1)))
    · exact fsz_extrapolatePhase (fsz_opAmpShiftPhase (fsz_capShiftPhase (fsz_shiftPhase hz2)))

theorem updLoop_congr (rsqrt : ℚ → ℚ) (fuel : Nat) (coeff gain tol delta : ℚ)
    (retryLimit : Nat) (simRate : ℚ) (k : Nat) :
    ∀ (res : SolutionResult) {s t : SimState}, simRel0 s t →
    stepRel (updLoop rsqrt fuel coeff gain tol delta retryLimit simRate k res s)
      (updLoop rsqrt fuel coeff gain tol delta retryLimit simRate k res t) := by
  induction k with
  | zero =>
    intro res s t h
    simp only [updLoop]
    exact ⟨rfl, h⟩
  | succ k ih =>
    intro res s t h
    have hs := simulationStep_congr rsqrt fuel coeff gain tol delta retryLimit simRate h
    simp only [updLoop]
    cases h1 : simulationStep rsqrt fuel coeff gain tol delta retryLimit simRate s with
    | ok r1 s1 =>
      cases h2 : simulationStep rsqrt fuel coeff gain tol delta retryLimit simRate t with
      | ok r2 s2 =>
        rw [h1, h2] at hs
        obtain ⟨req, hrel⟩ := hs
        cases req
        exact ih ⟨res.adjustNodeVoltagesCount + r1.adjustNodeVoltagesCount,
          res.currentUpdates + r1.currentUpdates, r1.scoreSq⟩ hrel
      | gradErr s2 a2 b2 =>
        rw [h1, h2] at hs
        exact hs.elim
      | noFuel s2 a2 b2 =>
        rw [h1, h2] at hs
        exact hs.elim
    | gradErr s1 a1 b1 =>
      cases h2 : simulationStep rsqrt fuel coeff gain tol delta retryLimit simRate t with
      | ok r2 s2 =>
        rw [h1, h2] at hs
        exact hs.elim
      | gradErr s2 a2 b2 =>
        rw [h1, h2] at hs
        obtain ⟨ha2, hb2, hrel⟩ := hs
        exact ⟨by rw [ha2], by rw [hb2], hrel⟩
      | noFuel s2 a2 b2 =>
        rw [h1, h2] at hs
        exact hs.elim
    | noFuel s1 a1 b1 =>
      cases h2 : simulationStep rsqrt fuel coeff gain tol delta retryLimit simRate t with
      | ok r2 s2 =>
        rw [h1, h2] at hs
        exact hs.elim
      | gradErr s2 a2 b2 =>
        rw [h1, h2] at hs
        exact hs.elim
      | noFuel s2 a2 b2 =>
        rw [h1, h2] at hs
        obtain ⟨ha2, hb2, hrel⟩ := hs
        exact ⟨by rw [ha2], by rw [hb2], hrel⟩

theorem getD_map (f : α → β) (l : List α) (j : Nat) (d : α) :
    (l.map f).getD j (f d) = f (l.getD j d) := by
  induction l generalizing j with
  | nil => cases j <;> rfl
  | cons a t ih =>
    cases j with
    | zero => rfl
    | succ n => exact ih n

theorem getD_map_fix (f : α → α) (l : List α) (j : Nat) (d : α) (hd : f d = d) :
    (l.map f).getD j d = f (l.getD j d) := by
  conv_lhs => rw [← hd]
  rw [getD_map]

theorem simRel0_nodeVEq {s t : SimState} (h : simRel0 s t) :
    s.nodeList.length = t.nodeList.length ∧ ∀ j, nodeVEq (s.node j) (t.node j) := by
  rcases h with rfl | ⟨hv, h1, h2⟩
  · exact ⟨rfl, fun j => nodeVEq_refl _⟩
  · exact ⟨hv.1, hv.2.1⟩

theorem forced_resetState (n : Node) : (Node.resetState n).forced = n.forced := by
  unfold Node.resetState
  split <;> rfl

theorem scratch_resetState (n : Node) : scratchCore (Node.resetState n) = scratchCore n := by
  unfold Node.resetState
  split <;> rfl

theorem resetState_node (c : Circuit) (j : Nat) :
    (Circuit.resetState c).sim.node j = Node.resetState (c.sim.node j) := by
  show (c.sim.nodeList.map Node.resetState).getD j nodeDefault = _
  exact getD_map_fix Node.resetState _ j nodeDefault (by decide)

theorem resistor_ext {r1 r2 : Resistor} (h : resistorConfig r1 = resistorConfig r2)
    (hc : r1.current = r2.current) : r1 = r2 := by
  cases r1; cases r2
  simp only [resistorConfig, Prod.mk.injEq] at h
  simp only [Resistor.mk.injEq]
  exact ⟨h.1, h.2.1, h.2.2, hc⟩

theorem capacitor_ext {k1 k2 : Capacitor} (h : capacitorConfig k1 = capacitorConfig k2)
    (hc0 : k1.current0 = k2.current0) (hc1 : k1.current1 = k2.current1) : k1 = k2 := by
  cases k1; cases k2
  simp only [capacitorConfig, Prod.mk.injEq] at h
  simp only [Capacitor.mk.injEq]
  exact ⟨h.1, h.2.1, h.2.2, hc0, hc1⟩

theorem opAmp_ext {o1 o2 : OpAmp} (h : opAmpConfig o1 = opAmpConfig o2)
    (hc : o1.current = o2.current) (hv0 : o1.voltage0 = o2.voltage0)
    (hv1 : o1.voltage1 = o2.voltage1) : o1 = o2 := by
  cases o1; cases o2
  simp only [opAmpConfig, Prod.mk.injEq] at h
  simp only [OpAmp.mk.injEq]
  exact ⟨h.1, h.2.1, h.2.2, hc, hv0, hv1⟩

theorem fsz_of_bounded {s : SimState}
    (h : ∀ j < s.nodeList.length, (s.node j).forced = true → scratchCore (s.node j) = (0, 0)) :
    forcedScratchZero s := by
  intro j hf
  by_cases hj : j < s.nodeList.length
  · exact h j hj hf
  · rw [show s.node j = nodeDefault from List.getD_eq_default _ _ (Nat.le_of_not_lt hj)] at hf
    exact absurd hf (by decide)

theorem resetState_simRel0 {c f : Circuit} (h : resetTwin c f) :
    simRel0 (Circuit.resetState c).sim f.sim := by
  obtain ⟨hlen, hflag, hhist, hres, hcap, hop, hfresh, hfszb, _, _, _, _, _, _⟩ := h
  have hlenr : c.sim.resistorList.length = f.sim.resistorList.length := by
    have hx := congrArg List.length hres
    simpa using hx
  have hlenc : c.sim.capacitorList.length = f.sim.capacitorList.length := by
    have hx := congrArg List.length hcap
    simpa using hx
  have hleno : c.sim.opAmpList.length = f.sim.opAmpList.length := by
    have hx := congrArg List.length hop
    simpa using hx
  refine .inr ⟨⟨?_, ?_, ?_, ?_, ?_⟩, ?_, ?_⟩
  · show (c.sim.nodeList.map Node.resetState).length = _
    rw [List.length_map]
    exact hlen
  · intro j
    rw [resetState_node]
    by_cases hj : j < c.sim.nodeList.length
    · have hf := hflag j hj
      unfold Node.resetState
      by_cases hforced : (c.sim.node j).forced
      · rw [if_pos hforced]
        obtain ⟨e0, e1, e2⟩ := hhist j hj hforced
        exact ⟨e0, e1, e2, hf⟩
      · rw [if_neg hforced]
        have hcf : (c.sim.node j).forced = false := by
          revert hforced
          cases (c.sim.node j).forced <;> simp
        have hjf : j < f.sim.nodeList.length := hlen ▸ hj
        have hz := hfresh.1 _ (getD_mem nodeDefault hjf)
        have hforcedf : (f.sim.node j).forced = false := by
          rw [← hf]
          exact hcf
        obtain ⟨v0, v1, v2⟩ := hz.2.2.2 hforcedf
        exact ⟨v0.symm, v1.symm, v2.symm, hf⟩
    · have hjf : f.sim.nodeList.length ≤ j := by omega
      rw [show c.sim.node j = nodeDefault from List.getD_eq_default _ _ (by omega),
        show f.sim.node j = nodeDefault from List.getD_eq_default _ _ hjf]
      exact nodeVEq_refl _
  · show c.sim.resistorList.map (fun r => { r with current := 0 }) = f.sim.resistorList
    refine list_eq_of_getD resistorDefault (by rw [List.length_map]; exact hlenr) ?_
    intro j
    by_cases hj : j < c.sim.resistorList.length
    · rw [getD_map_fix _ _ _ _ (by decide)]
      have hcfg : (c.sim.resistorList.map resistorConfig).getD j
          (resistorConfig resistorDefault) = (f.sim.resistorList.map resistorConfig).getD j
          (resistorConfig resistorDefault) := by rw [hres]
      rw [getD_map, getD_map] at hcfg
      have hjf : j < f.sim.resistorList.length := hlenr ▸ hj
      have hcur := hfresh.2.1 _ (getD_mem resistorDefault hjf)
      exact resistor_ext hcfg (by rw [hcur])
    · rw [List.getD_eq_default _ _ (by rw [List.length_map]; omega),
        List.getD_eq_default _ _ (by omega)]
  · show c.sim.capacitorList.map (fun k => { k with current0 := 0, current1 := 0 }) =
      f.sim.capacitorList
    refine list_eq_of_getD capacitorDefault (by rw [List.length_map]; exact hlenc) ?_
    intro j
    by_cases hj : j < c.sim.capacitorList.length
    · rw [getD_map_fix _ _ _ _ (by decide)]
      have hcfg : (c.sim.capacitorList.map capacitorConfig).getD j
          (capacitorConfig capacitorDefault) = (f.sim.capacitorList.map capacitorConfig).getD j
          (capacitorConfig capacitorDefault) := by rw [hcap]
      rw [getD_map, getD_map] at hcfg
      have hjf : j < f.sim.capacitorList.length := hlenc ▸ hj
      have hcur := hfresh.2.2.1 _ (getD_mem capacitorDefault hjf)
      exact capacitor_ext hcfg (by rw [hcur.1]) (by rw [hcur.2])
    · rw [List.getD_eq_default _ _ (by rw [List.length_map]; omega),
        List.getD_eq_default _ _ (by omega)]
  · show c.sim.opAmpList.map (fun o => { o with current := 0, voltage0 := 0, voltage1 := 0 }) =
      f.sim.opAmpList
    refine list_eq_of_getD opAmpDefault (by rw [List.length_map]; exact hleno) ?_
    intro j
    by_cases hj : j < c.sim.opAmpList.length
    · rw [getD_map_fix _ _ _ _ (by decide)]
      have hcfg : (c.sim.opAmpList.map opAmpConfig).getD j
          (opAmpConfig opAmpDefault) = (f.sim.opAmpList.map opAmpConfig).getD j
          (opAmpConfig opAmpDefault) := by rw [hop]
      rw [getD_map, getD_map] at hcfg
      have hjf : j < f.sim.opAmpList.length := hleno ▸ hj
      have hcur := hfresh.2.2.2 _ (getD_mem opAmpDefault hjf)
      exact opAmp_ext hcfg (by rw [hcur.1]) (by rw [hcur.2.1]) (by rw [hcur.2.2])
    · rw [List.getD_eq_default _ _ (by rw [List.length_map]; omega),
        List.getD_eq_default _ _ (by omega)]
  · intro j hf
    rw [resetState_node] at hf ⊢
    rw [forced_resetState] at hf
    rw [scratch_resetState]
    exact fsz_of_bounded hfszb j hf
  · intro j hf
    by_cases hj : j < f.sim.nodeList.length
    · have hz := hfresh.1 _ (getD_mem nodeDefault hj)
      show ((f.sim.nodeList.getD j nodeDefault).savedVoltage,
        (f.sim.nodeList.getD j nodeDefault).slope) = (0, 0)
      rw [hz.1, hz.2.2.1]
    · rw [show f.sim.node j = nodeDefault from
        List.getD_eq_default _ _ (Nat.le_of_not_lt hj)] at hf
      exact absurd hf (by decide)

theorem update_agrees_of_simRel0 (rsqrt : ℚ → ℚ) (fuel : Nat) (coeffP rate : ℚ)
    {c f : Circuit} (hrel : simRel0 c.sim f.sim)
    (h1 : c.minInternalSamplingRate = f.minInternalSamplingRate)
    (h2 : c.opAmpSlewRateHalfLifeSeconds = f.opAmpSlewRateHalfLifeSeconds)
    (h3 : c.opAmpOpenLoopGain = f.opAmpOpenLoopGain)
    (h4 : c.scoreTolerance = f.scoreTolerance)
    (h5 : c.deltaVoltage = f.deltaVoltage)
    (h6 : c.retryLimit = f.retryLimit) :
    updateAgrees (Circuit.update rsqrt fuel coeffP rate c)
      (Circuit.update rsqrt fuel coeffP rate f) := by
  have hops : c.sim.opAmpList = f.sim.opAmpList := by
    rcases hrel with heq | ⟨hv, hz1, hz2⟩
    · rw [heq]
    · exact hv.2.2.2.2
  simp only [Circuit.update]
  by_cases hr : rate ≤ 0
  · rw [if_pos hr, if_pos hr]
    exact ⟨rfl, rfl, (simRel0_nodeVEq hrel).1, (simRel0_nodeVEq hrel).2⟩
  · rw [if_neg hr, if_neg hr, h1, h2, h3, h4, h5, h6, hops]
    have key := updLoop_congr rsqrt fuel
      (if f.sim.opAmpList ≠ [] ∧ 0 < f.opAmpSlewRateHalfLifeSeconds then coeffP else 0)
      f.opAmpOpenLoopGain f.scoreTolerance f.deltaVoltage f.retryLimit
      (((max 1 ⌈(f.minInternalSamplingRate : ℚ) / rate⌉ : ℤ) : ℚ) * rate)
      (max 1 ⌈(f.minInternalSamplingRate : ℚ) / rate⌉).toNat ⟨0, 0, -1⟩ hrel
    cases hu : updLoop rsqrt fuel
        (if f.sim.opAmpList ≠ [] ∧ 0 < f.opAmpSlewRateHalfLifeSeconds then coeffP else 0)
        f.opAmpOpenLoopGain f.scoreTolerance f.deltaVoltage f.retryLimit
        (((max 1 ⌈(f.minInternalSamplingRate : ℚ) / rate⌉ : ℤ) : ℚ) * rate)
        (max 1 ⌈(f.minInternalSamplingRate : ℚ) / rate⌉).toNat ⟨0, 0, -1⟩ c.sim with
    | ok r1 s1 =>
      cases hv : updLoop rsqrt fuel
        (if f.sim.opAmpList ≠ [] ∧ 0 < f.opAmpSlewRateHalfLifeSeconds then coeffP else 0)
        f.opAmpOpenLoopGain f.scoreTolerance f.deltaVoltage f.retryLimit
        (((max 1 ⌈(f.minInternalSamplingRate : ℚ) / rate⌉ : ℤ) : ℚ) * rate)
        (max 1 ⌈(f.minInternalSamplingRate : ℚ) / rate⌉).toNat ⟨0, 0, -1⟩ f.sim with
      | ok r2 s2 =>
        rw [hu, hv] at key
        obtain ⟨req, hrel2⟩ := key
        cases req
        exact ⟨rfl, rfl, (simRel0_nodeVEq hrel2).1, (simRel0_nodeVEq hrel2).2⟩
      | gradErr s2 a2 b2 =>
        rw [hu, hv] at key
        exact key.elim
      | noFuel s2 a2 b2 =>
        rw [hu, hv] at key
        exact key.elim
    | gradErr s1 a1 b1 =>
      cases hv : updLoop rsqrt fuel
        (if f.sim.opAmpList ≠ [] ∧ 0 < f.opAmpSlewRateHalfLifeSeconds then coeffP else 0)
        f.opAmpOpenLoopGain f.scoreTolerance f.deltaVoltage f.retryLimit
        (((max 1 ⌈(f.minInternalSamplingRate : ℚ) / rate⌉ : ℤ) : ℚ) * rate)
        (max 1 ⌈(f.minInternalSamplingRate : ℚ) / rate⌉).toNat ⟨0, 0, -1⟩ f.sim with
      | ok r2 s2 =>
        rw [hu, hv] at key
        exact key.elim
      | gradErr s2 a2 b2 =>
        rw [hu, hv] at key
        obtain ⟨ha2, hb2, hrel2⟩ := key
        exact ⟨rfl, rfl, (simRel0_nodeVEq hrel2).1, (simRel0_nodeVEq hrel2).2⟩
      | noFuel s2 a2 b2 =>
        rw [hu, hv] at key
        exact key.elim
    | noFuel s1 a1 b1 =>
      cases hv : updLoop rsqrt fuel
        (if f.sim.opAmpList ≠ [] ∧ 0 < f.opAmpSlewRateHalfLifeSeconds then coeffP else 0)
        f.opAmpOpenLoopGain f.scoreTolerance f.deltaVoltage f.retryLimit
        (((max 1 ⌈(f.minInternalSamplingRate : ℚ) / rate⌉ : ℤ) : ℚ) * rate)
        (max 1 ⌈(f.minInternalSamplingRate : ℚ) / rate⌉).toNat ⟨0, 0, -1⟩ f.sim with
      | ok r2 s2 =>
        rw [hu, hv] at key
        exact key.elim
      | gradErr s2 a2 b2 =>
        rw [hu, hv] at key
        exact key.elim
      | noFuel s2 a2 b2 =>
        rw [hu, hv] at key
        obtain ⟨ha2, hb2, hrel2⟩ := key
        exact ⟨rfl, rfl, (simRel0_nodeVEq hrel2).1, (simRel0_nodeVEq hrel2).2⟩

/-- **C4** (amended).  `initialize()` zeroes `totalAdjustNodeVoltagesCount`,
`totalSamples` and `simulationTime` but leaves `totalCurrentUpdates` and the
node scratch/current fields untouched; it resets every unforced node's
voltage history and every component's dynamic state without disturbing the
topology, and the next `update` then agrees observably (outcome kind,
returned result, and all node voltages) with the very first `update` on a
freshly built circuit with the same topology, forced inputs and tunables. -/
theorem claim4_amended (rsqrt : ℚ → ℚ) (fuel : Nat) (coeffP rate : ℚ)
    {c f : Circuit} (h : resetTwin c f) :
    ((Circuit.resetState c).totalAdjustNodeVoltagesCount = 0 ∧
     (Circuit.resetState c).totalSamples = 0 ∧
     (Circuit.resetState c).simulationTime = 0 ∧
     (Circuit.resetState c).totalCurrentUpdates = c.totalCurrentUpdates ∧
     (Circuit.resetState c).isLocked = c.isLocked ∧
     (Circuit.resetState c).sim.nodeList.length = c.sim.nodeList.length ∧
     (Circuit.resetState c).sim.resistorList.map resistorConfig =
       c.sim.resistorList.map resistorConfig ∧
     (Circuit.resetState c).sim.capacitorList.map capacitorConfig =
       c.sim.capacitorList.map capacitorConfig ∧
     (Circuit.resetState c).sim.opAmpList.map opAmpConfig =
       c.sim.opAmpList.map opAmpConfig ∧
     (∀ j, ((Circuit.resetState c).sim.node j).forced = (c.sim.node j).forced) ∧
     (∀ j, ((Circuit.resetState c).sim.node j).forced = false →
        ((Circuit.resetState c).sim.node j).voltage0 = 0 ∧
        ((Circuit.resetState c).sim.node j).voltage1 = 0 ∧
        ((Circuit.resetState c).sim.node j).voltage2 = 0) ∧
     (∀ r ∈ (Circuit.resetState c).sim.resistorList, r.current = 0) ∧
     (∀ k ∈ (Circuit.resetState c).sim.capacitorList,
        k.current0 = 0 ∧ k.current1 = 0) ∧
     (∀ o ∈ (Circuit.resetState c).sim.opAmpList,
        o.current = 0 ∧ o.voltage0 = 0 ∧ o.voltage1 = 0)) ∧
    updateAgrees (Circuit.update rsqrt fuel coeffP rate (Circuit.resetState c))
      (Circuit.update rsqrt fuel coeffP rate f) := by
  obtain ⟨hlen, hflag, hhist, hres, hcap, hop, hfresh, hfszb,
    e1, e2, e3, e4, e5, e6⟩ := h
  constructor
  · refine ⟨rfl, rfl, rfl, rfl, rfl, ?_, ?_, ?_, ?_, ?_, ?_, ?_, ?_, ?_⟩
    · show (c.sim.nodeList.map Node.resetState).length = _
      rw [List.length_map]
    · show (c.sim.resistorList.map _).map resistorConfig = _
      rw [List.map_map]
      exact List.map_congr_left (fun a ha => rfl)
    · show (c.sim.capacitorList.map _).map capacitorConfig = _
      rw [List.map_map]
      exact List.map_congr_left (fun a ha => rfl)
    · show (c.sim.opAmpList.map _).map opAmpConfig = _
      rw [List.map_map]
      exact List.map_congr_left (fun a ha => rfl)
    · intro j
      rw [resetState_node, forced_resetState]
    · intro j hff
      rw [resetState_node] at hff ⊢
      rw [forced_resetState] at hff
      unfold Node.resetState
      rw [if_neg (by rw [hff]; exact Bool.false_ne_true)]
      exact ⟨rfl, rfl, rfl⟩
    · intro r hr
      obtain ⟨r0, hr0, rfl⟩ := List.mem_map.mp hr
      rfl
    · intro k hk
      obtain ⟨k0, hk0, rfl⟩ := List.mem_map.mp hk
      exact ⟨rfl, rfl⟩
    · intro o ho
      obtain ⟨o0, ho0, rfl⟩ := List.mem_map.mp ho
      exact ⟨rfl, rfl, rfl⟩
  · exact update_agrees_of_simRel0 rsqrt fuel coeffP rate
      (resetState_simRel0 ⟨hlen, hflag, hhist, hres, hcap, hop, hfresh, hfszb,
        e1, e2, e3, e4, e5, e6⟩) e1 e2 e3 e4 e5 e6

/-- **C4** counterexample to the literal claim: `initialize()` does not
reset all counters and currents — `totalCurrentUpdates` survives (5, not
0) on `cex4`, and an unforced node's scratch `savedVoltage` (6) and
accumulated `current` (3) survive on `wit4run`. -/
theorem claim4_counterexample :
    (Circuit.resetState cex4).totalCurrentUpdates = 5 ∧
    ¬ (Circuit.resetState cex4).totalCurrentUpdates = 0 ∧
    ((Circuit.resetState wit4run).sim.node 1).savedVoltage = 6 ∧
    ((Circuit.resetState wit4run).sim.node 1).current = 3 := by
  with_unfolding_all decide

/-- **C4** witness: the round trip at a concrete circuit — the mid-run
`wit4run` after `initialize()` and its freshly built twin `wit4fresh`
produce observably equal first updates at 44100 Hz. -/
theorem claim4_witness :
    resetTwin wit4run wit4fresh ∧
    updateAgrees (Circuit.update (fun x => x) 1 0 44100 (Circuit.resetState wit4run))
      (Circuit.update (fun x => x) 1 0 44100 wit4fresh) := by
  have h : resetTwin wit4run wit4fresh := by
    refine ⟨?_, ?_, ?_, ?_, ?_, ?_, ?_, ?_, rfl, rfl, rfl, rfl, rfl, rfl⟩ <;>
      with_unfolding_all decide
  exact ⟨h, (claim4_amended (fun x => x) 1 0 44100 h).2⟩

end Sloth
